import Mathlib

/-!
# mini-orm: statement builder, entity model, scanner and session operations

A shallow embedding of the Go package `mini_orm` (statement.go, errors.go,
condition.go, scanner.go, session.go, core.go).

Conventions of the embedding.

* A Go function that may panic returns `Run α`, which is `Except String α`;
  `Except.error msg` is a panic with message `msg`.  Go `error` results are
  ordinary return values of type `Option Err` (`none` is the nil error).
* A Go map is an association list with pairwise distinct keys (`mapSet`
  overwrites the entry of an existing key).  `range` over a map visits the
  entries in an order the language leaves open; every function that ranges over
  a map takes that order as the argument `rng`, a function that rearranges the
  entry list.
* The SQL text is produced by the external library squirrel; its four `ToSql`
  renderers are the fields of the parameter `Squirrel`.  Everything the
  package itself does up to that call (guards, builder calls, condition
  conversion) is embedded.  `squirrelModel` is a model of the renderers for the
  statements about the SQL text itself.
* `ToSnakeCase` and the driver (`ExecContext` / `QueryContext`, the
  transaction calls) are parameters as well.
* The per-kind value coercion of `SetEntity` is the parameter `Coerce` of the
  scanner functions; `coerceField` is the coercion of the source, with
  `strconv.ParseInt` embedded and the floating-point, `Stringer` and
  reflect-conversion calls of the standard library taken from `GoLib`.
* A struct field is exported when its name starts with an upper-case letter
  (`isExported`).  `Field(i).Interface()`, by which `Insert`, `Update` and
  `Delete` read an entity, panics on an unexported field
  (`RValue.FieldInterface`).  The setters of `SetEntity` panic on an unexported
  field as well; the scanner part of the embedding covers entity types all of
  whose fields are exported.
* Of the context of a session only whether it is nil matters (`hasCtx`):
  `initCtx` sets it before a query or an execution, `BeginTx` passes it on as it
  is, and `sql.DB.BeginTx` panics on the nil context.
* The transaction calls of the driver are functions of the calls made before
  (`TxDriver`); `sqlTx` is the behaviour of a `*sql.Tx`, which is done after its
  first `Commit` or `Rollback` and answers `sql.ErrTxDone` from then on.
* `defer scanner.Close()` and the trace output of logger.go have no effect on
  the results and are left out.
-/

namespace MiniOrm

/-! ## Values and errors -/

/-- The package errors of errors.go; `foreign` is an error value made elsewhere
(driver, squirrel, `fmt.Errorf`). -/
inductive Err
  | CFBNotAllowEmpty
  | StatementTableNotSet
  | StatementTypeNotSet
  | ScannerRowsPointerNil
  | ScannerEntityNeedCanSet
  | ScannerEntiryTypeNotSupport
  | FindAllExpectSlice
  | FindOneExpectStruct
  | DeleteExpectSliceOrStruct
  | InsertExpectSliceOrStruct
  | UpdateExpectSliceOrStruct
  | ModelMissingPrimaryKey
  | ModelNotSupportType
  | RecordNotFound
  | foreign (msg : String)
  deriving DecidableEq, Repr

/-- A computation that may panic: `Except.error msg` is a Go panic. -/
abbrev Run (α : Type) := Except String α

/-- A dynamic Go value (`interface{}`): what a driver hands to `Scan`, what a
struct field holds, what is passed as a positional argument. -/
inductive Value
  | nil
  | bool (b : Bool)
  | int (bits : Nat) (n : Int)
  | uint (bits : Nat) (n : Nat)
  | float (bits : Nat) (x : Rat)
  | str (s : String)
  | bytes (b : List Nat)
  | ptr (v : Value)
  | other (type : String) (repr : String)
  deriving DecidableEq, Repr

/-! ## Conditions (condition.go) -/

/-- The value under one key of a condition map: a scalar or a sequence. -/
inductive CondValue
  | scalar (v : Value)
  | seq (vs : List Value)
  deriving DecidableEq, Repr

/-- The eight map-shaped condition types `Eq`, `Ne`, `Like`, `NotLike`, `GT`,
`GTE`, `LT`, `LTE`. -/
inductive CmpOp
  | Eq | Ne | Like | NotLike | GT | GTE | LT | LTE
  deriving DecidableEq, Repr

/-- A value of one of the map-shaped condition types (these are the types with
a `ToSqlizer` method): the operator and the entries of the `ConditionExpr`. -/
structure Cmp where
  op : CmpOp
  entries : List (String × CondValue)
  deriving DecidableEq, Repr

/-- What `Where` may be handed (`interface{}`): a map-shaped condition, `AND`,
`OR` (both `[]Sqlizer`, their elements taken from the eight map-shaped types,
the implementations of `Sqlizer` in the package), or anything else. -/
inductive Expr
  | cmp (c : Cmp)
  | AND (cs : List Cmp)
  | OR (cs : List Cmp)
  | unsupported (type : String)
  deriving DecidableEq, Repr

/-- The struct `Condition`. -/
structure Condition where
  Expr : Expr
  deriving DecidableEq, Repr

/-- squirrel's predicate values as the package builds them: `sq.Eq`, `sq.NotEq`,
`sq.Like`, `sq.NotLike`, `sq.Gt`, `sq.GtOrEq`, `sq.Lt`, `sq.LtOrEq` (a map each),
`sq.And`, `sq.Or` (a sequence of those). -/
inductive SqPred
  | cmp (op : CmpOp) (entries : List (String × CondValue))
  | and (ps : List (CmpOp × List (String × CondValue)))
  | or (ps : List (CmpOp × List (String × CondValue)))
  deriving DecidableEq, Repr

/-- Store `v` under `k` in a Go map: overwrite the entry of `k` when there is
one, add an entry otherwise. -/
def mapSet {β : Type} (k : String) (v : β) : List (String × β) → List (String × β)
  | [] => [(k, v)]
  | (k', v') :: rest => if k' = k then (k, v) :: rest else (k', v') :: mapSet k v rest

/-- Read a Go map: `m[k]` with the comma-ok result. -/
def mapGet {β : Type} (k : String) : List (String × β) → Option β
  | [] => none
  | (k', v') :: rest => if k' = k then some v' else mapGet k rest

/-- The method `ToSqlizer` of the eight map-shaped conditions: a fresh squirrel
map of the matching kind, filled entry by entry in `range` order. -/
def Cmp.ToSqlizer (rng : List (String × CondValue) → List (String × CondValue))
    (c : Cmp) : CmpOp × List (String × CondValue) :=
  (c.op, (rng c.entries).foldl (fun e kv => mapSet kv.1 kv.2 e) [])

/-! ## Statement (statement.go) -/

/-- The constants `UnknownStatement` .. `SelectStatement`. -/
inductive StatementType
  | UnknownStatement
  | InsertStatement
  | UpdateStatement
  | DeleteStatement
  | SelectStatement
  deriving DecidableEq, Repr

/-- The struct `Statement`. -/
structure Statement where
  stType : StatementType := StatementType.UnknownStatement
  table : String := ""
  columns : List String := []
  limit : Nat := 0
  offset : Nat := 0
  orderBys : List String := []
  conditions : List Condition := []
  values : List (List Value) := []
  deriving DecidableEq, Repr

/-- Method `Reset`. -/
def Statement.Reset (_st : Statement) : Statement :=
  { stType := StatementType.UnknownStatement, table := "", columns := [],
    offset := 0, limit := 0, conditions := [], orderBys := [], values := [] }

/-- Method `Columns`: replaces the column list. -/
def Statement.Columns (st : Statement) (columns : List String) : Statement :=
  { st with columns := [] ++ columns }

/-- Method `Select`. -/
def Statement.Select (st : Statement) (columns : List String) : Statement :=
  let st1 := { st.Reset with stType := StatementType.SelectStatement }
  if columns.length > 0 then st1.Columns columns else st1

/-- Method `From`. -/
def Statement.From (st : Statement) (table : String) : Statement :=
  { st with table := table }

/-- Method `Insert`. -/
def Statement.Insert (st : Statement) : Statement :=
  { st.Reset with stType := StatementType.InsertStatement }

/-- Method `Update`. -/
def Statement.Update (st : Statement) : Statement :=
  { st.Reset with stType := StatementType.UpdateStatement }

/-- Method `Delete`. -/
def Statement.Delete (st : Statement) : Statement :=
  { st.Reset with stType := StatementType.DeleteStatement }

/-- Method `Offset`. -/
def Statement.Offset (st : Statement) (offset : Nat) : Statement :=
  { st with offset := offset }

/-- Method `Limit`. -/
def Statement.Limit (st : Statement) (limit : Nat) : Statement :=
  { st with limit := limit }

/-- Method `Where`: one `Condition` appended per expression. -/
def Statement.Where (st : Statement) (expr : List Expr) : Statement :=
  expr.foldl (fun s e => { s with conditions := s.conditions ++ [Condition.mk e] }) st

/-- Method `OrderBy`. -/
def Statement.OrderBy (st : Statement) (orderby : List String) : Statement :=
  orderby.foldl (fun s o => { s with orderBys := s.orderBys ++ [o] }) st

/-- Method `Values`: one value row appended. -/
def Statement.Values (st : Statement) (val : List Value) : Statement :=
  { st with values := st.values ++ [val] }

/-- Method `ConvertCondition`; it panics on a shape that is none of the ten. -/
def ConvertCondition (rng : List (String × CondValue) → List (String × CondValue))
    (c : Expr) : Run SqPred :=
  match c with
  | Expr.cmp e => let p := e.ToSqlizer rng; pure (SqPred.cmp p.1 p.2)
  | Expr.AND es => pure (SqPred.and (es.map (fun v => v.ToSqlizer rng)))
  | Expr.OR es => pure (SqPred.or (es.map (fun v => v.ToSqlizer rng)))
  | Expr.unsupported _ => Except.error "ConvertCondition not support"

/-- State of a squirrel `SelectBuilder` after the calls `ToSQL` makes. -/
structure SelectBuilder where
  columns : List String
  src : String
  wheres : List SqPred := []
  offset : Option Nat := none
  limit : Option Nat := none
  orderBys : List String := []
  deriving DecidableEq, Repr

/-- State of a squirrel `DeleteBuilder`. -/
structure DeleteBuilder where
  src : String
  wheres : List SqPred := []
  offset : Option Nat := none
  limit : Option Nat := none
  orderBys : List String := []
  deriving DecidableEq, Repr

/-- State of a squirrel `InsertBuilder`. -/
structure InsertBuilder where
  into : String
  columns : List String := []
  values : List (List Value) := []
  deriving DecidableEq, Repr

/-- State of a squirrel `UpdateBuilder`: one map per `SetMap` call. -/
structure UpdateBuilder where
  table : String
  setMaps : List (List (String × Value)) := []
  wheres : List SqPred := []
  offset : Option Nat := none
  limit : Option Nat := none
  orderBys : List String := []
  deriving DecidableEq, Repr

/-- The three results of `ToSQL` and of squirrel's `ToSql`: text, positional
arguments (`none` is the nil slice), error. -/
structure SQLResult where
  sql : String
  args : Option (List Value)
  err : Option Err
  deriving DecidableEq, Repr

/-- The external renderers: squirrel's `ToSql` for each builder. -/
structure Squirrel where
  selectToSql : SelectBuilder → SQLResult
  deleteToSql : DeleteBuilder → SQLResult
  insertToSql : InsertBuilder → SQLResult
  updateToSql : UpdateBuilder → SQLResult

/-- The loop `for _, c := range st.conditions { builder.Where(st.ConvertCondition(c.Expr)) }`. -/
def convertConditions (rng : List (String × CondValue) → List (String × CondValue)) :
    List Condition → Run (List SqPred)
  | [] => pure []
  | c :: cs => do
    let p ← ConvertCondition rng c.Expr
    let ps ← convertConditions rng cs
    pure (p :: ps)

/-- The inner loop of the update branch: `uval[f] = v[i]` for every column; an
index past the end of the row panics. -/
def updateRowMap : List String → List Value → List (String × Value) → Run (List (String × Value))
  | [], _, uval => pure uval
  | _ :: _, [], _ => Except.error "index out of range"
  | f :: fs, x :: xs, uval => updateRowMap fs xs (mapSet f x uval)

/-- The outer loop of the update branch: one `SetMap` per value row. -/
def updateSetMaps (columns : List String) : List (List Value) → Run (List (List (String × Value)))
  | [] => pure []
  | v :: vs => do
    let uval ← updateRowMap columns v []
    let rest ← updateSetMaps columns vs
    pure (uval :: rest)

/-- Method `ToSQL`. -/
def Statement.ToSQL (sq : Squirrel)
    (rng : List (String × CondValue) → List (String × CondValue))
    (st : Statement) : Run SQLResult :=
  if st.table = "" then
    pure { sql := "", args := none, err := some Err.StatementTableNotSet }
  else if st.stType = StatementType.UnknownStatement then
    pure { sql := "", args := none, err := some Err.StatementTypeNotSet }
  else
    match st.stType with
    | StatementType.SelectStatement => do
      let wheres ← convertConditions rng st.conditions
      pure (sq.selectToSql
        { columns := if st.columns.length > 0 then st.columns else ["*"],
          src := st.table,
          wheres := wheres,
          offset := if st.offset > 0 then some st.offset else none,
          limit := if st.limit > 0 then some st.limit else none,
          orderBys := if st.orderBys.length > 0 then st.orderBys else [] })
    | StatementType.DeleteStatement => do
      let wheres ← convertConditions rng st.conditions
      pure (sq.deleteToSql
        { src := st.table,
          wheres := wheres,
          offset := if st.offset > 0 then some st.offset else none,
          limit := if st.limit > 0 then some st.limit else none,
          orderBys := if st.orderBys.length > 0 then st.orderBys else [] })
    | StatementType.InsertStatement =>
      pure (sq.insertToSql { into := st.table, columns := st.columns, values := st.values })
    | StatementType.UpdateStatement => do
      let setMaps ← updateSetMaps st.columns st.values
      let wheres ← convertConditions rng st.conditions
      pure (sq.updateToSql
        { table := st.table,
          setMaps := setMaps,
          wheres := wheres,
          offset := if st.offset > 0 then some st.offset else none,
          limit := if st.limit > 0 then some st.limit else none,
          orderBys := if st.orderBys.length > 0 then st.orderBys else [] })
    | StatementType.UnknownStatement =>
      pure { sql := "", args := none, err := some Err.StatementTypeNotSet }

/-! ## Entity types, destinations and the reflection calls the package makes -/

/-- The static type of a struct field, as far as its kind matters. -/
inductive FieldType
  | Bool
  | Int (bits : Nat)
  | Uint (bits : Nat)
  | Float (bits : Nat)
  | String
  | Ptr (elem : FieldType)
  | Other (name : String)
  deriving DecidableEq, Repr

/-- The zero value of a field type. -/
def FieldType.zero : FieldType → Value
  | FieldType.Bool => Value.bool false
  | FieldType.Int b => Value.int b 0
  | FieldType.Uint b => Value.uint b 0
  | FieldType.Float b => Value.float b 0
  | FieldType.String => Value.str ""
  | FieldType.Ptr _ => Value.nil
  | FieldType.Other n => Value.other n ""

/-- A `reflect.StructField`: identifier `Name`, the value of `Tag.Get("sql")`, and
the field `Type` (here `FType`). -/
structure StructField where
  Name : String
  sqlTag : String
  FType : FieldType
  deriving DecidableEq, Repr

/-- A struct type: its name, the text its `TableName` method returns when the
type has that hook, and its fields in declaration order. -/
structure StructType where
  name : String
  tableName : Option String
  fields : List StructField
  deriving DecidableEq, Repr

/-- The zero struct of a type: what `reflect.New` points to. -/
def StructType.zero (T : StructType) : List Value :=
  T.fields.map (fun f => f.FType.zero)

/-- A slice value, by element type: `[]T`, `[]*T` (an element may be the nil
pointer), a slice of pointers to something that is no struct, any other slice. -/
inductive SliceVal
  | structs (T : StructType) (elems : List (List Value))
  | ptrs (T : StructType) (elems : List (Option (List Value)))
  | ptrsOther (len : Nat)
  | other (len : Nat)
  deriving DecidableEq, Repr

/-- What a caller may pass as `dest interface{}`: the nil interface, a struct by
value, a pointer to a struct (`none` is the nil pointer), a slice by value, a
pointer to a slice, or a value whose indirection is neither a struct nor a slice
(scalar, map, pointer to a scalar, pointer to a pointer, ...). -/
inductive Dest
  | nil
  | struct (T : StructType) (v : List Value)
  | ptrStruct (T : StructType) (v : Option (List Value))
  | slice (s : SliceVal)
  | ptrSlice (s : Option SliceVal)
  | other (type : String)
  deriving DecidableEq, Repr

/-- The kinds `reflect.Kind` the package distinguishes. -/
inductive Kind
  | Invalid | Struct | Slice | Ptr | Other
  deriving DecidableEq, Repr

/-- A `reflect.Value`: the zero Value, a struct or slice (with its settable
flag), a pointer to a struct, to a slice or to something else, anything else. -/
inductive RValue
  | invalid
  | struct (T : StructType) (v : List Value) (canSet : Bool)
  | slice (s : SliceVal) (canSet : Bool)
  | ptrStruct (T : StructType) (v : Option (List Value))
  | ptrSlice (s : Option SliceVal)
  | ptrOther
  | other (type : String)
  deriving DecidableEq, Repr

/-- The call `reflect.ValueOf(dest)`. -/
def ValueOf : Dest → RValue
  | Dest.nil => RValue.invalid
  | Dest.struct T v => RValue.struct T v false
  | Dest.ptrStruct T v => RValue.ptrStruct T v
  | Dest.slice s => RValue.slice s false
  | Dest.ptrSlice s => RValue.ptrSlice s
  | Dest.other t => RValue.other t

/-- The call `reflect.Indirect(v)`: the pointed-to value of a pointer (the zero
Value for a nil pointer), `v` itself otherwise. -/
def Indirect : RValue → RValue
  | RValue.ptrStruct T (some v) => RValue.struct T v true
  | RValue.ptrStruct _ none => RValue.invalid
  | RValue.ptrSlice (some s) => RValue.slice s true
  | RValue.ptrSlice none => RValue.invalid
  | RValue.ptrOther => RValue.other "elem"
  | v => v

/-- Method `Kind` of a `reflect.Value`. -/
def RValue.Kind : RValue → Kind
  | RValue.invalid => Kind.Invalid
  | RValue.struct _ _ _ => Kind.Struct
  | RValue.slice _ _ => Kind.Slice
  | RValue.ptrStruct _ _ => Kind.Ptr
  | RValue.ptrSlice _ => Kind.Ptr
  | RValue.ptrOther => Kind.Ptr
  | RValue.other _ => Kind.Other

/-- Method `CanSet` of a `reflect.Value`. -/
def RValue.CanSet : RValue → Bool
  | RValue.struct _ _ c => c
  | RValue.slice _ c => c
  | _ => false

/-- The kind of the element type of a slice: `Type().Elem().Kind()`. -/
def SliceVal.ElemKind : SliceVal → Kind
  | SliceVal.structs _ _ => Kind.Struct
  | SliceVal.ptrs _ _ => Kind.Ptr
  | SliceVal.ptrsOther _ => Kind.Ptr
  | SliceVal.other _ => Kind.Other

/-- The call `reflect.New(Type().Elem())` on a slice value, used where the
element kind is Struct. -/
def SliceVal.NewElem : SliceVal → RValue
  | SliceVal.structs T _ => RValue.ptrStruct T (some T.zero)
  | SliceVal.ptrs _ _ => RValue.ptrOther
  | SliceVal.ptrsOther _ => RValue.ptrOther
  | SliceVal.other _ => RValue.ptrOther

/-- The call `reflect.New(Type().Elem().Elem())` on a slice value:
`Type.Elem` panics on a struct type (and on every type that is no array, chan,
map, pointer or slice). -/
def SliceVal.NewElemElem : SliceVal → Run RValue
  | SliceVal.structs _ _ => Except.error "reflect: Elem of invalid type"
  | SliceVal.ptrs T _ => pure (RValue.ptrStruct T (some T.zero))
  | SliceVal.ptrsOther _ => pure RValue.ptrOther
  | SliceVal.other _ => Except.error "reflect: Elem of invalid type"

/-! ## Model (scanner.go) -/

/-- The constant `dbColumnName`. -/
def dbColumnName : String := "columnName"

/-- The constant `dbPk`. -/
def dbPk : String := "pk"

/-- The constant `dbReadonly`. -/
def dbReadonly : String := "readOnly"

/-- The struct `Field`. -/
structure Field where
  Name : String
  idx : Nat
  Column : StructField
  Tags : List (String × String)
  IsPrimaryKey : Bool
  IsReadOnly : Bool
  deriving DecidableEq, Repr

/-- The struct `Model`. -/
structure Model where
  TableName : String
  Value : RValue
  Fields : List (String × Field)
  PkName : String
  PkIdx : Nat
  deriving DecidableEq, Repr

/-- Cut a character sequence at every occurrence of `sep`, as `strings.Split`
does for a one-character separator: `n` occurrences give `n + 1` pieces. -/
def splitChars (sep : Char) : List Char → List (List Char)
  | [] => [[]]
  | c :: cs =>
    if c = sep then [] :: splitChars sep cs
    else
      match splitChars sep cs with
      | [] => [[c]]
      | w :: ws => (c :: w) :: ws

/-- The call `strings.Split(s, sep)` for a one-character separator. -/
def strSplit (s : String) (sep : Char) : List String :=
  (splitChars sep s.data).map String.mk

/-- The variables the token loop of `NewModel` updates: the two flags of
`field`, the map `tags`, and `fieldName`. -/
structure TagState where
  IsPrimaryKey : Bool
  IsReadOnly : Bool
  tags : List (String × String)
  fieldName : String
  deriving DecidableEq, Repr

/-- One pass of the loop `for _, t := range tag` in `NewModel`. -/
def tagStep (s : TagState) (t : String) : TagState :=
  match strSplit t '=' with
  | [a] =>
    let s1 := if a = dbColumnName then { s with IsPrimaryKey := true } else s
    if a = dbReadonly then { s1 with IsReadOnly := true } else s1
  | [a, b] =>
    let s1 := { s with tags := mapSet a b s.tags }
    if a = dbColumnName then { s1 with fieldName := b } else s1
  | _ => s

/-- The token loop of `NewModel` for one struct field, started from a fresh
`Field`, an empty `tags` and `fieldName := ToSnakeCase(df.Name)`. -/
def parseTag (ToSnakeCase : String → String) (df : StructField) : TagState :=
  (strSplit df.sqlTag ',').foldl tagStep
    { IsPrimaryKey := false, IsReadOnly := false, tags := [], fieldName := ToSnakeCase df.Name }

/-- The `Field` the body of the field loop of `NewModel` builds for field `i`. -/
def newField (ToSnakeCase : String → String) (i : Nat) (df : StructField) : Field :=
  let s := parseTag ToSnakeCase df
  { Name := s.fieldName, idx := i, Column := df, Tags := s.tags,
    IsPrimaryKey := s.IsPrimaryKey, IsReadOnly := s.IsReadOnly }

/-- One pass of the field loop of `NewModel`. -/
def modelStep (ToSnakeCase : String → String) (m : Model) (idf : Nat × StructField) : Model :=
  let field := newField ToSnakeCase idf.1 idf.2
  let m1 := if field.IsPrimaryKey = true then { m with PkName := field.Name, PkIdx := idf.1 } else m
  { m1 with Fields := mapSet field.Name field m1.Fields }

/-- Function `NewModel`.  `value.Elem()` panics unless `value` is a pointer, and
`NumField` panics unless the pointed-to value is a struct. -/
def NewModel (ToSnakeCase : String → String) (value : RValue) : Run Model :=
  match value with
  | RValue.ptrStruct T (some _) =>
    let m : Model :=
      { TableName := match T.tableName with
          | some n => n
          | none => "",
        Value := value, Fields := [], PkName := "", PkIdx := 0 }
    pure (T.fields.enum.foldl (modelStep ToSnakeCase) m)
  | RValue.ptrStruct _ none => Except.error "reflect: call of reflect.Value.NumField on zero Value"
  | RValue.ptrSlice _ => Except.error "reflect: call of reflect.Value.NumField on slice Value"
  | RValue.ptrOther => Except.error "reflect: call of reflect.Value.NumField on non-struct Value"
  | RValue.invalid => Except.error "reflect: call of reflect.Value.Type on zero Value"
  | RValue.struct _ _ _ => Except.error "reflect: call of reflect.Value.Elem on struct Value"
  | RValue.slice _ _ => Except.error "reflect: call of reflect.Value.Elem on slice Value"
  | RValue.other _ => Except.error "reflect: call of reflect.Value.Elem on non-pointer Value"

/-! ## Scanner (scanner.go) -/

/-- A result cursor `*sql.Rows`: the result of `Columns()` and, for each row
that `Next()` still yields, the result of `Scan` into untyped holders. -/
structure Rows where
  columns : Except Err (List String)
  data : List (Except Err (List Value))
  deriving Repr

/-- The struct `Scanner`.  `entityPointer` is the memory the destination refers
to; writing through it is what the caller observes. -/
structure Scanner where
  rows : Option Rows
  fields : List String
  entity : Dest
  entityValue : RValue
  entityPointer : RValue
  Model : Option Model
  deriving Repr

/-- Function `NewScanner`. -/
def NewScanner (ToSnakeCase : String → String) (dest : Dest) : Run (Except Err Scanner) :=
  let entityValue := ValueOf dest
  let s : Scanner :=
    { rows := none, fields := [], entity := dest, entityValue := entityValue,
      entityPointer := Indirect entityValue, Model := none }
  match s.entityPointer with
  | RValue.slice sl _ =>
    if sl.ElemKind = Kind.Struct then do
      let m ← NewModel ToSnakeCase sl.NewElem
      pure (Except.ok { s with Model := some m })
    else if sl.ElemKind = Kind.Ptr then do
      let t ← sl.NewElemElem
      let m ← NewModel ToSnakeCase t
      pure (Except.ok { s with Model := some m })
    else pure (Except.error Err.ModelNotSupportType)
  | RValue.struct _ _ _ => do
    let m ← NewModel ToSnakeCase s.entityValue
    pure (Except.ok { s with Model := some m })
  | _ => pure (Except.error Err.ScannerEntiryTypeNotSupport)

/-- Method `SetRows`. -/
def Scanner.SetRows (sc : Scanner) (rows : Rows) : Scanner :=
  { sc with rows := some rows }

/-- Method `GetTableName`. -/
def Scanner.GetTableName (sc : Scanner) : String :=
  match sc.Model with
  | some m => m.TableName
  | none => ""

/-- Method `Field(i)` of a `reflect.Value`: it panics on a value that is no
struct and on an index past the last field. -/
def RValue.Field (v : RValue) (i : Nat) : Run Value :=
  match v with
  | RValue.struct _ vs _ =>
    match vs.get? i with
    | some x => pure x
    | none => Except.error "reflect: Field index out of range"
  | _ => Except.error "reflect: call of reflect.Value.Field on non-struct Value"

/-- Whether an identifier is exported: its first character is an upper-case
letter (`A` to `Z` here; Go asks `unicode.IsUpper`). -/
def isExported (name : String) : Bool :=
  match name.data with
  | c :: _ => c.isUpper
  | [] => false

/-- The calls `Field(i).Interface()` on a `reflect.Value`: `Field` as above, and
`Interface` panics on a value obtained from an unexported field. -/
def RValue.FieldInterface (v : RValue) (i : Nat) : Run Value :=
  match v with
  | RValue.struct T vs _ =>
    match vs.get? i, T.fields.get? i with
    | some x, some df =>
      if isExported df.Name then pure x
      else Except.error
        "reflect.Value.Interface: cannot return value obtained from unexported field or method"
    | _, _ => Except.error "reflect: Field index out of range"
  | _ => Except.error "reflect: call of reflect.Value.Field on non-struct Value"

/-- Writing field `i` of a struct value (`ff.SetString`, `ff.SetInt`, `ff.Set`, ...). -/
def RValue.setField (v : RValue) (i : Nat) (x : Value) : RValue :=
  match v with
  | RValue.struct T vs c => RValue.struct T (vs.set i x) c
  | _ => v

/-- Method `Elem()` of a `reflect.Value`: the pointed-to value of a pointer (the
zero Value for a nil pointer); it panics on a value that is no pointer. -/
def RValue.Elem (v : RValue) : Run RValue :=
  match v with
  | RValue.ptrStruct T (some x) => pure (RValue.struct T x true)
  | RValue.ptrStruct _ none => pure RValue.invalid
  | RValue.ptrSlice (some s) => pure (RValue.slice s true)
  | RValue.ptrSlice none => pure RValue.invalid
  | RValue.ptrOther => pure (RValue.other "elem")
  | _ => Except.error "reflect: call of reflect.Value.Elem on non-pointer Value"

/-- The pointer `t` after the struct it points to has become `d`. -/
def RValue.pointTo (t : RValue) (d : RValue) : RValue :=
  match t, d with
  | RValue.ptrStruct T _, RValue.struct _ v _ => RValue.ptrStruct T (some v)
  | _, _ => t

/-- The elements `Index(0)`, ..., `Index(Len()-1)` of a slice value. -/
def SliceVal.elems : SliceVal → List RValue
  | SliceVal.structs T es => es.map (fun v => RValue.struct T v true)
  | SliceVal.ptrs T es => es.map (fun v => RValue.ptrStruct T v)
  | SliceVal.ptrsOther n => List.replicate n RValue.ptrOther
  | SliceVal.other n => List.replicate n (RValue.other "elem")

/-- The call `reflect.MakeSlice(Type(), 0, 0)`: the empty slice of the same type. -/
def SliceVal.MakeSlice : SliceVal → SliceVal
  | SliceVal.structs T _ => SliceVal.structs T []
  | SliceVal.ptrs T _ => SliceVal.ptrs T []
  | SliceVal.ptrsOther _ => SliceVal.ptrsOther 0
  | SliceVal.other _ => SliceVal.other 0

/-- The call `reflect.Append(dest, t)` for a pointer `t` of the element type. -/
def SliceVal.Append (dest : SliceVal) (t : RValue) : SliceVal :=
  match dest, t with
  | SliceVal.ptrs T es, RValue.ptrStruct _ v => SliceVal.ptrs T (es ++ [v])
  | SliceVal.ptrsOther n, _ => SliceVal.ptrsOther (n + 1)
  | SliceVal.other n, _ => SliceVal.other (n + 1)
  | d, _ => d

/-- The per-kind coercion of `SetEntity` (the `switch ff.Kind()` block): from
the key `name` and the model field of the loop, the current value of the
destination field and the raw column value to the new value of the destination
field, or to a returned error. -/
abbrev Coerce := String → Field → Value → Value → Run (Except Err Value)

/-- The holders `srcValue` after `rows.Scan(srcValue...)`: one per column, each
holding what the driver delivered (nil where it delivered nothing). -/
def scanHolders (n : Nat) (vals : List Value) : List Value :=
  (List.range n).map (fun i => vals.getD i Value.nil)

/-- The first loop of `SetEntity`: `tmpMap[sc.fields[i]] = srcValue[i]`. -/
def tmpMapLoop : List String → List Value → List (String × Value) → Run (List (String × Value))
  | [], _, m => pure m
  | _ :: _, [], _ => Except.error "index out of range"
  | f :: fs, v :: vs, m => tmpMapLoop fs vs (mapSet f v m)

/-- The second loop of `SetEntity`, over the entries of `sc.Model.Fields` in
`range` order. -/
def setEntityLoop (coerce : Coerce) (tmpMap : List (String × Value)) :
    List (String × Field) → RValue → Run (Option Err × RValue)
  | [], dest => pure (none, dest)
  | (name, field) :: rest, dest =>
    match mapGet name tmpMap with
    | none => setEntityLoop coerce tmpMap rest dest
    | some val => do
      let ff ← dest.Field field.idx
      if val = Value.nil then setEntityLoop coerce tmpMap rest dest
      else
        let r ← coerce name field ff val
        match r with
        | Except.error e => pure (some e, dest)
        | Except.ok x => setEntityLoop coerce tmpMap rest (dest.setField field.idx x)

/-- Method `SetEntity`: the returned error and the destination after the writes. -/
def Scanner.SetEntity (coerce : Coerce) (rng : List (String × Field) → List (String × Field))
    (sc : Scanner) (srcValue : List Value) (dest : RValue) : Run (Option Err × RValue) := do
  let tmpMap ← tmpMapLoop sc.fields srcValue []
  match sc.Model with
  | none => Except.error "invalid memory address or nil pointer dereference"
  | some m => setEntityLoop coerce tmpMap (rng m.Fields) dest

/-- The row loop of `convertAll`: `dest` is the slice built so far.  The result
is the error returned from inside the loop, if any, and the slice built. -/
def convertAllLoop (coerce : Coerce) (rng : List (String × Field) → List (String × Field))
    (sc : Scanner) (sl : SliceVal) :
    List (Except Err (List Value)) → SliceVal → Run (Option Err × SliceVal)
  | [], dest => pure (none, dest)
  | row :: rest, dest =>
    match row with
    | Except.error err => pure (some err, dest)
    | Except.ok vals => do
      let srcValue := scanHolders sc.fields.length vals
      let t ← sl.NewElemElem
      let te ← t.Elem
      let r ← sc.SetEntity coerce rng srcValue te
      convertAllLoop coerce rng sc sl rest (dest.Append (t.pointTo r.2))

/-- Method `convertAll`. -/
def Scanner.convertAll (coerce : Coerce) (rng : List (String × Field) → List (String × Field))
    (sc : Scanner) : Run (Option Err × Scanner) :=
  match sc.rows, sc.entityPointer with
  | some rows, RValue.slice sl c => do
    let r ← convertAllLoop coerce rng sc sl rows.data sl.MakeSlice
    match r.1 with
    | some err => pure (some err, sc)
    | none => pure (none, { sc with entityPointer := RValue.slice r.2 c })
  | none, _ => Except.error "invalid memory address or nil pointer dereference"
  | _, _ => Except.error "reflect: call of reflect.MakeSlice with non-slice type"

/-- Method `convertOne`. -/
def Scanner.convertOne (coerce : Coerce) (rng : List (String × Field) → List (String × Field))
    (sc : Scanner) : Run (Option Err × Scanner) :=
  match sc.rows with
  | none => Except.error "invalid memory address or nil pointer dereference"
  | some rows =>
    match rows.data with
    | row :: _ =>
      match row with
      | Except.error err => pure (some err, sc)
      | Except.ok vals => do
        let srcValue := scanHolders sc.fields.length vals
        let r ← sc.SetEntity coerce rng srcValue sc.entityPointer
        pure (r.1, { sc with entityPointer := r.2 })
    | [] => pure (some Err.RecordNotFound, sc)

/-- Method `Convert`. -/
def Scanner.Convert (coerce : Coerce) (rng : List (String × Field) → List (String × Field))
    (sc : Scanner) : Run (Option Err × Scanner) :=
  match sc.rows with
  | none => pure (some Err.ScannerRowsPointerNil, sc)
  | some rows =>
    if sc.entityPointer.CanSet = false then pure (some Err.ScannerEntityNeedCanSet, sc)
    else
      match rows.columns with
      | Except.error err => pure (some err, sc)
      | Except.ok fields =>
        let sc1 := { sc with fields := fields }
        match sc1.entityPointer.Kind with
        | Kind.Slice => sc1.convertAll coerce rng
        | Kind.Struct => sc1.convertOne coerce rng
        | _ => pure (some Err.ScannerEntiryTypeNotSupport, sc1)

/-! ## Session (session.go) -/

/-- Where a statement is sent: the open transaction, the master, a slave. -/
inductive Route
  | tx | master | slave
  deriving DecidableEq, Repr

/-- One call that reaches the execution layer (`QueryContext` or `ExecContext`
of the transaction or of a database handle). -/
structure DriverCall where
  route : Route
  isQuery : Bool
  sql : String
  args : List Value
  deriving DecidableEq, Repr

/-- The struct `Session`: the statement pointer (`none` is nil), the three flags,
whether `tx` is set, and whether `ctx` is set (`false` is the nil context). -/
structure Session where
  statement : Option Statement
  useMaster : Bool
  isAutoCommit : Bool
  hasCommittedOrRollback : Bool
  hasTx : Bool
  hasCtx : Bool
  deriving DecidableEq, Repr

/-- What the session operations take from outside the package. -/
structure Env where
  ToSnakeCase : String → String
  sq : Squirrel
  rangeFields : List (String × Field) → List (String × Field)
  rangeCond : List (String × CondValue) → List (String × CondValue)
  coerce : Coerce
  ExecContext : Route → String → List Value → Except Err (Int × Option Err)
  QueryContext : Route → String → List Value → Except Err Rows

/-- The results of `Insert`, `Update` and `Delete` (`int64`, `error`), the session
after the call and the calls that reached the execution layer. -/
structure ExecResult where
  n : Int
  err : Option Err
  session : Session
  calls : List DriverCall
  deriving DecidableEq, Repr

/-- The result of `FindOne` and `FindAll`, the session after the call, the calls
that reached the execution layer, and the memory the destination refers to. -/
structure FindResult where
  err : Option Err
  session : Session
  calls : List DriverCall
  entity : RValue
  deriving DecidableEq, Repr

/-- Method `initStatemnt` followed by reading `s.statement`: a nil statement
pointer is replaced by a fresh `Statement`. -/
def Session.initStatemnt (s : Session) : Statement :=
  match s.statement with
  | some st => st
  | none => {}

/-- Method `From` of the session. -/
def Session.From (s : Session) (table : String) : Session :=
  { s with statement := some (s.initStatemnt.From table) }

/-- Method `Select` of the session. -/
def Session.Select (s : Session) (columns : List String) : Session :=
  { s with statement := some (s.initStatemnt.Select columns) }

/-- Method `Columns` of the session. -/
def Session.Columns (s : Session) (columns : List String) : Session :=
  { s with statement := some (s.initStatemnt.Columns columns) }

/-- Method `Where` of the session. -/
def Session.Where (s : Session) (expr : List Expr) : Session :=
  { s with statement := some (s.initStatemnt.Where expr) }

/-- The route `QueryContext` takes. -/
def Session.queryRoute (s : Session) : Route :=
  if s.hasTx then Route.tx else if s.useMaster then Route.master else Route.slave

/-- The route `ExecContext` takes. -/
def Session.execRoute (s : Session) : Route :=
  if s.hasTx then Route.tx else Route.master

/-- Method `initCtx`: a nil context is replaced by `context.Background()`. -/
def Session.initCtx (s : Session) : Session := { s with hasCtx := true }

/-- The common tail of `FindOne` and `FindAll`: render, `initCtx`, query,
convert. -/
def Session.queryTail (env : Env) (s : Session) (st : Statement) (scanner : Scanner) :
    Run FindResult := do
  let r ← st.ToSQL env.sq env.rangeCond
  let s1 : Session := { s with statement := some st }
  match r.err with
  | some err => pure { err := some err, session := s1, calls := [], entity := scanner.entityPointer }
  | none =>
    let s2 : Session := s1.initCtx
    let args := r.args.getD []
    let call : DriverCall := { route := s.queryRoute, isQuery := true, sql := r.sql, args := args }
    match env.QueryContext s.queryRoute r.sql args with
    | Except.error err =>
      pure { err := some err, session := s2, calls := [call], entity := scanner.entityPointer }
    | Except.ok rows => do
      let c ← (scanner.SetRows rows).Convert env.coerce env.rangeFields
      pure { err := c.1, session := s2, calls := [call], entity := c.2.entityPointer }

/-- Method `FindOne`. -/
def Session.FindOne (env : Env) (s : Session) (dest : Dest) : Run FindResult := do
  let st := s.initStatemnt.Limit 1
  let r ← NewScanner env.ToSnakeCase dest
  match r with
  | Except.error err =>
    pure { err := some err, session := { s with statement := some st }, calls := [],
           entity := Indirect (ValueOf dest) }
  | Except.ok scanner =>
    if scanner.entityPointer.Kind ≠ Kind.Struct then
      pure { err := some Err.FindOneExpectStruct, session := { s with statement := some st },
             calls := [], entity := scanner.entityPointer }
    else
      let st1 := if st.table = "" then st.From scanner.GetTableName else st
      s.queryTail env st1 scanner

/-- Method `FindAll`. -/
def Session.FindAll (env : Env) (s : Session) (dest : Dest) : Run FindResult := do
  let st := s.initStatemnt
  let r ← NewScanner env.ToSnakeCase dest
  match r with
  | Except.error err =>
    pure { err := some err, session := { s with statement := some st }, calls := [],
           entity := Indirect (ValueOf dest) }
  | Except.ok scanner =>
    if scanner.entityPointer.Kind ≠ Kind.Slice then
      pure { err := some Err.FindAllExpectSlice, session := { s with statement := some st },
             calls := [], entity := scanner.entityPointer }
    else
      let st1 := if st.table = "" then st.From scanner.GetTableName else st
      s.queryTail env st1 scanner

/-- The common tail of `Insert`, `Update` and `Delete`: render, `initCtx`,
execute, report the affected rows. -/
def Session.execTail (env : Env) (s : Session) (st : Statement) : Run ExecResult := do
  let r ← st.ToSQL env.sq env.rangeCond
  let s1 : Session := { s with statement := some st }
  match r.err with
  | some err => pure { n := 0, err := some err, session := s1, calls := [] }
  | none =>
    let s2 : Session := s1.initCtx
    let args := r.args.getD []
    let call : DriverCall := { route := s.execRoute, isQuery := false, sql := r.sql, args := args }
    match env.ExecContext s.execRoute r.sql args with
    | Except.error err => pure { n := 0, err := some err, session := s2, calls := [call] }
    | Except.ok res => pure { n := res.1, err := res.2, session := s2, calls := [call] }

/-- The names of the fields that are not read-only, in `range` order: the loop
that fills `insertFields` (`updateFields`). -/
def writableFields (rng : List (String × Field) → List (String × Field))
    (fields : List (String × Field)) : List String :=
  (rng fields).filterMap (fun nf => if nf.2.IsReadOnly = false then some nf.1 else none)

/-- The struct a slice element is read through: `sub.Elem()` when the element
is a pointer, the element itself otherwise. -/
def subStruct (sub : RValue) : Run RValue :=
  if sub.Kind = Kind.Ptr then sub.Elem else pure sub

/-- The loop `for _, fn := range insertFields` for one entity: the value row,
each value read with `Field(f.idx).Interface()`. -/
def insertRow (fields : List (String × Field)) (sub : RValue) : List String → Run (List Value)
  | [] => pure []
  | fn :: rest =>
    match mapGet fn fields with
    | none => insertRow fields sub rest
    | some f => do
      let fv ← sub.FieldInterface f.idx
      let val ← insertRow fields sub rest
      pure (fv :: val)

/-- The loop of `Insert` over the elements of a slice destination. -/
def insertRows (fields : List (String × Field)) (insertFields : List String) :
    List RValue → Statement → Run Statement
  | [], st => pure st
  | sub :: rest, st => do
    let e ← subStruct sub
    let val ← insertRow fields e insertFields
    insertRows fields insertFields rest (st.Values val)

/-- Method `Insert`. -/
def Session.Insert (env : Env) (s : Session) (dest : Dest) : Run ExecResult := do
  let st := s.initStatemnt.Insert
  let r ← NewScanner env.ToSnakeCase dest
  match r with
  | Except.error err => pure { n := 0, err := some err, session := { s with statement := some st }, calls := [] }
  | Except.ok scanner =>
    let st1 := if st.table = "" then st.From scanner.GetTableName else st
    match scanner.Model with
    | none => Except.error "invalid memory address or nil pointer dereference"
    | some m =>
      let insertFields := writableFields env.rangeFields m.Fields
      let st2 := st1.Columns insertFields
      match scanner.entityPointer with
      | RValue.slice sl _ => do
        let st3 ← insertRows m.Fields insertFields sl.elems st2
        s.execTail env st3
      | RValue.struct T v c => do
        let val ← insertRow m.Fields (RValue.struct T v c) insertFields
        s.execTail env (st2.Values val)
      | _ =>
        pure { n := 0, err := some Err.InsertExpectSliceOrStruct,
               session := { s with statement := some st2 }, calls := [] }

/-- The loop `for _, fn := range updateFields` for one entity: the value row and
the primary-key values it adds to `pks`, each value read with
`Field(f.idx).Interface()`. -/
def updateRow (fields : List (String × Field)) (sub : RValue) :
    List String → Run (List Value × List Value)
  | [] => pure ([], [])
  | fn :: rest =>
    match mapGet fn fields with
    | none => updateRow fields sub rest
    | some f => do
      let fv ← sub.FieldInterface f.idx
      let r ← updateRow fields sub rest
      pure (fv :: r.1, if f.IsPrimaryKey then fv :: r.2 else r.2)

/-- The loop of `Update` over the elements of a slice destination: the
statement and `pks`. -/
def updateRows (fields : List (String × Field)) (updateFields : List String) :
    List RValue → Statement × List Value → Run (Statement × List Value)
  | [], acc => pure acc
  | sub :: rest, acc => do
    let e ← subStruct sub
    let r ← updateRow fields e updateFields
    updateRows fields updateFields rest (acc.1.Values r.1, acc.2 ++ r.2)

/-- Method `Update`. -/
def Session.Update (env : Env) (s : Session) (dest : Dest) : Run ExecResult := do
  let st := s.initStatemnt.Update
  let r ← NewScanner env.ToSnakeCase dest
  match r with
  | Except.error err => pure { n := 0, err := some err, session := { s with statement := some st }, calls := [] }
  | Except.ok scanner =>
    let st1 := if st.table = "" then st.From scanner.GetTableName else st
    match scanner.Model with
    | none => Except.error "invalid memory address or nil pointer dereference"
    | some m =>
      let updateFields := writableFields env.rangeFields m.Fields
      let st2 := st1.Columns updateFields
      match scanner.entityPointer with
      | RValue.slice sl _ => do
        let acc ← updateRows m.Fields updateFields sl.elems (st2, [])
        s.execTail env (acc.1.Where [Expr.cmp { op := CmpOp.Eq, entries := [(m.PkName, CondValue.seq acc.2)] }])
      | RValue.struct T v c => do
        let r ← updateRow m.Fields (RValue.struct T v c) updateFields
        s.execTail env ((st2.Values r.1).Where
          [Expr.cmp { op := CmpOp.Eq, entries := [(m.PkName, CondValue.seq r.2)] }])
      | _ =>
        pure { n := 0, err := some Err.UpdateExpectSliceOrStruct,
               session := { s with statement := some st2 }, calls := [] }

/-- The loop of `Delete` over the elements of a slice destination: `pks`. -/
def deletePks (PkIdx : Nat) : List RValue → Run (List Value)
  | [] => pure []
  | sub :: rest => do
    let e ← subStruct sub
    let pk ← e.FieldInterface PkIdx
    let pks ← deletePks PkIdx rest
    pure (pk :: pks)

/-- Method `Delete`. -/
def Session.Delete (env : Env) (s : Session) (dest : Dest) : Run ExecResult := do
  let st := s.initStatemnt.Delete
  let r ← NewScanner env.ToSnakeCase dest
  match r with
  | Except.error err => pure { n := 0, err := some err, session := { s with statement := some st }, calls := [] }
  | Except.ok scanner =>
    let st1 := if st.table = "" then st.From scanner.GetTableName else st
    match scanner.Model with
    | none => Except.error "invalid memory address or nil pointer dereference"
    | some m =>
      if m.PkName = "" then
        pure { n := 0, err := some Err.ModelMissingPrimaryKey,
               session := { s with statement := some st1 }, calls := [] }
      else
        match scanner.entityPointer with
        | RValue.slice sl _ => do
          let pks ← deletePks m.PkIdx sl.elems
          s.execTail env (st1.Where [Expr.cmp { op := CmpOp.Eq, entries := [(m.PkName, CondValue.seq pks)] }])
        | RValue.struct T v c => do
          let pk ← (RValue.struct T v c).FieldInterface m.PkIdx
          s.execTail env (st1.Where [Expr.cmp { op := CmpOp.Eq, entries := [(m.PkName, CondValue.seq [pk])] }])
        | _ =>
          pure { n := 0, err := some Err.DeleteExpectSliceOrStruct,
                 session := { s with statement := some st1 }, calls := [] }

/-! ## Concrete inputs: the test entity and a sample environment -/

/-- The entity `CodeBook` of db_test.go, with its `TableName` hook. -/
def CodeBook : StructType :=
  { name := "CodeBook", tableName := some "codebook",
    fields :=
      [ { Name := "ID", sqlTag := "pk,columnName=id", FType := FieldType.Int 64 },
        { Name := "Name", sqlTag := "", FType := FieldType.String },
        { Name := "Password", sqlTag := "", FType := FieldType.String },
        { Name := "Remarks", sqlTag := "", FType := FieldType.Ptr FieldType.String },
        { Name := "CreatedAt", sqlTag := "readOnly", FType := FieldType.String },
        { Name := "UpdatedAt", sqlTag := "readOnly", FType := FieldType.Other "time.Time" } ] }

/-- The value `CodeBook{ID: 7}` of `TestDeleteOne`. -/
def codeBook7 : List Value :=
  [Value.int 64 7, Value.str "", Value.str "", Value.nil, Value.str "", Value.other "time.Time" ""]

/-- An entity type without a `TableName` hook and without tags. -/
def Plain : StructType :=
  { name := "Plain", tableName := none,
    fields := [ { Name := "ID", sqlTag := "", FType := FieldType.Int 64 },
                { Name := "Name", sqlTag := "", FType := FieldType.String } ] }

/-- A value of `Plain`. -/
def plain1 : List Value := [Value.int 64 1, Value.str "a"]

/-- Modelled from the spec: `ToSnakeCase` is not among the sources; the spec says
only that the identifier "is converted to snake_case".  This sample conversion
(lower-case every letter, put `_` before an upper-case letter that follows a
lower-case letter or digit) instantiates the parameter on concrete inputs. -/
def sampleSnakeChars : Option Char → List Char → List Char
  | _, [] => []
  | prev, c :: cs =>
    let brk := match prev with
      | some p => c.isUpper && (p.isLower || p.isDigit)
      | none => false
    (if brk then ['_', c.toLower] else [c.toLower]) ++ sampleSnakeChars (some c) cs

/-- The sample `ToSnakeCase` on strings. -/
def sampleSnake (s : String) : String :=
  String.mk (sampleSnakeChars none s.data)

/-- A stand-in for squirrel that renders only the statement head and hands on
no arguments; it instantiates the parameter on concrete inputs. -/
def sampleSquirrel : Squirrel :=
  { selectToSql := fun b => { sql := "SELECT FROM " ++ b.src, args := some [], err := none },
    deleteToSql := fun b => { sql := "DELETE FROM " ++ b.src, args := some [], err := none },
    insertToSql := fun b => { sql := "INSERT INTO " ++ b.into, args := some b.values.flatten, err := none },
    updateToSql := fun b => { sql := "UPDATE " ++ b.table, args := some [], err := none } }

/-- A sample environment: maps are ranged over in stored order, the coercion
stores the raw value, the driver reports one affected row and an empty cursor
with the single column `id`. -/
def sampleEnv : Env :=
  { ToSnakeCase := sampleSnake,
    sq := sampleSquirrel,
    rangeFields := fun l => l,
    rangeCond := fun l => l,
    coerce := fun _ _ _ raw => pure (Except.ok raw),
    ExecContext := fun _ _ _ => Except.ok (1, none),
    QueryContext := fun _ _ _ => Except.ok { columns := Except.ok ["id"], data := [] } }

/-- Method `NewSessionCtx` of the engine (db.go); `hasCtx` says whether the
context handed in is non-nil. -/
def NewSessionCtx (hasCtx : Bool) : Session :=
  { statement := some {}, useMaster := false, isAutoCommit := true,
    hasCommittedOrRollback := false, hasTx := false, hasCtx := hasCtx }

/-- A session as `NewSession` makes it: `NewSessionCtx(nil)`. -/
def newSession : Session :=
  { statement := some {}, useMaster := false, isAutoCommit := true,
    hasCommittedOrRollback := false, hasTx := false, hasCtx := false }

/-- The value `v` of a tag token that `strings.Split(t, "=")` cuts into exactly
the two pieces `columnName` and `v`; `none` for every other token. -/
def columnNameOf (t : String) : Option String :=
  match strSplit t '=' with
  | [a, b] => if a = dbColumnName then some b else none
  | _ => none

/-- The column name in the words of the specification (second definition, to be
compared with `newField`): the explicit column-name tag wins, the last one when
there are several; otherwise the identifier in snake case. -/
def specFieldName (ToSnakeCase : String → String) (df : StructField) : String :=
  match ((strSplit df.sqlTag ',').filterMap columnNameOf).getLast? with
  | some v => v
  | none => ToSnakeCase df.Name

/-- A token of the form `columnName=v` of the tag grammar: the key, one `=`, and
a value `v` free of `=`. -/
def IsColumnNameToken (t v : String) : Prop :=
  t = dbColumnName ++ "=" ++ v ∧ '=' ∉ v.data

/-- The first field of `CodeBook`: `ID int64` tagged `sql:"pk,columnName=id"`. -/
def codeBookID : StructField :=
  { Name := "ID", sqlTag := "pk,columnName=id", FType := FieldType.Int 64 }

/-- The statement `Session.Update` hands to `ToSQL` for `&CodeBook{ID: 7}` in the
sample environment. -/
def codeBookUpdateStatement : Statement :=
  { stType := StatementType.UpdateStatement, table := "codebook",
    columns := ["id", "name", "password", "remarks"],
    conditions := [{ Expr := Expr.cmp { op := CmpOp.Eq, entries := [("", CondValue.seq [])] } }],
    values := [[Value.int 64 7, Value.str "", Value.str "", Value.nil]] }

/-- The squirrel `UpdateBuilder` that `ToSQL` builds from `codeBookUpdateStatement`. -/
def codeBookUpdateBuilder : UpdateBuilder :=
  { table := "codebook",
    setMaps := [[("id", Value.int 64 7), ("name", Value.str ""), ("password", Value.str ""),
                 ("remarks", Value.nil)]],
    wheres := [SqPred.cmp CmpOp.Eq [("", CondValue.seq [])]] }

/-- The sample environment with a driver whose cursor yields one row. -/
def oneRowEnv : Env :=
  { sampleEnv with
    QueryContext := fun _ _ _ =>
      Except.ok { columns := Except.ok ["id"], data := [Except.ok [Value.int 64 7]] } }

/-- The structs behind a list of pointers, when none of them is nil. -/
def nonNil : List (Option (List Value)) → Option (List (List Value))
  | [] => some []
  | none :: _ => none
  | some v :: rest => (nonNil rest).map (fun vs => v :: vs)

/-- The entity type and the entities of a slice of structs or of non-nil
pointers to structs. -/
def SliceVal.entities : SliceVal → Option (StructType × List (List Value))
  | SliceVal.structs T es => some (T, es)
  | SliceVal.ptrs T es => (nonNil es).map (fun vs => (T, vs))
  | _ => none

/-- The entity type and the entities a destination passes to `Insert` or
`Update`: the struct behind a pointer, the elements of a slice (or of the slice
behind a pointer) of structs or of non-nil pointers to structs. -/
def Dest.entities : Dest → Option (StructType × List (List Value))
  | Dest.ptrStruct T (some v) => some (T, [v])
  | Dest.slice sl => sl.entities
  | Dest.ptrSlice (some sl) => sl.entities
  | _ => none

/-- An entity's value of the model field stored under the column name `c`. -/
def fieldValue (m : Model) (e : List Value) (c : String) : Value :=
  match mapGet c m.Fields with
  | some f => e.getD f.idx Value.nil
  | none => Value.nil

/-- The value row of an entity for a list of column names: the values of the
model fields stored under those names (a name without a field adds nothing). -/
def entityRow (fields : List (String × Field)) (e : List Value) (columns : List String) :
    List Value :=
  columns.filterMap (fun c => (mapGet c fields).map (fun f => e.getD f.idx Value.nil))

/-- The primary-key values an entity adds to `pks` in `Update`. -/
def entityPks (fields : List (String × Field)) (e : List Value) (columns : List String) :
    List Value :=
  columns.filterMap (fun c => (mapGet c fields).bind (fun f =>
    if f.IsPrimaryKey then some (e.getD f.idx Value.nil) else none))

/-- An entity type without a `TableName` hook whose field is a primary key for
`NewModel` (bare token `columnName`) and resolves to the column `id`. -/
def Keyed : StructType :=
  { name := "Keyed", tableName := none,
    fields := [ { Name := "ID", sqlTag := "columnName,columnName=id", FType := FieldType.Int 64 } ] }

/-! ## The coercion of `SetEntity` (scanner.go) and the library calls it makes -/

/-- The two error values of `strconv`: `ErrSyntax` and `ErrRange`. -/
inductive NumError
  | ErrSyntax
  | ErrRange
  deriving DecidableEq, Repr

/-- The helper `lower(c)` of strconv: `c | ('x' - 'X')`. -/
def strconvLower (c : Char) : Nat := c.toNat ||| 32

/-- The digit a byte stands for in the loop of `strconv.ParseUint`: `c - '0'`
for `'0'..'9'`, `lower(c) - 'a' + 10` for a letter, none for any other byte. -/
def digitVal (c : Char) : Option Nat :=
  if 48 ≤ c.toNat ∧ c.toNat ≤ 57 then some (c.toNat - 48)
  else if 97 ≤ strconvLower c ∧ strconvLower c ≤ 122 then some (strconvLower c - 97 + 10)
  else none

/-- The constant `maxUint64` of strconv. -/
def maxUint64 : Nat := 2 ^ 64 - 1

/-- The digit loop of `strconv.ParseUint` called with base 0 (underscores are
skipped and remembered): the number read and whether an underscore was seen. -/
def parseUintLoop (base cutoff maxVal : Nat) :
    List Char → Nat → Bool → Except NumError (Nat × Bool)
  | [], n, us => Except.ok (n, us)
  | c :: cs, n, us =>
    if c = '_' then parseUintLoop base cutoff maxVal cs n true
    else
      match digitVal c with
      | none => Except.error NumError.ErrSyntax
      | some d =>
        if d ≥ base then Except.error NumError.ErrSyntax
        else if n ≥ cutoff then Except.error NumError.ErrRange
        else if n * base + d > maxVal then Except.error NumError.ErrRange
        else parseUintLoop base cutoff maxVal cs (n * base + d) us

/-- The variable `saw` of `underscoreOK`: beginning of number, digit or base
prefix, underscore, anything else. -/
inductive Saw
  | start | digit | underscore | other
  deriving DecidableEq, Repr

/-- The loop of `underscoreOK` of strconv. -/
def underscoreLoop (hex : Bool) : List Char → Saw → Bool
  | [], saw => decide (saw ≠ Saw.underscore)
  | c :: cs, saw =>
    if (48 ≤ c.toNat ∧ c.toNat ≤ 57) ∨
        (hex = true ∧ 97 ≤ strconvLower c ∧ strconvLower c ≤ 102) then
      underscoreLoop hex cs Saw.digit
    else if c = '_' then
      (if saw ≠ Saw.digit then false else underscoreLoop hex cs Saw.underscore)
    else if saw = Saw.underscore then false
    else underscoreLoop hex cs Saw.other

/-- The function `underscoreOK` of strconv: underscores only between digits or
between a base prefix and a digit. -/
def underscoreOK (s : List Char) : Bool :=
  let s1 := match s with
    | c :: rest => if c = '-' ∨ c = '+' then rest else s
    | [] => s
  match s1 with
  | c0 :: c1 :: rest =>
    if c0 = '0' ∧ (strconvLower c1 = 98 ∨ strconvLower c1 = 111 ∨ strconvLower c1 = 120) then
      underscoreLoop (decide (strconvLower c1 = 120)) rest Saw.digit
    else underscoreLoop false s1 Saw.start
  | _ => underscoreLoop false s1 Saw.start

/-- The call `strconv.ParseUint(s, 0, 64)`: the base is read from the prefix
(`0b`, `0o`, `0x`, a leading `0` for octal, else decimal). -/
def ParseUint (s : List Char) : Except NumError Nat :=
  match s with
  | [] => Except.error NumError.ErrSyntax
  | c0 :: rest =>
    let bd : Nat × List Char :=
      if c0 = '0' then
        match rest with
        | c1 :: c2 :: more =>
          if strconvLower c1 = 98 then (2, c2 :: more)
          else if strconvLower c1 = 111 then (8, c2 :: more)
          else if strconvLower c1 = 120 then (16, c2 :: more)
          else (8, rest)
        | _ => (8, rest)
      else (10, s)
    match parseUintLoop bd.1 (maxUint64 / bd.1 + 1) maxUint64 bd.2 0 false with
    | Except.error e => Except.error e
    | Except.ok r =>
      if r.2 = true ∧ underscoreOK s = false then Except.error NumError.ErrSyntax
      else Except.ok r.1

/-- The call `strconv.ParseInt(s, 0, 0)` where `int` has 64 bits: the sign is
picked off, the rest goes through `ParseUint`, and the result must lie in
`[-2^63, 2^63)`. -/
def ParseInt (s : String) : Except NumError Int :=
  match s.data with
  | [] => Except.error NumError.ErrSyntax
  | c :: rest =>
    let body := if c = '+' ∨ c = '-' then rest else c :: rest
    match ParseUint body with
    | Except.error e => Except.error e
    | Except.ok un =>
      if c ≠ '-' ∧ un ≥ 2 ^ 63 then Except.error NumError.ErrRange
      else if c = '-' ∧ un > 2 ^ 63 then Except.error NumError.ErrRange
      else Except.ok (if c = '-' then -(un : Int) else (un : Int))

/-- What the coercion takes from the standard library beyond `ParseInt`:
quoting, the floating-point calls and conversions, the `String()` method of a
value whose type implements `fmt.Stringer`, whether a value's type implements
`error`, and the conversion of package reflect (`ConvertibleTo` with `Convert`). -/
structure GoLib where
  Quote : String → String
  ParseFloat : String → Except NumError Rat
  FormatFloat : Nat → Rat → String
  ofInt : Int → Rat
  toFloat32 : Rat → Rat
  toInt64 : Rat → Int
  toUint64 : Rat → Int
  Stringer : Value → Option String
  IsError : Value → Bool
  Convert : Value → FieldType → Option Value

/-- The text of a `*strconv.NumError`: `strconv.<fn>: parsing <quoted>: <cause>`. -/
def numErrorText (lib : GoLib) (fn : String) (s : String) (e : NumError) : String :=
  "strconv." ++ fn ++ ": parsing " ++ lib.Quote s ++ ": " ++
    (match e with
     | NumError.ErrSyntax => "invalid syntax"
     | NumError.ErrRange => "value out of range")

/-- The size in bits of an integer kind; `0` stands for `int` and `uint`, which
have 64 bits. -/
def intBits (bits : Nat) : Nat := if bits = 0 then 64 else bits

/-- Conversion of an integer to a signed integer type of `bits` bits. -/
def wrapInt (bits : Nat) (x : Int) : Int :=
  (x + 2 ^ (bits - 1)) % 2 ^ bits - 2 ^ (bits - 1)

/-- Conversion of an integer to an unsigned integer type of `bits` bits. -/
def wrapUint (bits : Nat) (x : Int) : Nat := (x % 2 ^ bits).toNat

/-- The call `ff.SetInt(x)` on a field of a signed kind, `x` converted to `int64`. -/
def SetInt (bits : Nat) (x : Int) : Value :=
  Value.int bits (wrapInt (intBits bits) (wrapInt 64 x))

/-- The call `ff.SetUint(x)` on a field of an unsigned kind, `x` converted to `uint64`. -/
def SetUint (bits : Nat) (x : Int) : Value :=
  Value.uint bits (wrapUint (intBits bits) (wrapUint 64 x))

/-- The call `ff.SetFloat(x)` on a field of a floating-point kind. -/
def SetFloat (lib : GoLib) (bits : Nat) (x : Rat) : Value :=
  Value.float bits (if bits = 32 then lib.toFloat32 x else x)

/-- The conversion `string(d)` of a byte sequence, byte by byte. -/
def bytesToString (b : List Nat) : String := String.mk (b.map Char.ofNat)

/-- The error `fmt.Errorf("can not convert field:%s %s to <what> err:%v", name, text, err)`. -/
def convertError (lib : GoLib) (what fn name text : String) (e : NumError) : Err :=
  Err.foreign ("can not convert field:" ++ name ++ " " ++ text ++ " to " ++ what ++ " err:" ++
    numErrorText lib fn text e)

/-- The loop in the default case of the string target: follow pointers until the
type implements `fmt.Stringer` or `error`. -/
def unwrapStringer (lib : GoLib) : Value → Value
  | Value.ptr v =>
    if (lib.Stringer (Value.ptr v)).isNone ∧ lib.IsError (Value.ptr v) = false then
      unwrapStringer lib v
    else Value.ptr v
  | v => v

/-- Method `defaultConvert`: the new value of the destination field. -/
def defaultConvert (lib : GoLib) (field : Field) (ff raw : Value) : Value :=
  match lib.Convert raw field.Column.FType with
  | some x => x
  | none =>
    match field.Column.FType with
    | FieldType.Ptr elem =>
      let cur := match ff with
        | Value.ptr v => v
        | _ => elem.zero
      match lib.Convert raw elem with
      | some x => Value.ptr x
      | none => Value.ptr cur
    | _ => ff

/-- The case `reflect.String` of `SetEntity`. -/
def coerceString (lib : GoLib) (ff raw : Value) : Value :=
  match raw with
  | Value.str d => Value.str d
  | Value.bool d => Value.str (if d then "true" else "false")
  | Value.float bits d => Value.str (lib.FormatFloat bits d)
  | Value.int _ d => Value.str (toString d)
  | Value.uint _ d => Value.str (toString d)
  | Value.bytes d => Value.str (bytesToString d)
  | d =>
    match lib.Stringer (unwrapStringer lib d) with
    | some text => Value.str text
    | none => ff

/-- The case `reflect.Bool` of `SetEntity`. -/
def coerceBool (lib : GoLib) (field : Field) (ff raw : Value) : Value :=
  match raw with
  | Value.bool d => Value.bool d
  | Value.ptr (Value.bool d) => Value.bool d
  | Value.int _ d => if d > 0 then Value.bool true else ff
  | Value.uint _ d => if d > 0 then Value.bool true else ff
  | Value.float _ d => if d > 0 then Value.bool true else ff
  | Value.str d => if d ≠ "" then Value.bool true else ff
  | Value.bytes d => if bytesToString d ≠ "" then Value.bool true else ff
  | d => defaultConvert lib field ff d

/-- The case of the signed integer kinds of `SetEntity`. -/
def coerceInt (lib : GoLib) (name : String) (field : Field) (bits : Nat) (ff raw : Value) :
    Except Err Value :=
  match raw with
  | Value.int _ d => Except.ok (SetInt bits d)
  | Value.uint _ d => Except.ok (SetInt bits d)
  | Value.float _ d => Except.ok (SetInt bits (lib.toInt64 d))
  | Value.bytes d =>
    match ParseInt (bytesToString d) with
    | Except.error e =>
      Except.error (convertError lib "int64" "ParseInt" name (bytesToString d) e)
    | Except.ok v => Except.ok (SetInt bits v)
  | Value.str d =>
    match ParseInt d with
    | Except.error e => Except.error (convertError lib "int64" "ParseInt" name d e)
    | Except.ok v => Except.ok (SetInt bits v)
  | Value.bool d => Except.ok (if d then SetInt bits 1 else ff)
  | d => Except.ok (defaultConvert lib field ff d)

/-- The case of the floating-point kinds of `SetEntity`. -/
def coerceFloat (lib : GoLib) (name : String) (field : Field) (bits : Nat) (ff raw : Value) :
    Except Err Value :=
  match raw with
  | Value.int _ d => Except.ok (SetFloat lib bits (lib.ofInt d))
  | Value.uint _ d => Except.ok (SetFloat lib bits (lib.ofInt d))
  | Value.float _ d => Except.ok (SetFloat lib bits d)
  | Value.bytes d =>
    match lib.ParseFloat (bytesToString d) with
    | Except.error e =>
      Except.error (convertError lib "float64" "ParseFloat" name (bytesToString d) e)
    | Except.ok v => Except.ok (SetFloat lib bits v)
  | Value.str d =>
    match lib.ParseFloat d with
    | Except.error e => Except.error (convertError lib "float64" "ParseFloat" name d e)
    | Except.ok v => Except.ok (SetFloat lib bits v)
  | Value.bool d => Except.ok (if d then SetFloat lib bits 1 else ff)
  | d => Except.ok (defaultConvert lib field ff d)

/-- The case of the unsigned integer kinds of `SetEntity`; the text sources go
through `strconv.ParseInt`, as in the source. -/
def coerceUint (lib : GoLib) (name : String) (field : Field) (bits : Nat) (ff raw : Value) :
    Except Err Value :=
  match raw with
  | Value.int _ d => Except.ok (SetUint bits d)
  | Value.uint _ d => Except.ok (SetUint bits d)
  | Value.float _ d => Except.ok (SetUint bits (lib.toUint64 d))
  | Value.bytes d =>
    match ParseInt (bytesToString d) with
    | Except.error e =>
      Except.error (convertError lib "int64" "ParseInt" name (bytesToString d) e)
    | Except.ok v => Except.ok (SetUint bits v)
  | Value.str d =>
    match ParseInt d with
    | Except.error e => Except.error (convertError lib "int64" "ParseInt" name d e)
    | Except.ok v => Except.ok (SetUint bits v)
  | Value.bool d => Except.ok (if d then SetUint bits 1 else ff)
  | d => Except.ok (defaultConvert lib field ff d)

/-- The block `switch ff.Kind()` of `SetEntity`, by the kind of the destination
field. -/
def coerceField (lib : GoLib) : Coerce := fun name field ff raw =>
  match field.Column.FType with
  | FieldType.String => pure (Except.ok (coerceString lib ff raw))
  | FieldType.Bool => pure (Except.ok (coerceBool lib field ff raw))
  | FieldType.Int bits => pure (coerceInt lib name field bits ff raw)
  | FieldType.Float bits => pure (coerceFloat lib name field bits ff raw)
  | FieldType.Uint bits => pure (coerceUint lib name field bits ff raw)
  | _ => pure (Except.ok (defaultConvert lib field ff raw))

/-- A stand-in for the library calls of the coercion that are not modelled
(floating point, `Stringer`, reflect conversion); it instantiates the parameter
on concrete inputs. -/
def sampleLib : GoLib :=
  { Quote := fun t => "\"" ++ t ++ "\"",
    ParseFloat := fun _ => Except.error NumError.ErrSyntax,
    FormatFloat := fun _ _ => "",
    ofInt := fun n => n,
    toFloat32 := fun x => x,
    toInt64 := fun x => x.floor,
    toUint64 := fun x => x.floor,
    Stringer := fun _ => none,
    IsError := fun _ => false,
    Convert := fun _ _ => none }

/-- An entity type with an unsigned 64-bit field, a signed 8-bit field and a
boolean field. -/
def Gauge : StructType :=
  { name := "Gauge", tableName := none,
    fields := [ { Name := "Count", sqlTag := "", FType := FieldType.Uint 64 },
                { Name := "Level", sqlTag := "", FType := FieldType.Int 8 },
                { Name := "Active", sqlTag := "", FType := FieldType.Bool } ] }

/-- The number a numeric source value holds (signed integer, unsigned integer
or float); `none` for every other value. -/
def Value.numeric : Value → Option Rat
  | Value.int _ n => some n
  | Value.uint _ n => some n
  | Value.float _ x => some x
  | _ => none

/-- The scanner `NewScanner` makes for a pointer to a struct of type `T`, once
`Convert` has stored the column names `cols` of the cursor in it. -/
def structScanner (T : StructType) (v : List Value) (cols : List String) : Scanner :=
  { rows := none, fields := cols, entity := Dest.ptrStruct T (some v),
    entityValue := RValue.ptrStruct T (some v), entityPointer := RValue.struct T v true,
    Model := match NewModel sampleSnake (RValue.ptrStruct T (some v)) with
      | Except.ok m => some m
      | Except.error _ => none }

/-- The cursor of the failing scan: the columns `name` and `id`, one row whose
`id` is the text `123abc`. -/
def badIdRows : Rows :=
  { columns := Except.ok ["name", "id"],
    data := [Except.ok [Value.str "bob", Value.str "123abc"]] }

/-- The error `SetEntity` returns for the text `123abc` under the column `id`. -/
def badIdError : Err :=
  Err.foreign ("can not convert field:id 123abc to int64 err:" ++
    "strconv.ParseInt: parsing \"123abc\": invalid syntax")

/-- The zero `CodeBook` with `Name` set to `bob`. -/
def codeBookBob : List Value :=
  [Value.int 64 0, Value.str "bob", Value.str "", Value.nil, Value.str "",
   Value.other "time.Time" ""]

/-- The number a sequence of decimal digits, most significant first, denotes. -/
def decValue (ds : List Nat) : Nat := ds.foldl (fun a d => a * 10 + d) 0

/-- The text of a sequence of decimal digits. -/
def decText (ds : List Nat) : String := String.mk (ds.map Nat.digitChar)

/-- The digit sequence of a decimal literal without sign: at least one digit,
every digit below ten, no leading zero except in the literal `0`. -/
def IsDecimal (ds : List Nat) : Prop :=
  ds ≠ [] ∧ (∀ d ∈ ds, d < 10) ∧ (ds.head? = some 0 → ds = [0])

/-! ## The renderers of squirrel

squirrel is not among the sources.  The spec asks for positional placeholders,
for `IN` under `Eq` with a sequence and for `LIMIT` and `OFFSET` clauses; the
definitions of this section model the rendering of the library for the builder
calls `ToSQL` makes, with the `Question` placeholder format.  Values that
implement squirrel's `Sqlizer` or `driver.Valuer` are outside the embedding. -/

/-- The function `strings.Join`. -/
def strJoin (sep : String) : List String → String
  | [] => ""
  | [a] => a
  | a :: b :: rest => a ++ sep ++ strJoin sep (b :: rest)

/-- The constant `sqlTrue` of squirrel. -/
def sqlTrue : String := "(1=1)"

/-- The constant `sqlFalse`. -/
def sqlFalse : String := "(1=0)"

/-- The function `Placeholders`: `n` question marks with commas between them. -/
def Placeholders (n : Nat) : String := strJoin "," (List.replicate n "?")

/-- A value with one level of pointer removed, as `Eq` looks at it. -/
def sqDeref : Value → Value
  | Value.ptr v => v
  | v => v

/-- The function `getSortedKeys`: the keys of a map in ascending order. -/
def getSortedKeys {β : Type} (m : List (String × β)) : List String :=
  (m.map Prod.fst).insertionSort (fun a b => a ≤ b)

/-- The entries of a map in ascending order of the keys. -/
def sortedEntries {β : Type} (m : List (String × β)) : List (String × β) :=
  (getSortedKeys m).filterMap (fun k => (mapGet k m).map (fun v => (k, v)))

/-- Modelled from the spec: squirrel is not among the sources.  One key of `Eq`
(`neg` false) or `NotEq` (`neg` true), text and arguments: `IS NULL` for nil,
`IN` with one placeholder per element for a sequence, `=` with one placeholder
for any other value. -/
def eqExpr (neg : Bool) (key : String) (val : CondValue) : String × List Value :=
  match val with
  | CondValue.seq vs =>
    if vs.length = 0 then (if neg then sqlTrue else sqlFalse, [])
    else (key ++ (if neg then " NOT IN (" else " IN (") ++ Placeholders vs.length ++ ")", vs)
  | CondValue.scalar v =>
    if sqDeref v = Value.nil then (key ++ (if neg then " IS NOT NULL" else " IS NULL"), [])
    else (key ++ (if neg then " <> ?" else " = ?"), [sqDeref v])

/-- One key of `Lt`, `LtOrEq`, `Gt`, `GtOrEq`. -/
def ltExpr (opr : String) (key : String) (val : CondValue) : Except String (String × List Value) :=
  match val with
  | CondValue.seq _ =>
    Except.error "cannot use array or slice with less than or greater than operators"
  | CondValue.scalar v =>
    if v = Value.nil then Except.error "cannot use null with less than or greater than operators"
    else Except.ok (key ++ " " ++ opr ++ " ?", [v])

/-- One key of `Like`, `NotLike`. -/
def likeExpr (opr : String) (key : String) (val : CondValue) : Except String (String × List Value) :=
  match val with
  | CondValue.seq _ => Except.error "cannot use array or slice with like operators"
  | CondValue.scalar v =>
    if v = Value.nil then Except.error "cannot use null with like operators"
    else Except.ok (key ++ " " ++ opr ++ " ?", [v])

/-- The loop over the entries of a map-shaped predicate: the first error ends it. -/
def renderEntries (f : String → CondValue → Except String (String × List Value)) :
    List (String × CondValue) → Except String (List (String × List Value))
  | [] => Except.ok []
  | kv :: rest =>
    match f kv.1 kv.2 with
    | Except.error e => Except.error e
    | Except.ok p =>
      match renderEntries f rest with
      | Except.error e => Except.error e
      | Except.ok ps => Except.ok (p :: ps)

/-- The expressions of a predicate joined by `AND`, and their arguments in order. -/
def joinExprs (parts : List (String × List Value)) : String × List Value :=
  (strJoin " AND " (parts.map Prod.fst), (parts.map Prod.snd).flatten)

/-- Modelled from the spec: squirrel is not among the sources.  The method
`ToSql` of a map-shaped predicate.  `Eq`, `NotEq` and the four
order comparisons visit the keys in ascending order, `Like` and `NotLike` in
`range` order. -/
def cmpToSql (rng : List (String × CondValue) → List (String × CondValue))
    (op : CmpOp) (m : List (String × CondValue)) : Except String (String × List Value) :=
  match op with
  | CmpOp.Eq =>
    if m.length = 0 then Except.ok (sqlTrue, [])
    else Except.ok (joinExprs ((sortedEntries m).map (fun kv => eqExpr false kv.1 kv.2)))
  | CmpOp.Ne =>
    if m.length = 0 then Except.ok (sqlTrue, [])
    else Except.ok (joinExprs ((sortedEntries m).map (fun kv => eqExpr true kv.1 kv.2)))
  | CmpOp.Like => (renderEntries (likeExpr "LIKE") (rng m)).map joinExprs
  | CmpOp.NotLike => (renderEntries (likeExpr "NOT LIKE") (rng m)).map joinExprs
  | CmpOp.LT => (renderEntries (ltExpr "<") (sortedEntries m)).map joinExprs
  | CmpOp.LTE => (renderEntries (ltExpr "<=") (sortedEntries m)).map joinExprs
  | CmpOp.GT => (renderEntries (ltExpr ">") (sortedEntries m)).map joinExprs
  | CmpOp.GTE => (renderEntries (ltExpr ">=") (sortedEntries m)).map joinExprs

/-- The loop over the parts of `And` and `Or`: the first error ends it. -/
def renderConj (rng : List (String × CondValue) → List (String × CondValue)) :
    List (CmpOp × List (String × CondValue)) → Except String (List (String × List Value))
  | [] => Except.ok []
  | p :: rest =>
    match cmpToSql rng p.1 p.2 with
    | Except.error e => Except.error e
    | Except.ok x =>
      match renderConj rng rest with
      | Except.error e => Except.error e
      | Except.ok xs => Except.ok (x :: xs)

/-- The method `join` of `And` and `Or`: the parts with a non-empty text, joined
by `sep` in parentheses; `dflt` for no parts at all. -/
def conjJoin (sep dflt : String) (n : Nat) (parts : List (String × List Value)) :
    String × List Value :=
  if n = 0 then (dflt, [])
  else
    let kept := parts.filter (fun p => decide (p.1 ≠ ""))
    (if kept.length > 0 then "(" ++ strJoin sep (kept.map Prod.fst) ++ ")" else "",
     (kept.map Prod.snd).flatten)

/-- Modelled from the spec: squirrel is not among the sources.  The method
`ToSql` of a predicate handed to `Where`. -/
def predToSql (rng : List (String × CondValue) → List (String × CondValue)) :
    SqPred → Except String (String × List Value)
  | SqPred.cmp op m => cmpToSql rng op m
  | SqPred.and ps => (renderConj rng ps).map (conjJoin " AND " sqlTrue ps.length)
  | SqPred.or ps => (renderConj rng ps).map (conjJoin " OR " sqlFalse ps.length)

/-- The loop over the `Where` parts: the first error ends it. -/
def renderWheres (rng : List (String × CondValue) → List (String × CondValue)) :
    List SqPred → Except String (List (String × List Value))
  | [] => Except.ok []
  | p :: rest =>
    match predToSql rng p with
    | Except.error e => Except.error e
    | Except.ok x =>
      match renderWheres rng rest with
      | Except.error e => Except.error e
      | Except.ok xs => Except.ok (x :: xs)

/-- The function `appendToSql`: a part with an empty text is skipped, the
separator is written before every other part but the first of the list. -/
def appendToSql (sep : String) :
    List (String × List Value) → Nat → String × List Value → String × List Value
  | [], _, acc => acc
  | p :: ps, i, acc =>
    if p.1 = "" then appendToSql sep ps (i + 1) acc
    else appendToSql sep ps (i + 1) (acc.1 ++ (if i > 0 then sep else "") ++ p.1, acc.2 ++ p.2)

/-- The `WHERE` clause: nothing without parts. -/
def whereClause (parts : List (String × List Value)) : String × List Value :=
  if parts.length > 0 then
    let w := appendToSql " AND " parts 0 ("", [])
    (" WHERE " ++ w.1, w.2)
  else ("", [])

/-- The `LIMIT` clause of a builder. -/
def limitClause (limit : Option Nat) : String :=
  match limit with
  | some n => " LIMIT " ++ toString n
  | none => ""

/-- The `OFFSET` clause of a builder. -/
def offsetClause (offset : Option Nat) : String :=
  match offset with
  | some n => " OFFSET " ++ toString n
  | none => ""

/-- The result of a `ToSql` that fails. -/
def sqlFail (msg : String) : SQLResult :=
  { sql := "", args := none, err := some (Err.foreign msg) }

/-- The result of a `ToSql` that succeeds; an argument list without elements is
the nil slice. -/
def sqlDone (sql : String) (args : List Value) : SQLResult :=
  { sql := sql, args := if args.length = 0 then none else some args, err := none }

/-- Modelled from the spec: squirrel is not among the sources.  The method
`ToSql` of a `SelectBuilder`. -/
def selectToSql (rng : List (String × CondValue) → List (String × CondValue))
    (b : SelectBuilder) : SQLResult :=
  if b.columns.length = 0 then sqlFail "select statements must have at least one result column"
  else
    match renderWheres rng b.wheres with
    | Except.error e => sqlFail e
    | Except.ok parts =>
      let cols := appendToSql ", " (b.columns.map (fun c => (c, []))) 0 ("", [])
      let w := whereClause parts
      let o := if b.orderBys.length > 0 then
          " ORDER BY " ++ (appendToSql ", " (b.orderBys.map (fun c => (c, []))) 0 ("", [])).1
        else ""
      sqlDone ("SELECT " ++ cols.1 ++ " FROM " ++ b.src ++ w.1 ++ o
        ++ limitClause b.limit ++ offsetClause b.offset) w.2

/-- Modelled from the spec: squirrel is not among the sources.  The method
`ToSql` of a `DeleteBuilder`. -/
def deleteToSql (rng : List (String × CondValue) → List (String × CondValue))
    (b : DeleteBuilder) : SQLResult :=
  if b.src.length = 0 then sqlFail "delete statements must specify a From table"
  else
    match renderWheres rng b.wheres with
    | Except.error e => sqlFail e
    | Except.ok parts =>
      let w := whereClause parts
      let o := if b.orderBys.length > 0 then " ORDER BY " ++ strJoin ", " b.orderBys else ""
      sqlDone ("DELETE FROM " ++ b.src ++ w.1 ++ o
        ++ limitClause b.limit ++ offsetClause b.offset) w.2

/-- Modelled from the spec: squirrel is not among the sources.  The method
`ToSql` of an `InsertBuilder`: one parenthesised group of placeholders per value
row. -/
def insertToSql (b : InsertBuilder) : SQLResult :=
  if b.into.length = 0 then sqlFail "insert statements must specify a table"
  else if b.values.length = 0 then
    sqlFail "insert statements must have at least one set of values or select clause"
  else
    let cols := if b.columns.length > 0 then "(" ++ strJoin "," b.columns ++ ") " else ""
    let rows := b.values.map (fun row => "(" ++ strJoin "," (row.map (fun _ => "?")) ++ ")")
    sqlDone ("INSERT INTO " ++ b.into ++ " " ++ cols ++ "VALUES " ++ strJoin "," rows)
      b.values.flatten

/-- Modelled from the spec: squirrel is not among the sources.  The method
`ToSql` of an `UpdateBuilder`; `SetMap` adds the entries of its map in ascending
order of the keys. -/
def updateToSql (rng : List (String × CondValue) → List (String × CondValue))
    (b : UpdateBuilder) : SQLResult :=
  let clauses := (b.setMaps.map sortedEntries).flatten
  if b.table.length = 0 then sqlFail "update statements must specify a table"
  else if clauses.length = 0 then sqlFail "update statements must have at least one Set clause"
  else
    match renderWheres rng b.wheres with
    | Except.error e => sqlFail e
    | Except.ok parts =>
      let w := whereClause parts
      let o := if b.orderBys.length > 0 then " ORDER BY " ++ strJoin ", " b.orderBys else ""
      sqlDone ("UPDATE " ++ b.table ++ " SET "
        ++ strJoin ", " (clauses.map (fun kv => kv.1 ++ " = ?")) ++ w.1 ++ o
        ++ limitClause b.limit ++ offsetClause b.offset)
        (clauses.map Prod.snd ++ w.2)

/-- Modelled from the spec: squirrel is not among the sources.  The four
renderers as one value of `Squirrel`; `rng` is the `range` order inside the
library. -/
def squirrelModel (rng : List (String × CondValue) → List (String × CondValue)) : Squirrel :=
  { selectToSql := selectToSql rng,
    deleteToSql := deleteToSql rng,
    insertToSql := insertToSql,
    updateToSql := updateToSql rng }

/-! ## Statements up to the values they carry -/

/-- A scalar value of a condition with its content blotted out: nil stays nil, a
pointer to nil stays a pointer to nil, every other value becomes one and the
same token. -/
def Value.blot (v : Value) : Value :=
  if v = Value.nil then Value.nil
  else if sqDeref v = Value.nil then Value.ptr Value.nil
  else Value.bool false

/-- A condition value with its content blotted out; of a sequence only the
length is left. -/
def CondValue.blot : CondValue → CondValue
  | CondValue.scalar v => CondValue.scalar v.blot
  | CondValue.seq vs => CondValue.seq (vs.map (fun _ => Value.bool false))

/-- The entries of a condition map with their values blotted out. -/
def blotEntries (m : List (String × CondValue)) : List (String × CondValue) :=
  m.map (fun kv => (kv.1, kv.2.blot))

/-- A map-shaped condition with its values blotted out. -/
def Cmp.blot (c : Cmp) : Cmp := { c with entries := blotEntries c.entries }

/-- A condition expression with its values blotted out. -/
def Expr.blot : Expr → Expr
  | Expr.cmp c => Expr.cmp c.blot
  | Expr.AND cs => Expr.AND (cs.map Cmp.blot)
  | Expr.OR cs => Expr.OR (cs.map Cmp.blot)
  | Expr.unsupported t => Expr.unsupported t

/-- A statement with the values of its conditions and of its value rows blotted
out: two statements with the same blot are identical except for the non-nil
scalar values in their conditions, the elements of the sequences there, and the
values in their rows. -/
def Statement.blot (st : Statement) : Statement :=
  { st with
    conditions := st.conditions.map (fun c => { Expr := c.Expr.blot }),
    values := st.values.map (fun row => row.map (fun _ => Value.bool false)) }

/-- A squirrel predicate with its values blotted out. -/
def SqPred.blot : SqPred → SqPred
  | SqPred.cmp op m => SqPred.cmp op (blotEntries m)
  | SqPred.and ps => SqPred.and (ps.map (fun p => (p.1, blotEntries p.2)))
  | SqPred.or ps => SqPred.or (ps.map (fun p => (p.1, blotEntries p.2)))

/-- The function `appendToSql` on the texts alone. -/
def appendText (sep : String) : List String → Nat → String → String
  | [], _, acc => acc
  | t :: ts, i, acc =>
    if t = "" then appendText sep ts (i + 1) acc
    else appendText sep ts (i + 1) (acc ++ (if i > 0 then sep else "") ++ t)

/-- The SQL text and the error of a result of `ToSQL`, without the arguments. -/
def SQLResult.text (r : SQLResult) : String × Option Err := (r.sql, r.err)

/-! ## Transactions (session.go) -/

/-- A call that reaches the database handle (`Begin`, `BeginTx`) or the
transaction (`Commit`, `Rollback`), and the mark `wrapped` for one run of the
function handed to `Transaction`. -/
inductive TxEvent
  | Begin | BeginTx | Commit | Rollback | wrapped
  deriving DecidableEq, Repr

/-- The driver side of transactions: the error of `db.Master().Begin()`, of
`db.Master().BeginTx(...)`, of `tx.Commit()` and of `tx.Rollback()`, each as a
function of the calls made before. -/
structure TxDriver where
  Begin : List TxEvent → Option Err
  BeginTx : List TxEvent → Option Err
  Commit : List TxEvent → Option Err
  Rollback : List TxEvent → Option Err

/-- What `Begin`, `BeginTx`, `Commit` and `RollBack` leave behind: the returned
error, the session, and the calls made so far. -/
structure TxResult where
  err : Option Err
  session : Session
  log : List TxEvent
  deriving DecidableEq, Repr

/-- What the wrapped function and `Transaction` leave behind: the returned
value, the returned error, the session, and the calls made so far. -/
structure WrappedResult where
  d : Value
  err : Option Err
  session : Session
  log : List TxEvent
  deriving DecidableEq, Repr

/-- Method `Begin`. -/
def Session.Begin (drv : TxDriver) (s : Session) (log : List TxEvent) : TxResult :=
  match drv.Begin log with
  | some err => { err := some err, session := s, log := log ++ [TxEvent.Begin] }
  | none =>
    { err := none,
      session := { s with hasCommittedOrRollback := false, isAutoCommit := false, hasTx := true },
      log := log ++ [TxEvent.Begin] }

/-- Method `BeginTx`.  It hands `s.ctx` to `sql.DB.BeginTx` as it is, without
`initCtx`; on the nil context that call panics when it reads `ctx.Done()`. -/
def Session.BeginTx (drv : TxDriver) (s : Session) (log : List TxEvent) : Run TxResult :=
  if s.hasCtx = false then Except.error "invalid memory address or nil pointer dereference"
  else
    match drv.BeginTx log with
    | some err => pure { err := some err, session := s, log := log ++ [TxEvent.BeginTx] }
    | none =>
      pure { err := none,
             session := { s with hasCommittedOrRollback := false, isAutoCommit := false,
                                 hasTx := true },
             log := log ++ [TxEvent.BeginTx] }

/-- Method `RollBack`; the call `s.tx.Rollback()` panics when `tx` is nil. -/
def Session.RollBack (drv : TxDriver) (s : Session) (log : List TxEvent) : Run TxResult :=
  if s.isAutoCommit = false ∧ s.hasCommittedOrRollback = false then
    if s.hasTx = false then Except.error "invalid memory address or nil pointer dereference"
    else
      match drv.Rollback log with
      | some err => pure { err := some err, session := s, log := log ++ [TxEvent.Rollback] }
      | none =>
        pure { err := none, session := { s with hasCommittedOrRollback := true },
               log := log ++ [TxEvent.Rollback] }
  else pure { err := none, session := s, log := log }

/-- Method `Commit`; the call `s.tx.Commit()` panics when `tx` is nil. -/
def Session.Commit (drv : TxDriver) (s : Session) (log : List TxEvent) : Run TxResult :=
  if s.isAutoCommit = false ∧ s.hasCommittedOrRollback = false then
    if s.hasTx = false then Except.error "invalid memory address or nil pointer dereference"
    else
      match drv.Commit log with
      | some err => pure { err := some err, session := s, log := log ++ [TxEvent.Commit] }
      | none =>
        pure { err := none, session := { s with hasCommittedOrRollback := true },
               log := log ++ [TxEvent.Commit] }
  else pure { err := none, session := s, log := log }

/-- The part of `Transaction` and `TransactionTx` after the transaction has
begun: run `f`, then roll back or commit, and return what `f` returned. -/
def transactionTail (drv : TxDriver) (f : Session → List TxEvent → Run WrappedResult)
    (b : TxResult) : Run WrappedResult :=
  match b.err with
  | some err => pure { d := Value.nil, err := some err, session := b.session, log := b.log }
  | none => do
    let r ← f b.session (b.log ++ [TxEvent.wrapped])
    match r.err with
    | some err => do
      let rb ← r.session.RollBack drv r.log
      pure { d := r.d, err := some err, session := rb.session, log := rb.log }
    | none => do
      let c ← r.session.Commit drv r.log
      pure { d := r.d, err := none, session := c.session, log := c.log }

/-- Method `Transaction`. -/
def Session.Transaction (drv : TxDriver) (f : Session → List TxEvent → Run WrappedResult)
    (s : Session) (log : List TxEvent) : Run WrappedResult :=
  transactionTail drv f (s.Begin drv log)

/-- Method `TransactionTx`. -/
def Session.TransactionTx (drv : TxDriver) (f : Session → List TxEvent → Run WrappedResult)
    (s : Session) (log : List TxEvent) : Run WrappedResult := do
  let b ← s.BeginTx drv log
  transactionTail drv f b

/-- A driver whose transaction calls all succeed. -/
def okDriver : TxDriver :=
  { Begin := fun _ => none, BeginTx := fun _ => none, Commit := fun _ => none,
    Rollback := fun _ => none }

/-! ## Master and slaves (core.go) -/

/-- The struct `DB`; `α` is the type of the handles `*sql.DB`, `nextIdx` is a
`uint64`. -/
structure DB (α : Type) where
  master : α
  slaves : List α
  nextIdx : Nat
  EnableMS : Bool

/-- Method `Master`. -/
def DB.Master {α : Type} (db : DB α) : α := db.master

/-- The call `atomic.AddUint64(&db.nextIdx, 1)`: the counter after the addition,
which is also the value returned. -/
def AddUint64 (n delta : Nat) : Nat := (n + delta) % 2 ^ 64

/-- Method `Slave`: the handle returned and the `DB` after the call.  An index
past the end of `db.slaves` panics. -/
def DB.Slave {α : Type} (db : DB α) : Run (α × DB α) :=
  if db.EnableMS = true then
    let slaveNum := db.slaves.length % 2 ^ 64
    if slaveNum = 0 then pure (db.master, db)
    else
      let n := AddUint64 db.nextIdx 1
      match db.slaves.get? (n % slaveNum) with
      | some h => pure (h, { db with nextIdx := n })
      | none => Except.error "index out of range"
  else pure (db.Master, db)

/-- The handles that `k` calls of `Slave`, one after the other, return, and the
`DB` after the last call. -/
def slaveCalls {α : Type} : Nat → DB α → Run (List α × DB α)
  | 0, db => pure ([], db)
  | k + 1, db => do
    let r ← db.Slave
    let rest ← slaveCalls k r.2
    pure (r.1 :: rest.1, rest.2)

/-- A `DB` as `OpenMasterAndSlaves` returns it for three slaves, with strings
for the handles. -/
def threeSlaves : DB String :=
  { master := "m", slaves := ["s0", "s1", "s2"], nextIdx := 0, EnableMS := true }

/-- One call of the caller on the session: `Commit()` or `RollBack()`. -/
inductive TxOp
  | Commit | RollBack
  deriving DecidableEq, Repr

/-- What one call of a sequence did: the error it returned and whether it
reached the transaction (`tx.Commit` or `tx.Rollback`). -/
structure OpOutcome where
  err : Option Err
  reached : Bool
  deriving DecidableEq, Repr

/-- One call of `Commit` or `RollBack`. -/
def TxOp.run (drv : TxDriver) (op : TxOp) (s : Session) (log : List TxEvent) : Run TxResult :=
  match op with
  | TxOp.Commit => s.Commit drv log
  | TxOp.RollBack => s.RollBack drv log

/-- What the transaction answers to the call an operation makes. -/
def TxOp.driver (drv : TxDriver) (op : TxOp) (log : List TxEvent) : Option Err :=
  match op with
  | TxOp.Commit => drv.Commit log
  | TxOp.RollBack => drv.Rollback log

/-- A sequence of `Commit` and `RollBack` calls on one session, one after the
other: the outcome of each call, the session and the calls made at the end. -/
def runTxOps (drv : TxDriver) :
    List TxOp → Session → List TxEvent → Run (List OpOutcome × Session × List TxEvent)
  | [], s, log => pure ([], s, log)
  | op :: rest, s, log => do
    let r ← op.run drv s log
    let tail ← runTxOps drv rest r.session r.log
    pure ({ err := r.err, reached := decide (r.log ≠ log) } :: tail.1, tail.2)

/-- The event an operation adds to the log when it reaches the transaction. -/
def TxOp.event : TxOp → TxEvent
  | TxOp.Commit => TxEvent.Commit
  | TxOp.RollBack => TxEvent.Rollback

/-- What a sequence of `Commit` and `RollBack` calls on an open session is to
return: a call gets the answer of the transaction, unchanged, as long as no
earlier call got the answer nil; after that answer every call returns nil and
does not reach the transaction. -/
def expectedOutcomes (drv : TxDriver) : List TxOp → List TxEvent → List OpOutcome
  | [], _ => []
  | op :: rest, log =>
    match op.driver drv log with
    | some e => { err := some e, reached := true } :: expectedOutcomes drv rest (log ++ [op.event])
    | none =>
      { err := none, reached := true }
        :: List.replicate rest.length { err := none, reached := false }

/-- The error `sql.ErrTxDone`. -/
def ErrTxDone : Err := Err.foreign "sql: transaction has already been committed or rolled back"

/-- The calls from the latest one backwards: whether a `Commit` or `Rollback`
comes before the `Begin` or `BeginTx` that made the transaction. -/
def txDoneFrom : List TxEvent → Bool
  | [] => false
  | TxEvent.Commit :: _ => true
  | TxEvent.Rollback :: _ => true
  | TxEvent.Begin :: _ => false
  | TxEvent.BeginTx :: _ => false
  | TxEvent.wrapped :: rest => txDoneFrom rest

/-- Whether the transaction of the last `Begin` or `BeginTx` in the log has
had a `Commit` or `Rollback` call since. -/
def txDone (log : List TxEvent) : Bool := txDoneFrom log.reverse

/-- A database whose `Begin` and `BeginTx` succeed and whose transactions are
`*sql.Tx` values over a driver that answers commit with `commitErr` and rollback
with `rollbackErr`: the first `Commit` or `Rollback` call marks the transaction
done, whatever the driver answers, and every later call returns `ErrTxDone`. -/
def sqlTx (commitErr rollbackErr : Option Err) : TxDriver :=
  { Begin := fun _ => none, BeginTx := fun _ => none,
    Commit := fun log => if txDone log then some ErrTxDone else commitErr,
    Rollback := fun log => if txDone log then some ErrTxDone else rollbackErr }

/-- A `*sql.Tx` over a driver whose commit fails and whose rollback succeeds. -/
def failingCommit : TxDriver := sqlTx (some (Err.foreign "commit failed")) none

/-- A `*sql.Tx` over a driver whose rollback fails and whose commit succeeds. -/
def failingRollback : TxDriver := sqlTx none (some (Err.foreign "rollback failed"))

/-- The map-shaped conditions of a condition expression. -/
def Expr.cmps : Expr → List Cmp
  | Expr.cmp c => [c]
  | Expr.AND cs => cs
  | Expr.OR cs => cs
  | Expr.unsupported _ => []

/-- The map-shaped conditions of a statement, in the order of its conditions. -/
def Statement.cmps (st : Statement) : List Cmp :=
  (st.conditions.map (fun c => c.Expr.cmps)).flatten

/-- The arguments one entry of a condition map contributes when the rendering
succeeds: the elements of a sequence, one by one; nothing for a nil scalar
under `Eq` and `Ne` (it is rendered as `IS NULL`); the scalar itself
otherwise, under `Eq` and `Ne` with one level of pointer removed. -/
def entryArgs (op : CmpOp) (v : CondValue) : List Value :=
  match v with
  | CondValue.seq vs => vs
  | CondValue.scalar x =>
    if op = CmpOp.Eq ∨ op = CmpOp.Ne then
      (if sqDeref x = Value.nil then [] else [sqDeref x])
    else [x]

/-- The arguments of a map-shaped condition: those of its entries, in ascending
order of the keys. -/
def Cmp.argValues (c : Cmp) : List Value :=
  ((sortedEntries c.entries).map (fun kv => entryArgs c.op kv.2)).flatten

/-- The map `uval` the update branch of `ToSQL` builds from one value row: the
value of the row under each column (of a column named twice, the later one). -/
def rowMap (columns : List String) (row : List Value) : List (String × Value) :=
  (columns.zip row).foldl (fun m kv => mapSet kv.1 kv.2 m) []

/-- The values a statement carries, in the order of their placeholders: for an
insert the value rows one after the other; for an update the values of each
row in ascending order of the columns, then the values of the conditions; for
a select or delete the values of the conditions.  The conditions come in the
order they were added, the parts of an `AND` or `OR` in their order. -/
def Statement.argValues (st : Statement) : List Value :=
  match st.stType with
  | StatementType.InsertStatement => st.values.flatten
  | StatementType.UpdateStatement =>
    (st.values.map (fun row => (sortedEntries (rowMap st.columns row)).map Prod.snd)).flatten
      ++ (st.cmps.map Cmp.argValues).flatten
  | _ => (st.cmps.map Cmp.argValues).flatten

/-- The number of placeholders `?` in a text. -/
def countQ (s : String) : Nat := s.data.count '?'

/-- The identifiers a statement hands to squirrel as they are: the table, the
columns, the order-by terms and the keys of the conditions. -/
def Statement.identifiers (st : Statement) : List String :=
  st.table :: (st.columns ++ st.orderBys
    ++ (st.cmps.map (fun c => c.entries.map Prod.fst)).flatten)

/-- The entries of the maps of a squirrel predicate. -/
def SqPred.entries : SqPred → List (String × CondValue)
  | SqPred.cmp _ m => m
  | SqPred.and ps => (ps.map Prod.snd).flatten
  | SqPred.or ps => (ps.map Prod.snd).flatten

/-- A select on `codebook` with an `Eq` condition of two keys, one of them with
a sequence, and a `Like` condition of one key. -/
def sampleQuery (name : String) (ids : List Value) (pattern : String) : Statement :=
  ((({} : Statement).Select []).From "codebook").Where
    [Expr.cmp { op := CmpOp.Eq,
                entries := [("name", CondValue.scalar (Value.str name)),
                            ("id", CondValue.seq ids)] },
     Expr.cmp { op := CmpOp.Like,
                entries := [("remarks", CondValue.scalar (Value.str pattern))] }]

/-- What `ToSQL` returns for `sampleQuery "bob" [7, 8] "a%"`. -/
def sampleQueryResult : SQLResult :=
  { sql := "SELECT * FROM codebook WHERE id IN (?,?) AND name = ? AND remarks LIKE ?",
    args := some [Value.int 64 7, Value.int 64 8, Value.str "bob", Value.str "a%"],
    err := none }

/-! ## Theorems -/

/-! ### Go maps -/

theorem mem_mapSet {β : Type} (k : String) (v : β) (m : List (String × β)) (x : String × β)
    (h : x ∈ mapSet k v m) : x = (k, v) ∨ x ∈ m := by
  induction m with
  | nil => simp [mapSet] at h; exact Or.inl h
  | cons hd tl ih =>
    obtain ⟨k', v'⟩ := hd
    simp only [mapSet] at h
    split at h
    · rcases List.mem_cons.mp h with h1 | h1
      · exact Or.inl h1
      · exact Or.inr (List.mem_cons_of_mem _ h1)
    · rcases List.mem_cons.mp h with h1 | h1
      · exact Or.inr (h1 ▸ List.mem_cons_self _ _)
      · rcases ih h1 with h2 | h2
        · exact Or.inl h2
        · exact Or.inr (List.mem_cons_of_mem _ h2)

theorem mapSet_keys {β : Type} (k : String) (v : β) (m : List (String × β)) :
    (mapSet k v m).map Prod.fst =
      if k ∈ m.map Prod.fst then m.map Prod.fst else m.map Prod.fst ++ [k] := by
  induction m with
  | nil => simp [mapSet]
  | cons hd tl ih =>
    obtain ⟨k', v'⟩ := hd
    simp only [mapSet]
    by_cases hk : k' = k
    · subst hk; simp
    · have hk2 : ¬ k = k' := fun h => hk h.symm
      simp only [hk, if_false, List.map_cons, ih, List.mem_cons, hk2, false_or]
      split <;> simp

theorem mapSet_keys_nodup {β : Type} (k : String) (v : β) (m : List (String × β))
    (h : (m.map Prod.fst).Nodup) : ((mapSet k v m).map Prod.fst).Nodup := by
  rw [mapSet_keys]
  split
  · exact h
  · rename_i hk
    exact List.Nodup.append h (List.nodup_singleton k) (by
      intro a ha hb
      simp at hb
      exact hk (hb ▸ ha))

theorem mapGet_of_mem {β : Type} (m : List (String × β)) (h : (m.map Prod.fst).Nodup)
    (k : String) (v : β) (hm : (k, v) ∈ m) : mapGet k m = some v := by
  induction m with
  | nil => simp at hm
  | cons hd tl ih =>
    obtain ⟨k', v'⟩ := hd
    simp only [List.map_cons, List.nodup_cons] at h
    simp only [mapGet]
    rcases List.mem_cons.mp hm with h1 | h1
    · cases h1; simp
    · have hne : ¬ k' = k := by
        intro he
        subst he
        exact h.1 (List.mem_map_of_mem Prod.fst h1)
      simp only [hne, if_false]
      exact ih h.2 h1

theorem mem_of_mapGet {β : Type} (m : List (String × β)) (k : String) (v : β)
    (h : mapGet k m = some v) : (k, v) ∈ m := by
  induction m with
  | nil => simp [mapGet] at h
  | cons hd tl ih =>
    obtain ⟨k', v'⟩ := hd
    simp only [mapGet] at h
    split at h
    · rename_i hk
      cases h
      subst hk
      exact List.mem_cons_self _ _
    · exact List.mem_cons_of_mem _ (ih h)

/-! ### Statement -/

/-- C1: with an empty table `ToSQL` returns `StatementTableNotSet` whatever the
kind; with a table and the kind unset it returns `StatementTypeNotSet`; both
times the text is empty and the arguments are nil. -/
theorem ToSQL_table_then_kind_guard (sq : Squirrel)
    (rng : List (String × CondValue) → List (String × CondValue)) (st : Statement) :
    (st.table = "" →
      st.ToSQL sq rng
        = Except.ok { sql := "", args := none, err := some Err.StatementTableNotSet }) ∧
    (st.table ≠ "" → st.stType = StatementType.UnknownStatement →
      st.ToSQL sq rng
        = Except.ok { sql := "", args := none, err := some Err.StatementTypeNotSet }) := by
  constructor
  · intro h
    simp only [Statement.ToSQL, h, if_true]
    rfl
  · intro h1 h2
    simp only [Statement.ToSQL, h1, h2, if_true, if_false]
    rfl

theorem ToSQL_table_then_kind_guard_witness :
    (({ stType := StatementType.SelectStatement, table := "" } : Statement).ToSQL sampleSquirrel id
        = Except.ok { sql := "", args := none, err := some Err.StatementTableNotSet }) ∧
    (({ table := "codebook" } : Statement).ToSQL sampleSquirrel id
        = Except.ok { sql := "", args := none, err := some Err.StatementTypeNotSet }) :=
  ⟨(ToSQL_table_then_kind_guard sampleSquirrel id _).1 rfl,
   (ToSQL_table_then_kind_guard sampleSquirrel id _).2 (by decide) rfl⟩

/-! ### The tag grammar of `NewModel` -/

theorem splitChars_ne_nil (sep : Char) (l : List Char) : splitChars sep l ≠ [] := by
  induction l with
  | nil => simp [splitChars]
  | cons c cs ih =>
    simp only [splitChars]
    split
    · simp
    · split
      · simp
      · simp

theorem splitChars_eq_single (sep : Char) (l a : List Char) :
    splitChars sep l = [a] ↔ a = l ∧ sep ∉ l := by
  induction l generalizing a with
  | nil => simp [splitChars, eq_comm]
  | cons c cs ih =>
    simp only [splitChars]
    by_cases hc : c = sep
    · simp only [hc, if_true]
      constructor
      · intro h
        simp only [List.cons.injEq] at h
        exact absurd h.2 (splitChars_ne_nil sep cs)
      · intro h
        exact absurd (List.mem_cons_self sep cs) h.2
    · simp only [hc, if_false]
      have hc2 : ¬ sep = c := fun h => hc h.symm
      cases hs : splitChars sep cs with
      | nil => exact absurd hs (splitChars_ne_nil sep cs)
      | cons w ws =>
        simp only [List.cons.injEq, List.mem_cons, hc2, false_or]
        constructor
        · rintro ⟨h1, h2⟩
          subst h2
          have := (ih w).mp hs
          exact ⟨by rw [← h1, this.1], this.2⟩
        · rintro ⟨h1, h2⟩
          have h3 := (ih cs).mpr ⟨rfl, h2⟩
          rw [hs] at h3
          simp only [List.cons.injEq] at h3
          exact ⟨by rw [h1, h3.1], h3.2⟩

theorem splitChars_eq_pair (sep : Char) (l a b : List Char) :
    splitChars sep l = [a, b] ↔ l = a ++ sep :: b ∧ sep ∉ a ∧ sep ∉ b := by
  induction l generalizing a with
  | nil => simp [splitChars]
  | cons c cs ih =>
    simp only [splitChars]
    by_cases hc : c = sep
    · simp only [hc, if_true, List.cons.injEq]
      rw [splitChars_eq_single]
      constructor
      · rintro ⟨h1, h2, h3⟩
        subst h1 h2
        simp [h3]
      · rintro ⟨h1, h2, h3⟩
        cases a with
        | nil =>
          simp only [List.nil_append, List.cons.injEq, true_and] at h1
          subst h1
          exact ⟨rfl, rfl, h3⟩
        | cons x xs =>
          simp only [List.cons_append, List.cons.injEq] at h1
          exact absurd (h1.1 ▸ List.mem_cons_self x xs) h2
    · simp only [hc, if_false]
      cases hs : splitChars sep cs with
      | nil => exact absurd hs (splitChars_ne_nil sep cs)
      | cons w ws =>
        simp only [List.cons.injEq]
        constructor
        · rintro ⟨h1, h2⟩
          subst h1 h2
          have := (ih w).mp hs
          refine ⟨by simp [this.1], ?_, this.2.2⟩
          simp only [List.mem_cons, not_or]
          exact ⟨fun h => hc h.symm, this.2.1⟩
        · rintro ⟨h1, h2, h3⟩
          cases a with
          | nil =>
            simp only [List.nil_append, List.cons.injEq] at h1
            exact absurd h1.1 hc
          | cons x xs =>
            simp only [List.cons_append, List.cons.injEq] at h1
            simp only [List.mem_cons, not_or] at h2
            have := (ih xs).mpr ⟨h1.2, h2.2, h3⟩
            rw [hs] at this
            simp only [List.cons.injEq] at this
            exact ⟨by rw [h1.1, this.1], this.2⟩

theorem columnNameOf_eq_some (t v : String) :
    columnNameOf t = some v ↔ t = dbColumnName ++ "=" ++ v ∧ '=' ∉ v.data := by
  unfold columnNameOf strSplit
  constructor
  · intro h
    split at h
    · rename_i a b hab
      split at h
      · rename_i ha
        cases h
        subst ha
        have h2 : splitChars '=' t.data = [dbColumnName.data, v.data] := by
          cases hs : splitChars '=' t.data with
          | nil => rw [hs] at hab; simp at hab
          | cons x xs =>
            rw [hs] at hab
            cases xs with
            | nil => simp at hab
            | cons y ys =>
              cases ys with
              | nil =>
                simp only [List.map_cons, List.map_nil, List.cons.injEq, and_true] at hab
                rw [← hab.1, ← hab.2]
              | cons z zs => simp at hab
        have h3 := (splitChars_eq_pair '=' t.data _ _).mp h2
        refine ⟨?_, h3.2.2⟩
        apply String.ext
        rw [h3.1]
        simp [String.data_append]
      · cases h
    · cases h
  · rintro ⟨h1, h2⟩
    have h3 : splitChars '=' t.data = [dbColumnName.data, v.data] := by
      apply (splitChars_eq_pair '=' t.data _ _).mpr
      refine ⟨?_, by decide, h2⟩
      rw [h1]
      simp [String.data_append]
    rw [h3]
    simp

theorem tagStep_fieldName (s : TagState) (t : String) :
    (tagStep s t).fieldName = (columnNameOf t).getD s.fieldName := by
  unfold tagStep columnNameOf
  generalize strSplit t '=' = l
  rcases l with _ | ⟨a, _ | ⟨b, _ | ⟨c, r⟩⟩⟩
  · simp
  · simp only []
    split <;> split <;> simp
  · simp only []
    split <;> simp
  · simp

theorem foldl_tagStep_fieldName (ts : List String) (s : TagState) :
    (ts.foldl tagStep s).fieldName = ((ts.filterMap columnNameOf).getLast?).getD s.fieldName := by
  induction ts generalizing s with
  | nil => simp
  | cons t rest ih =>
    simp only [List.foldl_cons, List.filterMap_cons]
    rw [ih, tagStep_fieldName]
    cases hc : columnNameOf t with
    | none => simp
    | some v =>
      simp only [Option.getD_some]
      cases hr : List.filterMap columnNameOf rest with
      | nil => simp
      | cons x xs =>
        rw [List.getLast?_cons_cons]
        cases hl : (x :: xs).getLast? with
        | none => simp at hl
        | some y => simp

theorem newField_Name (snake : String → String) (i : Nat) (df : StructField) :
    (newField snake i df).Name = specFieldName snake df := by
  unfold newField parseTag specFieldName
  simp only []
  rw [foldl_tagStep_fieldName]
  cases ((strSplit df.sqlTag ',').filterMap columnNameOf).getLast? <;> rfl

theorem tagStep_IsPrimaryKey (s : TagState) (t : String) :
    (tagStep s t).IsPrimaryKey = (s.IsPrimaryKey || decide (strSplit t '=' = [dbColumnName])) := by
  unfold tagStep
  generalize strSplit t '=' = l
  rcases l with _ | ⟨a, _ | ⟨b, _ | ⟨c, r⟩⟩⟩
  · simp
  · by_cases ha : a = dbColumnName
    · subst ha
      simp only [if_true]
      split <;> simp
    · simp only [ha, if_false]
      split <;> simp [ha]
  · simp only []
    split <;> simp
  · simp

theorem foldl_tagStep_IsPrimaryKey (ts : List String) (s : TagState) :
    (ts.foldl tagStep s).IsPrimaryKey
      = (s.IsPrimaryKey || ts.any (fun t => decide (strSplit t '=' = [dbColumnName]))) := by
  induction ts generalizing s with
  | nil => simp
  | cons t rest ih =>
    simp only [List.foldl_cons, List.any_cons]
    rw [ih, tagStep_IsPrimaryKey, Bool.or_assoc]

theorem newField_IsPrimaryKey (snake : String → String) (i : Nat) (df : StructField) :
    (newField snake i df).IsPrimaryKey
      = (strSplit df.sqlTag ',').any (fun t => decide (strSplit t '=' = [dbColumnName])) := by
  unfold newField parseTag
  simp only []
  rw [foldl_tagStep_IsPrimaryKey]
  simp

/-! ### `NewModel` -/

theorem modelStep_Fields (snake : String → String) (m : Model) (idf : Nat × StructField) :
    (modelStep snake m idf).Fields
      = mapSet (newField snake idf.1 idf.2).Name (newField snake idf.1 idf.2) m.Fields := by
  unfold modelStep
  simp only []
  split <;> rfl

theorem modelStep_TableName (snake : String → String) (m : Model) (idf : Nat × StructField) :
    (modelStep snake m idf).TableName = m.TableName := by
  unfold modelStep
  simp only []
  split <;> rfl

theorem modelStep_no_pk (snake : String → String) (m : Model) (idf : Nat × StructField)
    (h : (newField snake idf.1 idf.2).IsPrimaryKey = false) :
    (modelStep snake m idf).PkName = m.PkName ∧ (modelStep snake m idf).PkIdx = m.PkIdx := by
  unfold modelStep
  simp [h]

theorem foldl_modelStep_TableName (snake : String → String) (l : List (Nat × StructField))
    (m0 : Model) : (l.foldl (modelStep snake) m0).TableName = m0.TableName := by
  induction l generalizing m0 with
  | nil => rfl
  | cons a rest ih => rw [List.foldl_cons, ih, modelStep_TableName]

theorem foldl_modelStep_no_pk (snake : String → String) (l : List (Nat × StructField))
    (m0 : Model) (h : ∀ idf ∈ l, (newField snake idf.1 idf.2).IsPrimaryKey = false) :
    (l.foldl (modelStep snake) m0).PkName = m0.PkName ∧
    (l.foldl (modelStep snake) m0).PkIdx = m0.PkIdx := by
  induction l generalizing m0 with
  | nil => exact ⟨rfl, rfl⟩
  | cons a rest ih =>
    rw [List.foldl_cons]
    have h1 := ih (modelStep snake m0 a) (fun idf hidf => h idf (List.mem_cons_of_mem _ hidf))
    have h2 := modelStep_no_pk snake m0 a (h a (List.mem_cons_self _ _))
    exact ⟨h1.1.trans h2.1, h1.2.trans h2.2⟩

theorem foldl_modelStep_mem (snake : String → String) (l : List (Nat × StructField))
    (m0 : Model) (x : String × Field) (h : x ∈ (l.foldl (modelStep snake) m0).Fields) :
    x ∈ m0.Fields ∨
      ∃ idf ∈ l, x = ((newField snake idf.1 idf.2).Name, newField snake idf.1 idf.2) := by
  induction l generalizing m0 with
  | nil => exact Or.inl h
  | cons a rest ih =>
    rw [List.foldl_cons] at h
    rcases ih _ h with h1 | ⟨idf, hidf, hx⟩
    · rw [modelStep_Fields] at h1
      rcases mem_mapSet _ _ _ _ h1 with h2 | h2
      · exact Or.inr ⟨a, List.mem_cons_self _ _, h2⟩
      · exact Or.inl h2
    · exact Or.inr ⟨idf, List.mem_cons_of_mem _ hidf, hx⟩

theorem foldl_modelStep_nodup (snake : String → String) (l : List (Nat × StructField))
    (m0 : Model) (h : (m0.Fields.map Prod.fst).Nodup) :
    ((l.foldl (modelStep snake) m0).Fields.map Prod.fst).Nodup := by
  induction l generalizing m0 with
  | nil => exact h
  | cons a rest ih =>
    rw [List.foldl_cons]
    apply ih
    rw [modelStep_Fields]
    exact mapSet_keys_nodup _ _ _ h

theorem NewModel_ptrStruct (snake : String → String) (T : StructType) (v : List Value) :
    NewModel snake (RValue.ptrStruct T (some v))
      = Except.ok (T.fields.enum.foldl (modelStep snake)
          { TableName := match T.tableName with
              | some n => n
              | none => "",
            Value := RValue.ptrStruct T (some v), Fields := [], PkName := "", PkIdx := 0 }) :=
  rfl

/-- What every model built by `NewModel` satisfies: distinct keys, each entry
stored under its `Name` and built by `newField` from the struct field at its
`idx`, and the table name of the hook. -/
theorem NewModel_inv (snake : String → String) (T : StructType) (v : List Value) (m : Model)
    (h : NewModel snake (RValue.ptrStruct T (some v)) = Except.ok m) :
    (m.Fields.map Prod.fst).Nodup ∧
    (∀ x ∈ m.Fields, x.1 = x.2.Name ∧ x.2.idx < T.fields.length ∧
      ∃ df, T.fields.get? x.2.idx = some df ∧ x.2 = newField snake x.2.idx df) ∧
    m.TableName = (match T.tableName with
      | some n => n
      | none => "") := by
  rw [NewModel_ptrStruct] at h
  cases h
  refine ⟨foldl_modelStep_nodup _ _ _ (by simp), ?_, foldl_modelStep_TableName _ _ _⟩
  intro x hx
  rcases foldl_modelStep_mem _ _ _ _ hx with h1 | ⟨idf, hidf, hx2⟩
  · simp at h1
  · subst hx2
    have hidx : (newField snake idf.1 idf.2).idx = idf.1 := rfl
    refine ⟨rfl, ?_, idf.2, ?_, ?_⟩
    · rw [hidx]; exact List.fst_lt_of_mem_enum hidf
    · rw [hidx, List.get?_eq_getElem?]; exact List.mem_enum_iff_getElem?.mp hidf
    · rw [hidx]

/-- C3: the first field of `CodeBook` carries the bare token `pk` and resolves
to the column `id`, yet `NewModel` leaves its `IsPrimaryKey` false and the
model without a primary key (`PkName` empty), because the token loop compares
the bare token with `dbColumnName` where `dbPk` is meant. -/
theorem NewModel_CodeBook_pk_not_recorded (snake : String → String) (v : List Value) :
    dbPk ∈ strSplit codeBookID.sqlTag ',' ∧
    CodeBook.fields.get? 0 = some codeBookID ∧
    (newField snake 0 codeBookID).Name = "id" ∧
    (newField snake 0 codeBookID).IsPrimaryKey = false ∧
    ∃ m, NewModel snake (RValue.ptrStruct CodeBook (some v)) = Except.ok m ∧
      m.PkName = "" ∧ ∀ x ∈ m.Fields, x.2.IsPrimaryKey = false := by
  have hno : ∀ idf ∈ CodeBook.fields.enum, (newField snake idf.1 idf.2).IsPrimaryKey = false := by
    intro idf hidf
    rw [newField_IsPrimaryKey]
    have hmem := List.snd_mem_of_mem_enum hidf
    revert hmem
    generalize idf.2 = df
    revert df
    decide
  refine ⟨by decide, rfl, rfl, rfl, _, NewModel_ptrStruct snake CodeBook v, ?_, ?_⟩
  · exact (foldl_modelStep_no_pk snake _ _ hno).1
  · intro x hx
    rcases foldl_modelStep_mem _ _ _ _ hx with h1 | ⟨idf, hidf, hx2⟩
    · simp at h1
    · subst hx2
      exact hno idf hidf

/-- C7 (amended): the name `NewModel` resolves for a struct field is the `v` of
the last tag token of the form `columnName=v` (key, one `=`, value free of `=`),
and `ToSnakeCase` of the identifier when the tag has no token of that form; a
token that is not of that form leaves the name as it is; every entry of
`Model.Fields` is stored under the `Name` so resolved. -/
theorem newField_Name_resolution (snake : String → String) (i : Nat) (df : StructField) :
    (∀ (pre post : List String) (t v : String),
        strSplit df.sqlTag ',' = pre ++ t :: post → IsColumnNameToken t v →
        (∀ u ∈ post, ∀ w, ¬ IsColumnNameToken u w) →
        (newField snake i df).Name = v) ∧
    ((∀ t ∈ strSplit df.sqlTag ',', ∀ w, ¬ IsColumnNameToken t w) →
        (newField snake i df).Name = snake df.Name) ∧
    (∀ (s : TagState) (t : String), (∀ w, ¬ IsColumnNameToken t w) →
        (tagStep s t).fieldName = s.fieldName) ∧
    (∀ (T : StructType) (val : List Value) (m : Model),
        NewModel snake (RValue.ptrStruct T (some val)) = Except.ok m →
        ∀ x ∈ m.Fields, x.1 = x.2.Name ∧
          ∃ df2, T.fields.get? x.2.idx = some df2 ∧ x.2.Name = (newField snake x.2.idx df2).Name) := by
  have hnone : ∀ u : String, (∀ w, ¬ IsColumnNameToken u w) → columnNameOf u = none := by
    intro u hu
    cases hc : columnNameOf u with
    | none => rfl
    | some w => exact absurd ((columnNameOf_eq_some u w).mp hc) (hu w)
  refine ⟨?_, ?_, ?_, ?_⟩
  · intro pre post t v hsplit ht hpost
    rw [newField_Name]
    unfold specFieldName
    have hpost2 : post.filterMap columnNameOf = [] := by
      rw [List.filterMap_eq_nil_iff]
      intro u hu
      exact hnone u (hpost u hu)
    rw [hsplit, List.filterMap_append, List.filterMap_cons, (columnNameOf_eq_some t v).mpr ht,
      hpost2]
    simp
  · intro hall
    rw [newField_Name]
    unfold specFieldName
    have : (strSplit df.sqlTag ',').filterMap columnNameOf = [] := by
      rw [List.filterMap_eq_nil_iff]
      intro u hu
      exact hnone u (hall u hu)
    rw [this]
    rfl
  · intro s t ht
    rw [tagStep_fieldName, hnone t ht]
    rfl
  · intro T val m hm x hx
    obtain ⟨_, h2, _⟩ := NewModel_inv snake T val m hm
    obtain ⟨h3, _, df2, h4, h5⟩ := h2 x hx
    exact ⟨h3, df2, h4, by rw [← h5]⟩

theorem newField_Name_resolution_witness :
    (newField sampleSnake 0 codeBookID).Name = "id" ∧
    (newField sampleSnake 1 { Name := "CreatedAt", sqlTag := "readOnly", FType := FieldType.String }).Name
      = "created_at" :=
  ⟨(newField_Name_resolution sampleSnake 0 codeBookID).1 ["pk"] [] "columnName=id" "id" rfl
      ⟨rfl, by decide⟩ (by simp),
   (newField_Name_resolution sampleSnake 1
      { Name := "CreatedAt", sqlTag := "readOnly", FType := FieldType.String }).2.1 (by
        intro t ht w hw
        have h1 : t = "readOnly" := by
          have : strSplit "readOnly" ',' = ["readOnly"] := by decide
          rw [this] at ht
          simpa using ht
        have h2 := (columnNameOf_eq_some t w).mpr hw
        rw [h1] at h2
        have h3 : columnNameOf "readOnly" = none := by decide
        rw [h3] at h2
        cases h2)⟩

/-- C7, as stated, fails: a tag may hold the token `columnName=a` and resolve to
another name (a later `columnName=b` wins), and a token `columnName=a=b` is
skipped, so the name is the snake-cased identifier, not `a=b`. -/
theorem newField_Name_counterexample :
    ("columnName=a" ∈ strSplit "columnName=a,columnName=b" ',' ∧
      (newField sampleSnake 0
        { Name := "A", sqlTag := "columnName=a,columnName=b", FType := FieldType.String }).Name ≠ "a") ∧
    ("columnName=a=b" ∈ strSplit "columnName=a=b" ',' ∧
      (newField sampleSnake 0
        { Name := "A", sqlTag := "columnName=a=b", FType := FieldType.String }).Name ≠ "a=b") := by
  decide

/-! ### `NewScanner` -/

theorem NewScanner_ptrStruct (snake : String → String) (T : StructType) (v : List Value) :
    ∃ m, NewModel snake (RValue.ptrStruct T (some v)) = Except.ok m ∧
      NewScanner snake (Dest.ptrStruct T (some v))
        = Except.ok (Except.ok
            { rows := none, fields := [], entity := Dest.ptrStruct T (some v),
              entityValue := RValue.ptrStruct T (some v),
              entityPointer := RValue.struct T v true, Model := some m }) :=
  ⟨_, NewModel_ptrStruct snake T v, rfl⟩

theorem NewScanner_slice (snake : String → String) (T : StructType) (sl : SliceVal)
    (dest : Dest) (c : Bool)
    (hsl : (∃ es, sl = SliceVal.structs T es) ∨ (∃ es, sl = SliceVal.ptrs T es))
    (hdest : (dest = Dest.slice sl ∧ c = false) ∨ (dest = Dest.ptrSlice (some sl) ∧ c = true)) :
    ∃ m, NewModel snake (RValue.ptrStruct T (some T.zero)) = Except.ok m ∧
      NewScanner snake dest
        = Except.ok (Except.ok
            { rows := none, fields := [], entity := dest, entityValue := ValueOf dest,
              entityPointer := RValue.slice sl c, Model := some m }) := by
  refine ⟨_, NewModel_ptrStruct snake T T.zero, ?_⟩
  rcases hsl with ⟨es, rfl⟩ | ⟨es, rfl⟩ <;> rcases hdest with ⟨rfl, rfl⟩ | ⟨rfl, rfl⟩ <;> rfl

/-- The destinations `NewScanner` accepts, and what the scanner then holds. -/
theorem NewScanner_ok_cases (snake : String → String) (dest : Dest) (sc : Scanner)
    (h : NewScanner snake dest = Except.ok (Except.ok sc)) :
    ∃ T v0 m, NewModel snake (RValue.ptrStruct T (some v0)) = Except.ok m ∧
      sc.Model = some m ∧ sc.rows = none ∧
      ((∃ v, dest = Dest.ptrStruct T (some v) ∧ sc.entityPointer = RValue.struct T v true) ∨
       (∃ sl c, ((∃ es, sl = SliceVal.structs T es) ∨ (∃ es, sl = SliceVal.ptrs T es)) ∧
          ((dest = Dest.slice sl ∧ c = false) ∨ (dest = Dest.ptrSlice (some sl) ∧ c = true)) ∧
          sc.entityPointer = RValue.slice sl c)) := by
  cases dest with
  | nil => cases h
  | struct T v => cases h
  | other t => cases h
  | ptrStruct T v =>
    cases v with
    | none => cases h
    | some v =>
      obtain ⟨m, hm, hs⟩ := NewScanner_ptrStruct snake T v
      rw [hs] at h
      cases h
      exact ⟨T, v, m, hm, rfl, rfl, Or.inl ⟨v, rfl, rfl⟩⟩
  | slice sl =>
    cases sl with
    | structs T es =>
      obtain ⟨m, hm, hs⟩ := NewScanner_slice snake T (SliceVal.structs T es) (Dest.slice _) false
        (Or.inl ⟨es, rfl⟩) (Or.inl ⟨rfl, rfl⟩)
      rw [hs] at h
      cases h
      exact ⟨T, _, m, hm, rfl, rfl, Or.inr ⟨_, false, Or.inl ⟨es, rfl⟩, Or.inl ⟨rfl, rfl⟩, rfl⟩⟩
    | ptrs T es =>
      obtain ⟨m, hm, hs⟩ := NewScanner_slice snake T (SliceVal.ptrs T es) (Dest.slice _) false
        (Or.inr ⟨es, rfl⟩) (Or.inl ⟨rfl, rfl⟩)
      rw [hs] at h
      cases h
      exact ⟨T, _, m, hm, rfl, rfl, Or.inr ⟨_, false, Or.inr ⟨es, rfl⟩, Or.inl ⟨rfl, rfl⟩, rfl⟩⟩
    | ptrsOther n => cases h
    | other n => cases h
  | ptrSlice osl =>
    cases osl with
    | none => cases h
    | some sl =>
      cases sl with
      | structs T es =>
        obtain ⟨m, hm, hs⟩ := NewScanner_slice snake T (SliceVal.structs T es)
          (Dest.ptrSlice (some _)) true (Or.inl ⟨es, rfl⟩) (Or.inr ⟨rfl, rfl⟩)
        rw [hs] at h
        cases h
        exact ⟨T, _, m, hm, rfl, rfl, Or.inr ⟨_, true, Or.inl ⟨es, rfl⟩, Or.inr ⟨rfl, rfl⟩, rfl⟩⟩
      | ptrs T es =>
        obtain ⟨m, hm, hs⟩ := NewScanner_slice snake T (SliceVal.ptrs T es)
          (Dest.ptrSlice (some _)) true (Or.inr ⟨es, rfl⟩) (Or.inr ⟨rfl, rfl⟩)
        rw [hs] at h
        cases h
        exact ⟨T, _, m, hm, rfl, rfl, Or.inr ⟨_, true, Or.inr ⟨es, rfl⟩, Or.inr ⟨rfl, rfl⟩, rfl⟩⟩
      | ptrsOther n => cases h
      | other n => cases h

/-- A struct passed by value, and a slice of pointers to something that is no
struct, make `NewScanner` panic inside `NewModel`. -/
theorem NewScanner_panics (snake : String → String) :
    (∀ T v, NewScanner snake (Dest.struct T v)
        = Except.error "reflect: call of reflect.Value.Elem on struct Value") ∧
    (∀ n, NewScanner snake (Dest.slice (SliceVal.ptrsOther n))
        = Except.error "reflect: call of reflect.Value.NumField on non-struct Value") ∧
    (∀ n, NewScanner snake (Dest.ptrSlice (some (SliceVal.ptrsOther n)))
        = Except.error "reflect: call of reflect.Value.NumField on non-struct Value") :=
  ⟨fun _ _ => rfl, fun _ => rfl, fun _ => rfl⟩

/-- C8 (amended): `NewScanner` succeeds on a non-nil pointer to a struct and on a
slice, or a non-nil pointer to a slice, of structs or of pointers to structs;
it returns `ModelNotSupportType` for a slice (or non-nil pointer to a slice)
whose elements are neither structs nor pointers; it returns
`ScannerEntiryTypeNotSupport` for the nil interface, a nil pointer and every
value whose indirection is neither a struct nor a slice. -/
theorem NewScanner_by_shape (snake : String → String) :
    (∀ T v, ∃ sc, NewScanner snake (Dest.ptrStruct T (some v)) = Except.ok (Except.ok sc)) ∧
    (∀ T es, ∃ sc, NewScanner snake (Dest.slice (SliceVal.structs T es)) = Except.ok (Except.ok sc)) ∧
    (∀ T es, ∃ sc, NewScanner snake (Dest.slice (SliceVal.ptrs T es)) = Except.ok (Except.ok sc)) ∧
    (∀ T es, ∃ sc,
      NewScanner snake (Dest.ptrSlice (some (SliceVal.structs T es))) = Except.ok (Except.ok sc)) ∧
    (∀ T es, ∃ sc,
      NewScanner snake (Dest.ptrSlice (some (SliceVal.ptrs T es))) = Except.ok (Except.ok sc)) ∧
    (∀ n, NewScanner snake (Dest.slice (SliceVal.other n))
      = Except.ok (Except.error Err.ModelNotSupportType)) ∧
    (∀ n, NewScanner snake (Dest.ptrSlice (some (SliceVal.other n)))
      = Except.ok (Except.error Err.ModelNotSupportType)) ∧
    NewScanner snake Dest.nil = Except.ok (Except.error Err.ScannerEntiryTypeNotSupport) ∧
    (∀ T, NewScanner snake (Dest.ptrStruct T none)
      = Except.ok (Except.error Err.ScannerEntiryTypeNotSupport)) ∧
    NewScanner snake (Dest.ptrSlice none)
      = Except.ok (Except.error Err.ScannerEntiryTypeNotSupport) ∧
    (∀ t, NewScanner snake (Dest.other t)
      = Except.ok (Except.error Err.ScannerEntiryTypeNotSupport)) :=
  ⟨fun _ _ => ⟨_, rfl⟩, fun _ _ => ⟨_, rfl⟩, fun _ _ => ⟨_, rfl⟩, fun _ _ => ⟨_, rfl⟩,
   fun _ _ => ⟨_, rfl⟩, fun _ => rfl, fun _ => rfl, rfl, fun _ => rfl, rfl, fun _ => rfl⟩

/-- C8, as stated, fails: a slice of structs passed by value (the destination of
`TestDeleteMany`) is accepted although it is no pointer, and a slice of scalars
is refused with `ModelNotSupportType`, not with `ScannerEntiryTypeNotSupport`. -/
theorem NewScanner_counterexample :
    (∃ sc, NewScanner sampleSnake (Dest.slice (SliceVal.structs CodeBook [codeBook7]))
        = Except.ok (Except.ok sc)) ∧
    NewScanner sampleSnake (Dest.slice (SliceVal.other 0))
      = Except.ok (Except.error Err.ModelNotSupportType) ∧
    Err.ModelNotSupportType ≠ Err.ScannerEntiryTypeNotSupport :=
  ⟨⟨_, rfl⟩, rfl, by decide⟩

/-! ### `Delete` and `Update` on a model without a primary key -/

theorem Delete_no_pk (env : Env) (s : Session) (dest : Dest) (sc : Scanner) (m : Model)
    (h : NewScanner env.ToSnakeCase dest = Except.ok (Except.ok sc))
    (hm : sc.Model = some m) (hpk : m.PkName = "") :
    ∃ s2, s.Delete env dest
      = Except.ok { n := 0, err := some Err.ModelMissingPrimaryKey, session := s2, calls := [] } := by
  unfold Session.Delete
  simp only [h, bind, Except.bind, hm, hpk, if_true]
  exact ⟨_, rfl⟩

/-- C4: when the model `NewScanner` builds for the destination has an empty
`PkName`, `Delete` returns `(0, ModelMissingPrimaryKey)` and no call reaches the
execution layer. -/
theorem Delete_without_primary_key (env : Env) (s : Session) (dest : Dest) (sc : Scanner)
    (m : Model) (h : NewScanner env.ToSnakeCase dest = Except.ok (Except.ok sc))
    (hm : sc.Model = some m) (hpk : m.PkName = "") :
    ∃ s2, s.Delete env dest
      = Except.ok { n := 0, err := some Err.ModelMissingPrimaryKey, session := s2, calls := [] } :=
  Delete_no_pk env s dest sc m h hm hpk

theorem Delete_without_primary_key_witness :
    ∃ s2, newSession.Delete sampleEnv (Dest.ptrSlice (some (SliceVal.ptrs Plain [some plain1])))
      = Except.ok { n := 0, err := some Err.ModelMissingPrimaryKey, session := s2, calls := [] } :=
  Delete_without_primary_key sampleEnv newSession
    (Dest.ptrSlice (some (SliceVal.ptrs Plain [some plain1]))) _ _ rfl rfl rfl

/-- C5: `Update` has no primary-key check.  For `&CodeBook{ID: 7}`, whose model
has no primary key, it builds an UPDATE with the predicate `Eq{"": []}`, hands it
to squirrel and, unless squirrel reports an error, sends the text to the
execution layer and returns the driver's result. -/
theorem Update_without_primary_key_is_executed (sq : Squirrel)
    (exec : Route → String → List Value → Except Err (Int × Option Err)) :
    (∃ m, NewModel sampleSnake (RValue.ptrStruct CodeBook (some codeBook7)) = Except.ok m ∧
      m.PkName = "") ∧
    newSession.Update { sampleEnv with sq := sq, ExecContext := exec }
        (Dest.ptrStruct CodeBook (some codeBook7))
      = Except.ok
          (match (sq.updateToSql codeBookUpdateBuilder).err with
           | some err =>
             { n := 0, err := some err,
               session := { newSession with statement := some codeBookUpdateStatement }, calls := [] }
           | none =>
             match exec Route.master (sq.updateToSql codeBookUpdateBuilder).sql
                 ((sq.updateToSql codeBookUpdateBuilder).args.getD []) with
             | Except.error err =>
               { n := 0, err := some err,
                 session := { newSession with statement := some codeBookUpdateStatement,
                                              hasCtx := true },
                 calls := [{ route := Route.master, isQuery := false,
                             sql := (sq.updateToSql codeBookUpdateBuilder).sql,
                             args := (sq.updateToSql codeBookUpdateBuilder).args.getD [] }] }
             | Except.ok res =>
               { n := res.1, err := res.2,
                 session := { newSession with statement := some codeBookUpdateStatement,
                                              hasCtx := true },
                 calls := [{ route := Route.master, isQuery := false,
                             sql := (sq.updateToSql codeBookUpdateBuilder).sql,
                             args := (sq.updateToSql codeBookUpdateBuilder).args.getD [] }] }) := by
  refine ⟨⟨_, rfl, rfl⟩, ?_⟩
  have h : newSession.Update { sampleEnv with sq := sq, ExecContext := exec }
      (Dest.ptrStruct CodeBook (some codeBook7))
      = newSession.execTail { sampleEnv with sq := sq, ExecContext := exec }
          codeBookUpdateStatement := rfl
  rw [h]
  unfold Session.execTail
  have h2 : codeBookUpdateStatement.ToSQL sq id
      = Except.ok (sq.updateToSql codeBookUpdateBuilder) := rfl
  show (do
    let r ← codeBookUpdateStatement.ToSQL sq id
    _) = _
  rw [h2]
  have hr : newSession.execRoute = Route.master := rfl
  simp only [bind, Except.bind, hr]
  cases (sq.updateToSql codeBookUpdateBuilder).err with
  | some err => rfl
  | none =>
    simp only []
    cases exec Route.master (sq.updateToSql codeBookUpdateBuilder).sql
      ((sq.updateToSql codeBookUpdateBuilder).args.getD []) <;> rfl

/-! ### `Convert` -/

/-- C9: for a pointer-to-struct destination and a cursor whose `Columns` succeeds
and that yields no row, `Convert` returns `RecordNotFound` and the struct the
destination points to is what it was. -/
theorem Convert_single_no_row (coerce : Coerce)
    (rng : List (String × Field) → List (String × Field)) (snake : String → String)
    (T : StructType) (v : List Value) (sc : Scanner) (rows : Rows) (cols : List String)
    (hsc : NewScanner snake (Dest.ptrStruct T (some v)) = Except.ok (Except.ok sc))
    (hcols : rows.columns = Except.ok cols) (hdata : rows.data = []) :
    ∃ sc2, (sc.SetRows rows).Convert coerce rng = Except.ok (some Err.RecordNotFound, sc2) ∧
      sc2.entityPointer = RValue.struct T v true := by
  obtain ⟨m, _, hs⟩ := NewScanner_ptrStruct snake T v
  rw [hs] at hsc
  cases hsc
  simp only [Scanner.Convert, Scanner.SetRows, hcols, RValue.CanSet, RValue.Kind,
    Scanner.convertOne, hdata]
  exact ⟨_, rfl, rfl⟩

theorem Convert_single_no_row_witness :
    ∃ sc sc2, NewScanner sampleSnake (Dest.ptrStruct CodeBook (some codeBook7))
        = Except.ok (Except.ok sc) ∧
      (sc.SetRows { columns := Except.ok ["id"], data := [] }).Convert sampleEnv.coerce id
        = Except.ok (some Err.RecordNotFound, sc2) ∧
      sc2.entityPointer = RValue.struct CodeBook codeBook7 true :=
  ⟨_, (Convert_single_no_row sampleEnv.coerce id sampleSnake CodeBook codeBook7 _
        { columns := Except.ok ["id"], data := [] } ["id"] rfl rfl rfl).choose, rfl,
    (Convert_single_no_row sampleEnv.coerce id sampleSnake CodeBook codeBook7 _
        { columns := Except.ok ["id"], data := [] } ["id"] rfl rfl rfl).choose_spec⟩

/-- C10: for a pointer to a slice of structs (`&[]CodeBook{}`) and a cursor that
yields a row, `FindAll` (through `Convert` and `convertAll`) panics: `convertAll`
takes `Type().Elem().Elem()`, and `Elem` of a struct type panics.  With no row
the same destination is set to the empty slice. -/
theorem FindAll_slice_of_structs_panics :
    (newSession.Select []).FindAll oneRowEnv (Dest.ptrSlice (some (SliceVal.structs CodeBook [])))
      = Except.error "reflect: Elem of invalid type" ∧
    (∃ r, (newSession.Select []).FindAll sampleEnv
        (Dest.ptrSlice (some (SliceVal.structs CodeBook [codeBook7]))) = Except.ok r ∧
      r.err = none ∧ r.entity = RValue.slice (SliceVal.structs CodeBook []) true) :=
  ⟨rfl, _, rfl, rfl, rfl⟩

/-! ### The statements `Insert` and `Update` build -/

theorem Field_struct (T : StructType) (v : List Value) (c : Bool) (i : Nat) (h : i < v.length) :
    (RValue.struct T v c).Field i = Except.ok (v.getD i Value.nil) := by
  simp [RValue.Field, List.getD_eq_getElem?_getD, List.getElem?_eq_getElem h]
  rfl

theorem FieldInterface_struct (T : StructType) (v : List Value) (c : Bool) (i : Nat)
    (h : i < v.length) (hT : i < T.fields.length)
    (hexp : ∀ df ∈ T.fields, isExported df.Name = true) :
    (RValue.struct T v c).FieldInterface i = Except.ok (v.getD i Value.nil) := by
  have he := hexp _ (List.getElem_mem hT)
  simp only [RValue.FieldInterface, List.get?_eq_getElem?, List.getElem?_eq_getElem h,
    List.getElem?_eq_getElem hT, he, if_true, List.getD_eq_getElem?_getD, Option.getD_some]
  rfl

theorem insertRow_struct (fields : List (String × Field)) (T : StructType) (v : List Value)
    (c : Bool) (names : List String) (h : ∀ x ∈ fields, x.2.idx < v.length)
    (hT : ∀ x ∈ fields, x.2.idx < T.fields.length)
    (hexp : ∀ df ∈ T.fields, isExported df.Name = true) :
    insertRow fields (RValue.struct T v c) names = Except.ok (entityRow fields v names) := by
  induction names with
  | nil => rfl
  | cons fn rest ih =>
    unfold insertRow entityRow
    cases hg : mapGet fn fields with
    | none => simpa [entityRow, hg] using ih
    | some f =>
      have hf := h _ (mem_of_mapGet _ _ _ hg)
      have hfT := hT _ (mem_of_mapGet _ _ _ hg)
      simp only [FieldInterface_struct T v c f.idx hf hfT hexp, ih, bind, Except.bind, List.filterMap_cons, hg,
        Option.map_some']
      rfl

theorem updateRow_struct (fields : List (String × Field)) (T : StructType) (v : List Value)
    (c : Bool) (names : List String) (h : ∀ x ∈ fields, x.2.idx < v.length)
    (hT : ∀ x ∈ fields, x.2.idx < T.fields.length)
    (hexp : ∀ df ∈ T.fields, isExported df.Name = true) :
    updateRow fields (RValue.struct T v c) names
      = Except.ok (entityRow fields v names, entityPks fields v names) := by
  induction names with
  | nil => rfl
  | cons fn rest ih =>
    unfold updateRow entityRow entityPks
    cases hg : mapGet fn fields with
    | none => simpa [entityRow, entityPks, hg] using ih
    | some f =>
      have hf := h _ (mem_of_mapGet _ _ _ hg)
      have hfT := hT _ (mem_of_mapGet _ _ _ hg)
      simp only [FieldInterface_struct T v c f.idx hf hfT hexp, ih, bind, Except.bind, List.filterMap_cons, hg,
        Option.map_some', Option.some_bind]
      cases f.IsPrimaryKey <;> rfl

theorem nonNil_elems (T : StructType) (ps : List (Option (List Value))) (es : List (List Value))
    (h : nonNil ps = some es) :
    List.Forall₂ (fun sub e => ∃ c, subStruct sub = Except.ok (RValue.struct T e c))
      (ps.map (fun v => RValue.ptrStruct T v)) es := by
  induction ps generalizing es with
  | nil =>
    simp [nonNil] at h
    subst h
    exact List.Forall₂.nil
  | cons p rest ih =>
    cases p with
    | none => simp [nonNil] at h
    | some v =>
      simp only [nonNil, Option.map_eq_some'] at h
      obtain ⟨vs, hvs, rfl⟩ := h
      exact List.Forall₂.cons ⟨true, rfl⟩ (ih vs hvs)

theorem SliceVal_entities_elems (sl : SliceVal) (T : StructType) (es : List (List Value))
    (h : sl.entities = some (T, es)) :
    ((∃ xs, sl = SliceVal.structs T xs) ∨ (∃ xs, sl = SliceVal.ptrs T xs)) ∧
    List.Forall₂ (fun sub e => ∃ c, subStruct sub = Except.ok (RValue.struct T e c)) sl.elems es := by
  cases sl with
  | structs T2 xs =>
    simp only [SliceVal.entities, Option.some.injEq, Prod.mk.injEq] at h
    obtain ⟨rfl, rfl⟩ := h
    refine ⟨Or.inl ⟨_, rfl⟩, ?_⟩
    simp only [SliceVal.elems]
    rw [List.forall₂_map_left_iff]
    exact List.forall₂_same.mpr (fun e _ => ⟨true, rfl⟩)
  | ptrs T2 xs =>
    simp only [SliceVal.entities, Option.map_eq_some', Prod.mk.injEq] at h
    obtain ⟨vs, hvs, rfl, rfl⟩ := h
    exact ⟨Or.inr ⟨_, rfl⟩, nonNil_elems _ _ _ hvs⟩
  | ptrsOther n => simp [SliceVal.entities] at h
  | other n => simp [SliceVal.entities] at h

theorem insertRows_entities (fields : List (String × Field)) (names : List String)
    (T : StructType) (subs : List RValue) (es : List (List Value))
    (hsub : List.Forall₂ (fun sub e => ∃ c, subStruct sub = Except.ok (RValue.struct T e c)) subs es)
    (hidx : ∀ e ∈ es, ∀ x ∈ fields, x.2.idx < e.length)
    (hT : ∀ x ∈ fields, x.2.idx < T.fields.length)
    (hexp : ∀ df ∈ T.fields, isExported df.Name = true) (st : Statement) :
    insertRows fields names subs st
      = Except.ok { st with values := st.values ++ es.map (fun e => entityRow fields e names) } := by
  induction hsub generalizing st with
  | nil => simp [insertRows]; rfl
  | @cons sub e subs es h1 _ ih =>
    obtain ⟨c, hc⟩ := h1
    unfold insertRows
    simp only [hc, bind, Except.bind,
      insertRow_struct fields T e c names (hidx e (List.mem_cons_self _ _)) hT hexp]
    rw [ih (fun e2 he2 => hidx e2 (List.mem_cons_of_mem _ he2))]
    simp [Statement.Values]

theorem updateRows_entities (fields : List (String × Field)) (names : List String)
    (T : StructType) (subs : List RValue) (es : List (List Value))
    (hsub : List.Forall₂ (fun sub e => ∃ c, subStruct sub = Except.ok (RValue.struct T e c)) subs es)
    (hidx : ∀ e ∈ es, ∀ x ∈ fields, x.2.idx < e.length)
    (hT : ∀ x ∈ fields, x.2.idx < T.fields.length)
    (hexp : ∀ df ∈ T.fields, isExported df.Name = true) (st : Statement) (pks : List Value) :
    updateRows fields names subs (st, pks)
      = Except.ok ({ st with values := st.values ++ es.map (fun e => entityRow fields e names) },
          pks ++ (es.map (fun e => entityPks fields e names)).flatten) := by
  induction hsub generalizing st pks with
  | nil => simp [updateRows]; rfl
  | @cons sub e subs es h1 _ ih =>
    obtain ⟨c, hc⟩ := h1
    unfold updateRows
    simp only [hc, bind, Except.bind,
      updateRow_struct fields T e c names (hidx e (List.mem_cons_self _ _)) hT hexp]
    rw [ih (fun e2 he2 => hidx e2 (List.mem_cons_of_mem _ he2))]
    simp [Statement.Values]

theorem NewScanner_of_entities (snake : String → String) (dest : Dest) (T : StructType)
    (es : List (List Value)) (hent : dest.entities = some (T, es)) :
    ∃ sc m v0, NewScanner snake dest = Except.ok (Except.ok sc) ∧ sc.Model = some m ∧
      NewModel snake (RValue.ptrStruct T (some v0)) = Except.ok m ∧
      ((∃ v c, sc.entityPointer = RValue.struct T v c ∧ es = [v]) ∨
       (∃ sl c, sc.entityPointer = RValue.slice sl c ∧
          List.Forall₂ (fun sub e => ∃ c, subStruct sub = Except.ok (RValue.struct T e c))
            sl.elems es)) := by
  cases dest with
  | nil => simp [Dest.entities] at hent
  | struct T2 v => simp [Dest.entities] at hent
  | other t => simp [Dest.entities] at hent
  | ptrStruct T2 v =>
    cases v with
    | none => simp [Dest.entities] at hent
    | some v =>
      simp only [Dest.entities, Option.some.injEq, Prod.mk.injEq] at hent
      obtain ⟨rfl, rfl⟩ := hent
      obtain ⟨m, hm, hs⟩ := NewScanner_ptrStruct snake T2 v
      exact ⟨_, m, v, hs, rfl, hm, Or.inl ⟨v, true, rfl, rfl⟩⟩
  | slice sl =>
    simp only [Dest.entities] at hent
    obtain ⟨hshape, hall⟩ := SliceVal_entities_elems sl T es hent
    obtain ⟨m, hm, hs⟩ := NewScanner_slice snake T sl (Dest.slice sl) false hshape
      (Or.inl ⟨rfl, rfl⟩)
    exact ⟨_, m, _, hs, rfl, hm, Or.inr ⟨sl, false, rfl, hall⟩⟩
  | ptrSlice osl =>
    cases osl with
    | none => simp [Dest.entities] at hent
    | some sl =>
      simp only [Dest.entities] at hent
      obtain ⟨hshape, hall⟩ := SliceVal_entities_elems sl T es hent
      obtain ⟨m, hm, hs⟩ := NewScanner_slice snake T sl (Dest.ptrSlice (some sl)) true hshape
        (Or.inr ⟨rfl, rfl⟩)
      exact ⟨_, m, _, hs, rfl, hm, Or.inr ⟨sl, true, rfl, hall⟩⟩

/-- The statement `Insert` hands to the common tail, for a destination that
holds entities `es` of type `T`. -/
theorem Insert_eq_execTail (env : Env) (s : Session) (dest : Dest) (T : StructType)
    (es : List (List Value)) (sc : Scanner) (m : Model) (v0 : List Value)
    (hs : NewScanner env.ToSnakeCase dest = Except.ok (Except.ok sc)) (hm : sc.Model = some m)
    (hmodel : NewModel env.ToSnakeCase (RValue.ptrStruct T (some v0)) = Except.ok m)
    (hshape : (∃ v c, sc.entityPointer = RValue.struct T v c ∧ es = [v]) ∨
       (∃ sl c, sc.entityPointer = RValue.slice sl c ∧
          List.Forall₂ (fun sub e => ∃ c, subStruct sub = Except.ok (RValue.struct T e c))
            sl.elems es))
    (hlen : ∀ e ∈ es, e.length = T.fields.length)
    (hexp : ∀ df ∈ T.fields, isExported df.Name = true) :
    s.Insert env dest = s.execTail env
        { stType := StatementType.InsertStatement, table := m.TableName,
          columns := writableFields env.rangeFields m.Fields,
          values := es.map (fun e =>
            entityRow m.Fields e (writableFields env.rangeFields m.Fields)) } := by
  have hT : ∀ x ∈ m.Fields, x.2.idx < T.fields.length :=
    fun x hx => ((NewModel_inv _ _ _ _ hmodel).2.1 x hx).2.1
  have hidx : ∀ e ∈ es, ∀ x ∈ m.Fields, x.2.idx < e.length := by
    intro e he x hx
    rw [hlen e he]
    exact hT x hx
  unfold Session.Insert
  simp only [hs, bind, Except.bind, hm]
  rcases hshape with ⟨v, c, hp, rfl⟩ | ⟨sl, c, hp, hall⟩
  · simp only [hp, insertRow_struct m.Fields T v c _ (hidx v (List.mem_cons_self _ _)) hT hexp]
    simp [Statement.Values, Statement.Columns, Statement.From, Statement.Insert,
      Statement.Reset, Scanner.GetTableName, hm]
  · simp only [hp, insertRows_entities m.Fields _ T sl.elems es hall hidx hT hexp]
    simp [Statement.Columns, Statement.From, Statement.Insert,
      Statement.Reset, Scanner.GetTableName, hm]

/-- The statement `Update` hands to the common tail, for a destination that
holds entities `es` of type `T`. -/
theorem Update_eq_execTail (env : Env) (s : Session) (dest : Dest) (T : StructType)
    (es : List (List Value)) (sc : Scanner) (m : Model) (v0 : List Value)
    (hs : NewScanner env.ToSnakeCase dest = Except.ok (Except.ok sc)) (hm : sc.Model = some m)
    (hmodel : NewModel env.ToSnakeCase (RValue.ptrStruct T (some v0)) = Except.ok m)
    (hshape : (∃ v c, sc.entityPointer = RValue.struct T v c ∧ es = [v]) ∨
       (∃ sl c, sc.entityPointer = RValue.slice sl c ∧
          List.Forall₂ (fun sub e => ∃ c, subStruct sub = Except.ok (RValue.struct T e c))
            sl.elems es))
    (hlen : ∀ e ∈ es, e.length = T.fields.length)
    (hexp : ∀ df ∈ T.fields, isExported df.Name = true) :
    s.Update env dest = s.execTail env
        { stType := StatementType.UpdateStatement, table := m.TableName,
          columns := writableFields env.rangeFields m.Fields,
          conditions := [{ Expr := Expr.cmp { op := CmpOp.Eq, entries := [(m.PkName,
            CondValue.seq (es.map (fun e =>
              entityPks m.Fields e (writableFields env.rangeFields m.Fields))).flatten)] } }],
          values := es.map (fun e =>
            entityRow m.Fields e (writableFields env.rangeFields m.Fields)) } := by
  have hT : ∀ x ∈ m.Fields, x.2.idx < T.fields.length :=
    fun x hx => ((NewModel_inv _ _ _ _ hmodel).2.1 x hx).2.1
  have hidx : ∀ e ∈ es, ∀ x ∈ m.Fields, x.2.idx < e.length := by
    intro e he x hx
    rw [hlen e he]
    exact hT x hx
  unfold Session.Update
  simp only [hs, bind, Except.bind, hm]
  rcases hshape with ⟨v, c, hp, rfl⟩ | ⟨sl, c, hp, hall⟩
  · simp only [hp, updateRow_struct m.Fields T v c _ (hidx v (List.mem_cons_self _ _)) hT hexp]
    simp [Statement.Values, Statement.Columns, Statement.From, Statement.Update, Statement.Where,
      Statement.Reset, Scanner.GetTableName, hm]
  · simp only [hp, updateRows_entities m.Fields _ T sl.elems es hall hidx hT hexp]
    simp [Statement.Columns, Statement.From, Statement.Update, Statement.Where,
      Statement.Reset, Scanner.GetTableName, hm]

/-! ### The common tail -/

theorem ToSQL_table_empty (sq : Squirrel)
    (rng : List (String × CondValue) → List (String × CondValue)) (st : Statement)
    (h : st.table = "") :
    st.ToSQL sq rng
      = Except.ok { sql := "", args := none, err := some Err.StatementTableNotSet } := by
  simp only [Statement.ToSQL, h, if_true]
  rfl

theorem execTail_table_empty (env : Env) (s : Session) (st : Statement) (h : st.table = "") :
    s.execTail env st
      = Except.ok { n := 0, err := some Err.StatementTableNotSet,
                    session := { s with statement := some st }, calls := [] } := by
  unfold Session.execTail
  simp only [ToSQL_table_empty env.sq env.rangeCond st h, bind, Except.bind]
  rfl

theorem execTail_of_ToSQL (env : Env) (s : Session) (st : Statement) (r : SQLResult)
    (h : st.ToSQL env.sq env.rangeCond = Except.ok r) :
    ∃ res, s.execTail env st = Except.ok res ∧ res.session.statement = some st := by
  unfold Session.execTail
  simp only [h, bind, Except.bind]
  cases r.err with
  | some err => exact ⟨_, rfl, rfl⟩
  | none =>
    simp only []
    cases env.ExecContext s.execRoute r.sql (r.args.getD []) <;> exact ⟨_, rfl, rfl⟩

theorem ToSQL_insert_returns (sq : Squirrel)
    (rng : List (String × CondValue) → List (String × CondValue)) (st : Statement)
    (h : st.stType = StatementType.InsertStatement) : ∃ r, st.ToSQL sq rng = Except.ok r := by
  unfold Statement.ToSQL
  simp only [h]
  split
  · exact ⟨_, rfl⟩
  · exact ⟨_, rfl⟩

theorem updateRowMap_returns (cols : List String) (row : List Value)
    (acc : List (String × Value)) (h : cols.length ≤ row.length) :
    ∃ m, updateRowMap cols row acc = Except.ok m := by
  induction cols generalizing row acc with
  | nil => exact ⟨_, rfl⟩
  | cons c cs ih =>
    cases row with
    | nil => simp at h
    | cons x xs =>
      simp only [List.length_cons, Nat.add_le_add_iff_right] at h
      simp only [updateRowMap]
      exact ih xs _ h

theorem updateSetMaps_returns (cols : List String) (rows : List (List Value))
    (h : ∀ row ∈ rows, cols.length ≤ row.length) :
    ∃ ms, updateSetMaps cols rows = Except.ok ms := by
  induction rows with
  | nil => exact ⟨_, rfl⟩
  | cons r rs ih =>
    obtain ⟨m, hm⟩ := updateRowMap_returns cols r [] (h r (List.mem_cons_self _ _))
    obtain ⟨ms, hms⟩ := ih (fun row hrow => h row (List.mem_cons_of_mem _ hrow))
    simp only [updateSetMaps, hm, hms, bind, Except.bind]
    exact ⟨_, rfl⟩

theorem ToSQL_update_returns (sq : Squirrel)
    (rng : List (String × CondValue) → List (String × CondValue)) (st : Statement) (c : Cmp)
    (h : st.stType = StatementType.UpdateStatement)
    (hrows : ∀ row ∈ st.values, st.columns.length ≤ row.length)
    (hcond : st.conditions = [{ Expr := Expr.cmp c }]) : ∃ r, st.ToSQL sq rng = Except.ok r := by
  obtain ⟨ms, hms⟩ := updateSetMaps_returns st.columns st.values hrows
  unfold Statement.ToSQL
  simp only [h, hms, hcond, convertConditions, ConvertCondition, bind, Except.bind, pure,
    Except.pure]
  split
  · exact ⟨_, rfl⟩
  · exact ⟨_, rfl⟩

/-! ### Column lists -/

theorem filterMap_writable (l : List (String × Field)) :
    l.filterMap (fun nf => if nf.2.IsReadOnly = false then some nf.1 else none)
      = (l.filter (fun x => !x.2.IsReadOnly)).map Prod.fst := by
  induction l with
  | nil => rfl
  | cons a rest ih =>
    simp only [List.filterMap_cons, List.filter_cons]
    cases h : a.2.IsReadOnly <;> simp [ih]

theorem writableFields_perm (rng : List (String × Field) → List (String × Field))
    (fields : List (String × Field)) (h : (rng fields).Perm fields) :
    (writableFields rng fields).Perm ((fields.filter (fun x => !x.2.IsReadOnly)).map Prod.fst) := by
  unfold writableFields
  rw [filterMap_writable]
  exact (h.filter _).map _

theorem writable_nodup (fields : List (String × Field)) (h : (fields.map Prod.fst).Nodup) :
    ((fields.filter (fun x => !x.2.IsReadOnly)).map Prod.fst).Nodup :=
  List.Nodup.sublist (List.Sublist.map _ (List.filter_sublist _)) h

theorem entityRow_eq_map (m : Model) (e : List Value) (columns : List String)
    (h : ∀ c ∈ columns, ∃ f, mapGet c m.Fields = some f) :
    entityRow m.Fields e columns = columns.map (fieldValue m e) := by
  induction columns with
  | nil => rfl
  | cons c cs ih =>
    obtain ⟨f, hf⟩ := h c (List.mem_cons_self _ _)
    have ih2 := ih (fun c2 hc2 => h c2 (List.mem_cons_of_mem _ hc2))
    unfold entityRow at ih2 ⊢
    simp only [List.filterMap_cons, hf, Option.map_some', List.map_cons, ih2, fieldValue]

/-! ### `From` before a session operation -/

theorem Find_keeps_From (env : Env) (s : Session) (t : String) (dest : Dest) (sc : Scanner)
    (ht : t ≠ "") (h : NewScanner env.ToSnakeCase dest = Except.ok (Except.ok sc)) :
    (sc.entityPointer.Kind = Kind.Struct →
      (s.From t).FindOne env dest
        = (s.From t).queryTail env ((s.initStatemnt.From t).Limit 1) sc) ∧
    (sc.entityPointer.Kind = Kind.Slice →
      (s.From t).FindAll env dest = (s.From t).queryTail env (s.initStatemnt.From t) sc) ∧
    ((s.initStatemnt.From t).Limit 1).table = t ∧ (s.initStatemnt.From t).table = t := by
  refine ⟨?_, ?_, rfl, rfl⟩
  · intro hk
    unfold Session.FindOne
    simp [h, bind, Except.bind, hk, Session.From, Session.initStatemnt, Statement.From,
      Statement.Limit, ht]
  · intro hk
    unfold Session.FindAll
    simp [h, bind, Except.bind, hk, Session.From, Session.initStatemnt, Statement.From, ht]

/-- C2: a table set with `From` before `Insert`, `Update` or `Delete` is dropped.
Each of the three starts with the kind selector, which resets the statement, so
for an entity type without a `TableName` hook the statement reaches `ToSQL` with
an empty table: the results are `(0, StatementTableNotSet)` and nothing is
executed, whatever table `t` the caller has set. -/
theorem Insert_Update_drop_From (env : Env) (s : Session) (t : String) :
    Plain.tableName = none ∧
    (∃ s2, (s.From t).Insert env (Dest.ptrStruct Plain (some plain1))
      = Except.ok { n := 0, err := some Err.StatementTableNotSet, session := s2, calls := [] }) ∧
    (∃ s2, (s.From t).Update env (Dest.ptrStruct Plain (some plain1))
      = Except.ok { n := 0, err := some Err.StatementTableNotSet, session := s2, calls := [] }) ∧
    Keyed.tableName = none ∧
    (∃ s2, (s.From t).Delete env (Dest.ptrStruct Keyed (some [Value.int 64 1]))
      = Except.ok { n := 0, err := some Err.StatementTableNotSet, session := s2, calls := [] }) := by
  obtain ⟨sc, m, v0, hs, hm, hmodel, hshape⟩ :=
    NewScanner_of_entities env.ToSnakeCase (Dest.ptrStruct Plain (some plain1)) Plain [plain1] rfl
  have hlen : ∀ e ∈ [plain1], e.length = Plain.fields.length := by
    intro e he
    simp only [List.mem_singleton] at he
    subst he
    rfl
  have htab : m.TableName = "" := (NewModel_inv _ _ _ _ hmodel).2.2
  have hexp : ∀ df ∈ Plain.fields, isExported df.Name = true := by decide
  refine ⟨rfl, ?_, ?_, rfl, ?_⟩
  · rw [Insert_eq_execTail env _ _ Plain [plain1] sc m v0 hs hm hmodel hshape hlen hexp]
    exact ⟨_, execTail_table_empty env _ _ htab⟩
  · rw [Update_eq_execTail env _ _ Plain [plain1] sc m v0 hs hm hmodel hshape hlen hexp]
    exact ⟨_, execTail_table_empty env _ _ htab⟩
  · exact ⟨_, rfl⟩

/-! ### Columns and value rows of `Insert` and `Update` -/

/-- C6: for a destination holding entities `es` (the struct behind a pointer, or
the elements of a slice of structs or of non-nil pointers to structs) of a type
whose fields are all exported, `Insert` and `Update` both return, and leave a
statement whose column list is a rearrangement, without repetition, of the
names of the model fields that are not read-only, and whose value rows are,
entity by entity, the values of the fields stored under the columns, in column
order. -/
theorem Insert_Update_columns_and_rows (env : Env) (s : Session) (dest : Dest)
    (T : StructType) (es : List (List Value))
    (hrng : ∀ l, (env.rangeFields l).Perm l)
    (hent : dest.entities = some (T, es))
    (hlen : ∀ e ∈ es, e.length = T.fields.length)
    (hexp : ∀ df ∈ T.fields, isExported df.Name = true) :
    ∃ m v0, NewModel env.ToSnakeCase (RValue.ptrStruct T (some v0)) = Except.ok m ∧
      (∃ r st, s.Insert env dest = Except.ok r ∧ r.session.statement = some st ∧
        st.columns.Perm ((m.Fields.filter (fun x => !x.2.IsReadOnly)).map Prod.fst) ∧
        st.columns.Nodup ∧
        st.values = es.map (fun e => st.columns.map (fieldValue m e))) ∧
      (∃ r st, s.Update env dest = Except.ok r ∧ r.session.statement = some st ∧
        st.columns.Perm ((m.Fields.filter (fun x => !x.2.IsReadOnly)).map Prod.fst) ∧
        st.columns.Nodup ∧
        st.values = es.map (fun e => st.columns.map (fieldValue m e))) := by
  obtain ⟨sc, m, v0, hs, hm, hmodel, hshape⟩ := NewScanner_of_entities env.ToSnakeCase dest T es hent
  have hnd := (NewModel_inv _ _ _ _ hmodel).1
  have hperm := writableFields_perm env.rangeFields m.Fields (hrng m.Fields)
  have hnodup : (writableFields env.rangeFields m.Fields).Nodup :=
    hperm.nodup_iff.mpr (writable_nodup m.Fields hnd)
  have hkeys : ∀ c ∈ writableFields env.rangeFields m.Fields, ∃ f, mapGet c m.Fields = some f := by
    intro c hc
    have hc2 := hperm.mem_iff.mp hc
    obtain ⟨x, hx, hxc⟩ := List.mem_map.mp hc2
    have hx2 : x ∈ m.Fields := List.mem_of_mem_filter hx
    exact ⟨x.2, mapGet_of_mem m.Fields hnd c x.2 (by rw [← hxc]; exact hx2)⟩
  have hvals : es.map (fun e => entityRow m.Fields e (writableFields env.rangeFields m.Fields))
      = es.map (fun e => (writableFields env.rangeFields m.Fields).map (fieldValue m e)) :=
    List.map_congr_left (fun e _ => entityRow_eq_map m e _ hkeys)
  refine ⟨m, v0, hmodel, ?_, ?_⟩
  · rw [Insert_eq_execTail env s dest T es sc m v0 hs hm hmodel hshape hlen hexp]
    obtain ⟨r, hr⟩ := ToSQL_insert_returns env.sq env.rangeCond
      { stType := StatementType.InsertStatement, table := m.TableName,
        columns := writableFields env.rangeFields m.Fields,
        values := es.map (fun e =>
          entityRow m.Fields e (writableFields env.rangeFields m.Fields)) } rfl
    obtain ⟨res, hres, hst⟩ := execTail_of_ToSQL env s _ r hr
    exact ⟨res, _, hres, hst, hperm, hnodup, hvals⟩
  · rw [Update_eq_execTail env s dest T es sc m v0 hs hm hmodel hshape hlen hexp]
    obtain ⟨r, hr⟩ := ToSQL_update_returns env.sq env.rangeCond
      { stType := StatementType.UpdateStatement, table := m.TableName,
        columns := writableFields env.rangeFields m.Fields,
        conditions := [{ Expr := Expr.cmp { op := CmpOp.Eq, entries := [(m.PkName,
          CondValue.seq (es.map (fun e =>
            entityPks m.Fields e (writableFields env.rangeFields m.Fields))).flatten)] } }],
        values := es.map (fun e =>
          entityRow m.Fields e (writableFields env.rangeFields m.Fields)) } _ rfl
      (by
        intro row hrow
        simp only [hvals, List.mem_map] at hrow
        obtain ⟨e, _, rfl⟩ := hrow
        simp)
      rfl
    obtain ⟨res, hres, hst⟩ := execTail_of_ToSQL env s _ r hr
    exact ⟨res, _, hres, hst, hperm, hnodup, hvals⟩

theorem Insert_Update_columns_and_rows_witness :
    ∃ m v0, NewModel sampleEnv.ToSnakeCase (RValue.ptrStruct CodeBook (some v0)) = Except.ok m ∧
      (∃ r st, newSession.Insert sampleEnv
          (Dest.ptrSlice (some (SliceVal.ptrs CodeBook [some codeBook7]))) = Except.ok r ∧
        r.session.statement = some st ∧
        st.columns.Perm ((m.Fields.filter (fun x => !x.2.IsReadOnly)).map Prod.fst) ∧
        st.columns.Nodup ∧
        st.values = [codeBook7].map (fun e => st.columns.map (fieldValue m e))) ∧
      (∃ r st, newSession.Update sampleEnv
          (Dest.ptrSlice (some (SliceVal.ptrs CodeBook [some codeBook7]))) = Except.ok r ∧
        r.session.statement = some st ∧
        st.columns.Perm ((m.Fields.filter (fun x => !x.2.IsReadOnly)).map Prod.fst) ∧
        st.columns.Nodup ∧
        st.values = [codeBook7].map (fun e => st.columns.map (fieldValue m e))) :=
  Insert_Update_columns_and_rows sampleEnv newSession
    (Dest.ptrSlice (some (SliceVal.ptrs CodeBook [some codeBook7]))) CodeBook [codeBook7]
    (fun l => List.Perm.refl l) rfl (by decide) (by decide)

/-! ### `convertAll` on a slice of pointers to structs -/

theorem tmpMapLoop_returns (fields : List String) (src : List Value)
    (acc : List (String × Value)) (h : fields.length ≤ src.length) :
    ∃ m, tmpMapLoop fields src acc = Except.ok m := by
  induction fields generalizing src acc with
  | nil => exact ⟨_, rfl⟩
  | cons f fs ih =>
    cases src with
    | nil => simp at h
    | cons x xs =>
      simp only [List.length_cons, Nat.add_le_add_iff_right] at h
      simp only [tmpMapLoop]
      exact ih xs _ h

theorem setEntityLoop_returns (coerce : Coerce) (tmpMap : List (String × Value))
    (hco : ∀ nm f cur raw, ∃ r, coerce nm f cur raw = Except.ok r)
    (T : StructType) (c : Bool) (entries : List (String × Field)) (v : List Value)
    (hidx : ∀ x ∈ entries, x.2.idx < v.length) :
    ∃ err v2, setEntityLoop coerce tmpMap entries (RValue.struct T v c)
        = Except.ok (err, RValue.struct T v2 c) ∧ v2.length = v.length := by
  induction entries generalizing v with
  | nil => exact ⟨none, v, rfl, rfl⟩
  | cons x rest ih =>
    obtain ⟨name, field⟩ := x
    have hrest : ∀ y ∈ rest, y.2.idx < v.length := fun y hy => hidx y (List.mem_cons_of_mem _ hy)
    unfold setEntityLoop
    cases hg : mapGet name tmpMap with
    | none => exact ih v hrest
    | some val =>
      have hf : field.idx < v.length := hidx (name, field) (List.mem_cons_self _ _)
      simp only [Field_struct T v c field.idx hf, bind, Except.bind]
      by_cases hnil : val = Value.nil
      · simp only [hnil, if_true]
        exact ih v hrest
      · simp only [hnil, if_false]
        obtain ⟨r, hr⟩ := hco name field (v.getD field.idx Value.nil) val
        rw [hr]
        cases r with
        | error e => exact ⟨some e, v, rfl, rfl⟩
        | ok x =>
          simp only [RValue.setField]
          obtain ⟨err, v2, h1, h2⟩ := ih (v.set field.idx x) (by
            intro y hy
            rw [List.length_set]
            exact hrest y hy)
          exact ⟨err, v2, h1, by rw [h2, List.length_set]⟩

theorem scanHolders_length (n : Nat) (vals : List Value) : (scanHolders n vals).length = n := by
  simp [scanHolders]

/-- For a pointer to a slice of pointers to structs and a cursor whose rows all
scan, `Convert` returns no error and sets the destination to one element per
row, in cursor order, each the fresh zero struct after `SetEntity` with that
row (an error `SetEntity` returns is dropped by `convertAll`). -/
theorem Convert_slice_of_pointers (coerce : Coerce)
    (rng : List (String × Field) → List (String × Field)) (snake : String → String)
    (T : StructType) (es0 : List (Option (List Value))) (sc : Scanner) (cols : List String)
    (vals : List (List Value))
    (hsc : NewScanner snake (Dest.ptrSlice (some (SliceVal.ptrs T es0)))
      = Except.ok (Except.ok sc))
    (hco : ∀ nm f cur raw, ∃ r, coerce nm f cur raw = Except.ok r)
    (hrng : ∀ l, ∀ x ∈ rng l, x ∈ l) :
    ∃ sc2 elems,
      (sc.SetRows { columns := Except.ok cols, data := vals.map Except.ok }).Convert coerce rng
        = Except.ok (none, sc2) ∧
      sc2.entityPointer = RValue.slice (SliceVal.ptrs T elems) true ∧
      List.Forall₂ (fun row el => ∃ err v2,
        ({ sc with rows := some { columns := Except.ok cols, data := vals.map Except.ok },
                   fields := cols } : Scanner).SetEntity coerce rng
            (scanHolders cols.length row) (RValue.struct T T.zero true)
          = Except.ok (err, RValue.struct T v2 true) ∧ el = some v2) vals elems := by
  obtain ⟨m, hm, hs⟩ := NewScanner_slice snake T (SliceVal.ptrs T es0)
    (Dest.ptrSlice (some (SliceVal.ptrs T es0))) true (Or.inr ⟨es0, rfl⟩) (Or.inr ⟨rfl, rfl⟩)
  rw [hs] at hsc
  cases hsc
  have hidx : ∀ x ∈ rng m.Fields, x.2.idx < T.zero.length := by
    intro x hx
    have := ((NewModel_inv _ _ _ _ hm).2.1 x (hrng _ x hx)).2.1
    simpa [StructType.zero] using this
  obtain ⟨sc1, hsc1⟩ : ∃ sc1 : Scanner, sc1 =
      { rows := some { columns := Except.ok cols, data := vals.map Except.ok },
        fields := cols, entity := Dest.ptrSlice (some (SliceVal.ptrs T es0)),
        entityValue := ValueOf (Dest.ptrSlice (some (SliceVal.ptrs T es0))),
        entityPointer := RValue.slice (SliceVal.ptrs T es0) true, Model := some m } := ⟨_, rfl⟩
  have hfields : sc1.fields = cols := by rw [hsc1]
  have hmodel : sc1.Model = some m := by rw [hsc1]
  have hset : ∀ row, ∃ err v2, sc1.SetEntity coerce rng (scanHolders cols.length row)
      (RValue.struct T T.zero true) = Except.ok (err, RValue.struct T v2 true) := by
    intro row
    obtain ⟨tm, htm⟩ := tmpMapLoop_returns cols (scanHolders cols.length row) []
      (by rw [scanHolders_length])
    obtain ⟨err, v2, h1, _⟩ := setEntityLoop_returns coerce tm hco T true (rng m.Fields) T.zero hidx
    refine ⟨err, v2, ?_⟩
    unfold Scanner.SetEntity
    simp only [hfields, htm, bind, Except.bind, hmodel, h1]
  have hloop : ∀ (rows : List (List Value)) (acc : List (Option (List Value))),
      ∃ elems, convertAllLoop coerce rng sc1 (SliceVal.ptrs T es0) (rows.map Except.ok)
          (SliceVal.ptrs T acc) = Except.ok (none, SliceVal.ptrs T (acc ++ elems)) ∧
        List.Forall₂ (fun row el => ∃ err v2, sc1.SetEntity coerce rng
            (scanHolders cols.length row) (RValue.struct T T.zero true)
          = Except.ok (err, RValue.struct T v2 true) ∧ el = some v2) rows elems := by
    intro rows
    induction rows with
    | nil => intro acc; exact ⟨[], by simp [convertAllLoop]; rfl, List.Forall₂.nil⟩
    | cons row rest ih =>
      intro acc
      obtain ⟨err, v2, hse⟩ := hset row
      obtain ⟨elems, h1, h2⟩ := ih (acc ++ [some v2])
      refine ⟨some v2 :: elems, ?_, List.Forall₂.cons ⟨err, v2, hse, rfl⟩ h2⟩
      simp only [List.map_cons, convertAllLoop, SliceVal.NewElemElem, RValue.Elem, bind,
        Except.bind, pure, Except.pure, hfields, hse, RValue.pointTo, SliceVal.Append]
      rw [h1]
      simp
  obtain ⟨elems, h1, h2⟩ := hloop vals []
  have hconv : Scanner.Convert coerce rng (Scanner.SetRows
        { rows := none, fields := [], entity := Dest.ptrSlice (some (SliceVal.ptrs T es0)),
          entityValue := ValueOf (Dest.ptrSlice (some (SliceVal.ptrs T es0))),
          entityPointer := RValue.slice (SliceVal.ptrs T es0) true, Model := some m }
        { columns := Except.ok cols, data := vals.map Except.ok })
      = (do
          let r ← convertAllLoop coerce rng sc1 (SliceVal.ptrs T es0) (vals.map Except.ok)
            (SliceVal.ptrs T [])
          match r.1 with
          | some err => pure (some err, sc1)
          | none => pure (none, { sc1 with entityPointer := RValue.slice r.2 true })) := by
    rw [hsc1]
    rfl
  refine ⟨{ sc1 with entityPointer := RValue.slice (SliceVal.ptrs T elems) true }, elems, ?_, rfl, ?_⟩
  · rw [hconv, h1]
    simp only [bind, Except.bind, List.nil_append]
    rfl
  · rw [hsc1] at h2
    exact h2

/-- For a pointer to a slice of structs of any type and a cursor whose first row
scans, `Convert` panics in `convertAll`, whatever the columns, the row and the
coercion are. -/
theorem Convert_slice_of_structs_panics (coerce : Coerce)
    (rng : List (String × Field) → List (String × Field)) (snake : String → String)
    (T : StructType) (es : List (List Value)) (sc : Scanner) (cols : List String)
    (row : List Value) (rest : List (Except Err (List Value)))
    (hsc : NewScanner snake (Dest.ptrSlice (some (SliceVal.structs T es)))
      = Except.ok (Except.ok sc)) :
    (sc.SetRows { columns := Except.ok cols, data := Except.ok row :: rest }).Convert coerce rng
      = Except.error "reflect: Elem of invalid type" := by
  obtain ⟨m, _, hs⟩ := NewScanner_slice snake T (SliceVal.structs T es)
    (Dest.ptrSlice (some (SliceVal.structs T es))) true (Or.inl ⟨es, rfl⟩) (Or.inr ⟨rfl, rfl⟩)
  rw [hs] at hsc
  cases hsc
  rfl

/-! ### SetEntity: which fields it writes -/

theorem mapGet_mapSet {β : Type} (k k2 : String) (v : β) (m : List (String × β)) :
    mapGet k2 (mapSet k v m) = if k = k2 then some v else mapGet k2 m := by
  induction m with
  | nil => simp [mapSet, mapGet]
  | cons hd tl ih =>
    obtain ⟨k', v'⟩ := hd
    simp only [mapSet]
    by_cases hk : k' = k
    · subst hk
      by_cases h2 : k' = k2 <;> simp [mapGet, h2]
    · simp only [hk, if_false, mapGet, ih]
      by_cases h2 : k' = k2
      · have : ¬ k = k2 := fun h => hk (h2.trans h.symm)
        simp [h2, this]
      · simp [h2]

theorem tmpMapLoop_get (fields : List String) (src : List Value) (acc m : List (String × Value))
    (h : tmpMapLoop fields src acc = Except.ok m) (k : String) (val : Value)
    (hk : mapGet k m = some val) :
    mapGet k acc = some val ∨ ∃ i, fields.get? i = some k ∧ src.get? i = some val := by
  induction fields generalizing src acc with
  | nil =>
    simp only [tmpMapLoop, pure, Except.pure] at h
    cases h
    exact Or.inl hk
  | cons f fs ih =>
    cases src with
    | nil => simp [tmpMapLoop] at h
    | cons x xs =>
      simp only [tmpMapLoop] at h
      rcases ih xs _ h with h1 | ⟨i, h1, h2⟩
      · rw [mapGet_mapSet] at h1
        split at h1
        · rename_i hf
          cases h1
          exact Or.inr ⟨0, by simp [hf], by simp⟩
        · exact Or.inl h1
      · exact Or.inr ⟨i + 1, by simpa using h1, by simpa using h2⟩

/-- What `setEntityLoop` does to the fields of a struct: the result is a struct
of the same type and length; a position all of whose entries find no value or a
nil value keeps its value; and when no error is returned and no two entries
share a position, the position of an entry with a non-nil value holds what the
coercion made of the value it held before. -/
theorem setEntityLoop_spec (coerce : Coerce) (tmpMap : List (String × Value))
    (T : StructType) (c : Bool) (entries : List (String × Field)) (v : List Value)
    (err : Option Err) (d2 : RValue)
    (h : setEntityLoop coerce tmpMap entries (RValue.struct T v c) = Except.ok (err, d2)) :
    ∃ v2, d2 = RValue.struct T v2 c ∧ v2.length = v.length ∧
      (∀ i, (∀ x ∈ entries, x.2.idx = i →
          mapGet x.1 tmpMap = none ∨ mapGet x.1 tmpMap = some Value.nil) →
        v2.get? i = v.get? i) ∧
      (err = none → (entries.map (fun x => x.2.idx)).Nodup →
        ∀ x ∈ entries, ∀ val, mapGet x.1 tmpMap = some val → val ≠ Value.nil →
          ∃ cur r, v.get? x.2.idx = some cur ∧
            coerce x.1 x.2 cur val = Except.ok (Except.ok r) ∧ v2.get? x.2.idx = some r) := by
  induction entries generalizing v with
  | nil =>
    simp only [setEntityLoop, pure, Except.pure] at h
    cases h
    exact ⟨v, rfl, rfl, fun _ _ => rfl, fun _ _ x hx => by simp at hx⟩
  | cons x rest ih =>
    obtain ⟨name, field⟩ := x
    unfold setEntityLoop at h
    cases hg : mapGet name tmpMap with
    | none =>
      simp only [hg] at h
      obtain ⟨v2, h1, h2, h3, h4⟩ := ih v h
      refine ⟨v2, h1, h2, ?_, ?_⟩
      · intro i hi
        exact h3 i (fun y hy => hi y (List.mem_cons_of_mem _ hy))
      · intro he hnd y hy val hval hne
        simp only [List.map_cons, List.nodup_cons] at hnd
        rcases List.mem_cons.mp hy with rfl | hy
        · simp only [hg] at hval
          cases hval
        · exact h4 he hnd.2 y hy val hval hne
    | some val0 =>
      simp only [hg] at h
      cases hfield : (RValue.struct T v c).Field field.idx with
      | error e => simp [hfield, bind, Except.bind] at h
      | ok ff =>
        have hget : v.get? field.idx = some ff := by
          simp only [RValue.Field] at hfield
          cases hq : v.get? field.idx with
          | none =>
            rw [hq] at hfield
            cases hfield
          | some q =>
            rw [hq] at hfield
            cases hfield
            rfl
        simp only [hfield, bind, Except.bind] at h
        by_cases hnil : val0 = Value.nil
        · simp only [hnil, if_true] at h
          obtain ⟨v2, h1, h2, h3, h4⟩ := ih v h
          refine ⟨v2, h1, h2, ?_, ?_⟩
          · intro i hi
            exact h3 i (fun y hy => hi y (List.mem_cons_of_mem _ hy))
          · intro he hnd y hy val hval hne
            simp only [List.map_cons, List.nodup_cons] at hnd
            rcases List.mem_cons.mp hy with rfl | hy
            · simp only [hg] at hval
              cases hval
              exact absurd hnil hne
            · exact h4 he hnd.2 y hy val hval hne
        · simp only [hnil, if_false] at h
          cases hco : coerce name field ff val0 with
          | error e => simp [hco] at h
          | ok r =>
            simp only [hco] at h
            cases r with
            | error e =>
              simp only [pure, Except.pure] at h
              cases h
              refine ⟨v, rfl, rfl, fun _ _ => rfl, ?_⟩
              intro he
              cases he
            | ok x =>
              simp only [RValue.setField] at h
              obtain ⟨v2, h1, h2, h3, h4⟩ := ih (v.set field.idx x) h
              refine ⟨v2, h1, by rw [h2, List.length_set], ?_, ?_⟩
              · intro i hi
                have hne : field.idx ≠ i := by
                  intro hidx
                  rcases hi (name, field) (List.mem_cons_self _ _) hidx with h5 | h5
                  · simp only [hg] at h5
                    cases h5
                  · simp only [hg] at h5
                    cases h5
                    exact hnil rfl
                rw [h3 i (fun y hy => hi y (List.mem_cons_of_mem _ hy))]
                simp [List.getElem?_set, hne]
              · intro he hnd y hy val hval hne
                simp only [List.map_cons, List.nodup_cons] at hnd
                rcases List.mem_cons.mp hy with rfl | hy
                · simp only [hg] at hval
                  cases hval
                  refine ⟨ff, x, hget, hco, ?_⟩
                  have hfr : ∀ z ∈ rest, z.2.idx = field.idx →
                      mapGet z.1 tmpMap = none ∨ mapGet z.1 tmpMap = some Value.nil := by
                    intro z hz hzi
                    exact absurd (List.mem_map.mpr ⟨z, hz, hzi⟩) hnd.1
                  rw [h3 field.idx hfr]
                  have hlt : field.idx < v.length := by
                    rw [List.get?_eq_getElem?] at hget
                    exact (List.getElem?_eq_some_iff.mp hget).1
                  simp [List.getElem?_set, hlt]
                · obtain ⟨cur, r, h5, h6, h7⟩ := h4 he hnd.2 y hy val hval hne
                  refine ⟨cur, r, ?_, h6, h7⟩
                  have hne2 : field.idx ≠ y.2.idx := by
                    intro hidx
                    exact hnd.1 (List.mem_map.mpr ⟨y, hy, hidx.symm⟩)
                  simpa [List.getElem?_set, hne2] using h5

/-- Two entries of a model built by `NewModel` that sit at the same position of
the struct are the same entry. -/
theorem NewModel_idx_inj (snake : String → String) (T : StructType) (v : List Value)
    (m : Model) (h : NewModel snake (RValue.ptrStruct T (some v)) = Except.ok m)
    (x y : String × Field) (hx : x ∈ m.Fields) (hy : y ∈ m.Fields)
    (hidx : x.2.idx = y.2.idx) : x = y := by
  obtain ⟨_, hinv, _⟩ := NewModel_inv snake T v m h
  obtain ⟨hx1, _, dfx, hx2, hx3⟩ := hinv x hx
  obtain ⟨hy1, _, dfy, hy2, hy3⟩ := hinv y hy
  rw [hidx, hy2] at hx2
  cases hx2
  have h2 : x.2 = y.2 := by rw [hx3, hy3, hidx]
  exact Prod.ext (by rw [hx1, hy1, h2]) h2

theorem NewModel_idx_nodup (snake : String → String) (T : StructType) (v : List Value)
    (m : Model) (h : NewModel snake (RValue.ptrStruct T (some v)) = Except.ok m) :
    (m.Fields.map (fun x => x.2.idx)).Nodup := by
  have hnd : m.Fields.Nodup := List.Nodup.of_map Prod.fst (NewModel_inv snake T v m h).1
  exact List.Nodup.map_on (fun x hx y hy hxy => NewModel_idx_inj snake T v m h x y hx hy hxy) hnd

theorem coerceField_returns (lib : GoLib) (nm : String) (f : Field) (cur raw : Value) :
    ∃ r, coerceField lib nm f cur raw = Except.ok r := by
  unfold coerceField
  split <;> exact ⟨_, rfl⟩

theorem tmpMapLoop_mem (fields : List String) (src : List Value) (acc m : List (String × Value))
    (h : tmpMapLoop fields src acc = Except.ok m) (k : String)
    (hk : k ∈ fields ∨ (mapGet k acc).isSome) : (mapGet k m).isSome := by
  induction fields generalizing src acc with
  | nil =>
    simp only [tmpMapLoop, pure, Except.pure] at h
    cases h
    rcases hk with hk | hk
    · simp at hk
    · exact hk
  | cons f fs ih =>
    cases src with
    | nil => simp [tmpMapLoop] at h
    | cons x xs =>
      simp only [tmpMapLoop] at h
      apply ih xs _ h
      rw [mapGet_mapSet]
      rcases hk with hk | hk
      · rcases List.mem_cons.mp hk with hk | hk
        · right; simp [hk]
        · left; exact hk
      · right
        split
        · rfl
        · exact hk

/-- C15: `SetEntity` returns, and it leaves the field of a model entry at its
prior value when no column of the cursor bears the entry's column name, or when
every column of that name holds nil in the row. -/
theorem SetEntity_keeps_unselected_field (coerce : Coerce)
    (rng : List (String × Field) → List (String × Field)) (snake : String → String)
    (T : StructType) (v0 v : List Value) (m : Model) (sc : Scanner) (src : List Value)
    (c : Bool) (x : String × Field)
    (hm : NewModel snake (RValue.ptrStruct T (some v0)) = Except.ok m)
    (hsc : sc.Model = some m)
    (hco : ∀ nm f cur raw, ∃ r, coerce nm f cur raw = Except.ok r)
    (hrng : ∀ l, ∀ y ∈ rng l, y ∈ l)
    (hlen : sc.fields.length ≤ src.length) (hv : v.length = T.fields.length)
    (hx : x ∈ m.Fields)
    (hcol : x.1 ∉ sc.fields ∨
      ∀ i, sc.fields.get? i = some x.1 → src.get? i = some Value.nil) :
    ∃ err v2 prior,
      sc.SetEntity coerce rng src (RValue.struct T v c)
        = Except.ok (err, RValue.struct T v2 c) ∧
      v.get? x.2.idx = some prior ∧ v2.get? x.2.idx = some prior := by
  obtain ⟨tm, htm⟩ := tmpMapLoop_returns sc.fields src [] hlen
  have hinv := (NewModel_inv snake T v0 m hm).2.1
  have hidx : ∀ y ∈ rng m.Fields, y.2.idx < v.length := by
    intro y hy
    rw [hv]
    exact (hinv y (hrng _ y hy)).2.1
  obtain ⟨err, v2, h1, _⟩ := setEntityLoop_returns coerce tm hco T c (rng m.Fields) v hidx
  obtain ⟨v3, h3, _, hframe, _⟩ := setEntityLoop_spec coerce tm T c (rng m.Fields) v err _ h1
  cases h3
  have hlt : x.2.idx < v.length := by
    rw [hv]
    exact (hinv x hx).2.1
  refine ⟨err, v2, v[x.2.idx], ?_, ?_, ?_⟩
  · unfold Scanner.SetEntity
    simp only [htm, bind, Except.bind, hsc, h1]
  · rw [List.get?_eq_getElem?]
    exact List.getElem?_eq_getElem hlt
  · rw [hframe x.2.idx, List.get?_eq_getElem?]
    · exact List.getElem?_eq_getElem hlt
    · intro y hy hyx
      have hyx2 : y = x := NewModel_idx_inj snake T v0 m hm y x (hrng _ y hy) hx hyx
      subst hyx2
      cases hg : mapGet y.1 tm with
      | none => exact Or.inl rfl
      | some val =>
        right
        rcases tmpMapLoop_get sc.fields src [] tm htm y.1 val hg with h5 | ⟨i, h5, h6⟩
        · simp [mapGet] at h5
        · rcases hcol with hc | hc
          · exact absurd (List.get?_mem h5) hc
          · rw [hc i h5] at h6
            cases h6
            rfl

theorem SetEntity_keeps_unselected_field_witness :
    ∃ err v2 prior,
      (structScanner CodeBook CodeBook.zero ["name"]).SetEntity (coerceField sampleLib)
          (fun l => l) [Value.str "bob"] (RValue.struct CodeBook CodeBook.zero true)
        = Except.ok (err, RValue.struct CodeBook v2 true) ∧
      CodeBook.zero.get? 3 = some prior ∧ v2.get? 3 = some prior :=
  SetEntity_keeps_unselected_field (coerceField sampleLib) (fun l => l) sampleSnake CodeBook
    CodeBook.zero CodeBook.zero _ (structScanner CodeBook CodeBook.zero ["name"])
    [Value.str "bob"] true
    ("remarks", newField sampleSnake 3
      { Name := "Remarks", sqlTag := "", FType := FieldType.Ptr FieldType.String })
    (NewModel_ptrStruct sampleSnake CodeBook CodeBook.zero) rfl
    (coerceField_returns sampleLib) (fun _ _ hy => hy) (by decide) rfl (by decide)
    (Or.inl (by decide))

theorem coerceBool_numeric (lib : GoLib) (field : Field) (cur raw : Value) (q : Rat)
    (hnum : raw.numeric = some q) :
    coerceBool lib field cur raw = if q > 0 then Value.bool true else cur := by
  cases raw with
  | int b n =>
    simp only [Value.numeric, Option.some.injEq] at hnum
    subst hnum
    simp [coerceBool]
  | uint b n =>
    simp only [Value.numeric, Option.some.injEq] at hnum
    subst hnum
    simp [coerceBool]
  | float b y =>
    simp only [Value.numeric, Option.some.injEq] at hnum
    subst hnum
    simp [coerceBool]
  | nil => simp [Value.numeric] at hnum
  | bool b => simp [Value.numeric] at hnum
  | str s => simp [Value.numeric] at hnum
  | bytes s => simp [Value.numeric] at hnum
  | ptr s => simp [Value.numeric] at hnum
  | other t s => simp [Value.numeric] at hnum

/-- C14 (amended): for a boolean field and a numeric source value `q` (signed,
unsigned or float) in every column that bears the name of the field, after a
`SetEntity` that returns no error the field is true when `q > 0` and keeps the
value it had before the call otherwise: the source `0` leaves a field that was
false, as in a fresh entity, false, and never writes false itself. -/
theorem SetEntity_bool_from_number (lib : GoLib)
    (rng : List (String × Field) → List (String × Field)) (snake : String → String)
    (T : StructType) (v0 v : List Value) (m : Model) (sc : Scanner) (src : List Value)
    (c : Bool) (x : String × Field) (raw : Value) (q : Rat) (d2 : RValue)
    (hm : NewModel snake (RValue.ptrStruct T (some v0)) = Except.ok m)
    (hsc : sc.Model = some m)
    (hrng : (rng m.Fields).Perm m.Fields)
    (hx : x ∈ m.Fields) (hbool : x.2.Column.FType = FieldType.Bool)
    (hcol : x.1 ∈ sc.fields)
    (hval : ∀ i, sc.fields.get? i = some x.1 → src.get? i = some raw)
    (hnum : raw.numeric = some q)
    (h : sc.SetEntity (coerceField lib) rng src (RValue.struct T v c) = Except.ok (none, d2)) :
    ∃ v2 prior, d2 = RValue.struct T v2 c ∧ v.get? x.2.idx = some prior ∧
      v2.get? x.2.idx = some (if q > 0 then Value.bool true else prior) := by
  unfold Scanner.SetEntity at h
  cases htm : tmpMapLoop sc.fields src [] with
  | error e => simp [htm, bind, Except.bind] at h
  | ok tm =>
    simp only [htm, bind, Except.bind, hsc] at h
    obtain ⟨v2, h2, _, _, hw⟩ := setEntityLoop_spec (coerceField lib) tm T c (rng m.Fields) v none d2 h
    have hnd : ((rng m.Fields).map (fun y => y.2.idx)).Nodup :=
      (List.Perm.nodup_iff (List.Perm.map _ hrng)).mpr (NewModel_idx_nodup snake T v0 m hm)
    have hsome := tmpMapLoop_mem sc.fields src [] tm htm x.1 (Or.inl hcol)
    obtain ⟨val, hg⟩ := Option.isSome_iff_exists.mp hsome
    have hraw : val = raw := by
      rcases tmpMapLoop_get sc.fields src [] tm htm x.1 val hg with h5 | ⟨i, h5, h6⟩
      · simp [mapGet] at h5
      · rw [hval i h5] at h6
        cases h6
        rfl
    subst hraw
    have hne : val ≠ Value.nil := by
      intro hn
      subst hn
      simp [Value.numeric] at hnum
    obtain ⟨cur, r, h5, h6, h7⟩ := hw rfl hnd x (hrng.mem_iff.mpr hx) val hg hne
    refine ⟨v2, cur, h2, h5, ?_⟩
    rw [h7]
    simp only [coerceField, hbool, pure, Except.pure] at h6
    cases h6
    rw [coerceBool_numeric lib x.2 cur val q hnum]

theorem SetEntity_bool_from_number_witness :
    ∃ v2 prior,
      RValue.struct Gauge [Value.uint 64 0, Value.int 8 0, Value.bool true] true
        = RValue.struct Gauge v2 true ∧
      Gauge.zero.get? 2 = some prior ∧
      v2.get? 2 = some (if mkRat 5 2 > 0 then Value.bool true else prior) :=
  SetEntity_bool_from_number sampleLib (fun l => l) sampleSnake Gauge Gauge.zero Gauge.zero _
    (structScanner Gauge Gauge.zero ["active"]) [Value.float 64 (mkRat 5 2)] true
    ("active", newField sampleSnake 2
      { Name := "Active", sqlTag := "", FType := FieldType.Bool })
    (Value.float 64 (mkRat 5 2)) (mkRat 5 2) _
    (NewModel_ptrStruct sampleSnake Gauge Gauge.zero) rfl (List.Perm.refl _) (by decide) rfl
    (by decide) (by intro i hi; cases i with
      | zero => rfl
      | succ j => simp [structScanner] at hi) rfl rfl

/-- C14 (counterexample): a boolean field that holds `true` still holds `true`
after `SetEntity` with the source value `0` for its column, and no error is
returned: the numeric cases of the boolean target only ever write `true`, so
the field is not false for every destination entity. -/
theorem SetEntity_bool_zero_counterexample :
    (structScanner Gauge Gauge.zero ["active"]).SetEntity (coerceField sampleLib) (fun l => l)
        [Value.int 64 0] (RValue.struct Gauge [Value.uint 64 0, Value.int 8 0, Value.bool true] true)
      = Except.ok (none,
          RValue.struct Gauge [Value.uint 64 0, Value.int 8 0, Value.bool true] true) := by
  rfl

/-- C11: on a cursor whose only row holds the text `123abc` for the integer
column `id`, `SetEntity` returns a parse error after it has written `Name`
(range order: last entry first).  For a single struct `Convert` returns that
error; for a pointer to a slice of pointers `convertAll` drops it: `Convert`
returns no error and replaces the destination by a one-element sequence holding
the partly filled entity. -/
theorem Convert_sequence_drops_coercion_error :
    (structScanner CodeBook CodeBook.zero ["name", "id"]).SetEntity (coerceField sampleLib)
        List.reverse [Value.str "bob", Value.str "123abc"]
        (RValue.struct CodeBook CodeBook.zero true)
      = Except.ok (some badIdError, RValue.struct CodeBook codeBookBob true) ∧
    (∃ sc sc2, NewScanner sampleSnake (Dest.ptrStruct CodeBook (some CodeBook.zero))
        = Except.ok (Except.ok sc) ∧
      (sc.SetRows badIdRows).Convert (coerceField sampleLib) List.reverse
        = Except.ok (some badIdError, sc2)) ∧
    (∃ sc sc2, NewScanner sampleSnake (Dest.ptrSlice (some (SliceVal.ptrs CodeBook [])))
        = Except.ok (Except.ok sc) ∧
      (sc.SetRows badIdRows).Convert (coerceField sampleLib) List.reverse
        = Except.ok (none, sc2) ∧
      sc2.entityPointer = RValue.slice (SliceVal.ptrs CodeBook [some codeBookBob]) true) :=
  ⟨rfl, ⟨_, _, rfl, rfl⟩, ⟨_, _, rfl, rfl, rfl⟩⟩

/-- The message of a coercion error holds the key of the model entry and the
raw text, one blank between them. -/
theorem convertError_text (lib : GoLib) (what fn name text : String) (e : NumError) :
    ∃ post, convertError lib what fn name text e
      = Err.foreign ("can not convert field:" ++ name ++ " " ++ text ++ post) :=
  ⟨" to " ++ what ++ " err:" ++ numErrorText lib fn text e, by
    simp only [convertError, String.append_assoc]⟩

/-- The text sources of an integer field whose parse fails: the coercion returns
the error of `fmt.Errorf`, built from the key of the model entry, the raw text
and the parse error. -/
theorem coerceField_int_parse_error (lib : GoLib) (name : String) (field : Field) (ff : Value)
    (bits : Nat) (d : String) (e : NumError)
    (hk : field.Column.FType = FieldType.Int bits ∨ field.Column.FType = FieldType.Uint bits)
    (hp : ParseInt d = Except.error e) :
    coerceField lib name field ff (Value.str d)
      = Except.ok (Except.error (convertError lib "int64" "ParseInt" name d e)) := by
  rcases hk with hk | hk <;>
    simp only [coerceField, hk, coerceInt, coerceUint, hp, convertError, pure, Except.pure]

theorem coerceField_int_parse_error_bytes (lib : GoLib) (name : String) (field : Field)
    (ff : Value) (bits : Nat) (d : List Nat) (e : NumError)
    (hk : field.Column.FType = FieldType.Int bits ∨ field.Column.FType = FieldType.Uint bits)
    (hp : ParseInt (bytesToString d) = Except.error e) :
    coerceField lib name field ff (Value.bytes d)
      = Except.ok (Except.error
          (convertError lib "int64" "ParseInt" name (bytesToString d) e)) := by
  rcases hk with hk | hk <;>
    simp only [coerceField, hk, coerceInt, coerceUint, hp, convertError, pure, Except.pure]

theorem coerceField_float_parse_error (lib : GoLib) (name : String) (field : Field) (ff : Value)
    (bits : Nat) (d : String) (e : NumError)
    (hk : field.Column.FType = FieldType.Float bits)
    (hp : lib.ParseFloat d = Except.error e) :
    coerceField lib name field ff (Value.str d)
      = Except.ok (Except.error (convertError lib "float64" "ParseFloat" name d e)) := by
  simp only [coerceField, hk, coerceFloat, hp, convertError, pure, Except.pure]

/-- The text sources of an integer field whose parse succeeds: no error, and the
field is set by `SetInt` or `SetUint` to the parsed 64-bit value. -/
theorem coerceField_int_parse_ok (lib : GoLib) (name : String) (field : Field) (ff : Value)
    (bits : Nat) (d : String) (n : Int) (hp : ParseInt d = Except.ok n) :
    (field.Column.FType = FieldType.Int bits →
      coerceField lib name field ff (Value.str d) = Except.ok (Except.ok (SetInt bits n))) ∧
    (field.Column.FType = FieldType.Uint bits →
      coerceField lib name field ff (Value.str d) = Except.ok (Except.ok (SetUint bits n))) := by
  constructor <;> intro hk <;>
    simp only [coerceField, hk, coerceInt, coerceUint, hp, pure, Except.pure]

/-- C12: the texts `-1` for an unsigned 64-bit field and `300` for a signed
8-bit field are no numeric literals of those types, yet `SetEntity` returns no
error and writes the fields: `Count` becomes 2^64 - 1 and `Level` becomes 44. -/
theorem SetEntity_accepts_text_outside_target_type :
    (structScanner Gauge Gauge.zero ["count", "level"]).SetEntity (coerceField sampleLib)
        (fun l => l) [Value.str "-1", Value.str "300"] (RValue.struct Gauge Gauge.zero true)
      = Except.ok (none, RValue.struct Gauge
          [Value.uint 64 18446744073709551615, Value.int 8 44, Value.bool false] true) := by
  rfl

/-- C13: the text `18446744073709551615` is the decimal literal of 2^64 - 1,
which an unsigned 64-bit field can hold, yet `SetEntity` returns a range error
of `strconv.ParseInt` and leaves the field at its prior value. -/
theorem SetEntity_rejects_large_unsigned_literal :
    (structScanner Gauge Gauge.zero ["count"]).SetEntity (coerceField sampleLib)
        (fun l => l) [Value.str "18446744073709551615"] (RValue.struct Gauge Gauge.zero true)
      = Except.ok (some (Err.foreign ("can not convert field:count 18446744073709551615 " ++
            "to int64 err:strconv.ParseInt: parsing \"18446744073709551615\": " ++
            "value out of range")),
          RValue.struct Gauge Gauge.zero true) := by
  rfl

/-! ### Decimal literals through `strconv.ParseInt` -/

theorem digitChar_facts : ∀ d, d < 10 →
    digitVal (Nat.digitChar d) = some d ∧ Nat.digitChar d ≠ '_' ∧ Nat.digitChar d ≠ '+' ∧
      Nat.digitChar d ≠ '-' ∧ (Nat.digitChar d = '0' → d = 0) := by
  decide

theorem foldl_dec_le (ds : List Nat) (a : Nat) : a ≤ ds.foldl (fun a d => a * 10 + d) a := by
  induction ds generalizing a with
  | nil => exact le_refl _
  | cons d rest ih =>
    simp only [List.foldl_cons]
    exact le_trans (by omega) (ih (a * 10 + d))

theorem parseUintLoop_decimal (ds : List Nat) (acc : Nat) (us : Bool)
    (hd : ∀ d ∈ ds, d < 10)
    (hr : ds.foldl (fun a d => a * 10 + d) acc ≤ maxUint64) :
    parseUintLoop 10 (maxUint64 / 10 + 1) maxUint64 (ds.map Nat.digitChar) acc us
      = Except.ok (ds.foldl (fun a d => a * 10 + d) acc, us) := by
  induction ds generalizing acc with
  | nil => rfl
  | cons d rest ih =>
    have hd10 : d < 10 := hd d (List.mem_cons_self _ _)
    obtain ⟨h1, h2, _, _, _⟩ := digitChar_facts d hd10
    simp only [List.foldl_cons] at hr
    have hle := le_trans (foldl_dec_le rest (acc * 10 + d)) hr
    have hmax : maxUint64 = 18446744073709551615 := by decide
    simp only [List.map_cons, parseUintLoop, h2, if_false, h1, List.foldl_cons]
    have c1 : ¬ d ≥ 10 := by omega
    have c2 : ¬ acc ≥ maxUint64 / 10 + 1 := by rw [hmax] at hle ⊢; omega
    have c3 : ¬ acc * 10 + d > maxUint64 := by omega
    simp only [c1, c2, c3, if_false]
    exact ih (acc * 10 + d) (fun x hx => hd x (List.mem_cons_of_mem _ hx)) hr

theorem ParseUint_decimal (ds : List Nat) (h : IsDecimal ds) (hr : decValue ds ≤ maxUint64) :
    ParseUint (ds.map Nat.digitChar) = Except.ok (decValue ds) := by
  obtain ⟨hne, hd, hz⟩ := h
  cases ds with
  | nil => exact absurd rfl hne
  | cons d rest =>
    have hd10 : d < 10 := hd d (List.mem_cons_self _ _)
    by_cases h0 : d = 0
    · subst h0
      have hrest : rest = [] := by
        have := hz rfl
        simpa using this
      subst hrest
      rfl
    · have hc : ¬ Nat.digitChar d = '0' := fun hc => h0 ((digitChar_facts d hd10).2.2.2.2 hc)
      have hloop := parseUintLoop_decimal (d :: rest) 0 false hd hr
      simp only [List.map_cons] at hloop
      simp only [List.map_cons, ParseUint, hc, if_false, hloop]
      simp [decValue]

theorem ParseInt_decimal (ds : List Nat) (h : IsDecimal ds) (hr : decValue ds < 2 ^ 63) :
    ParseInt (decText ds) = Except.ok (decValue ds : Int) := by
  have hu := ParseUint_decimal ds h (by
    have : maxUint64 = 18446744073709551615 := by decide
    omega)
  obtain ⟨hne, hd, _⟩ := h
  cases ds with
  | nil => exact absurd rfl hne
  | cons d rest =>
    obtain ⟨_, _, h3, h4, _⟩ := digitChar_facts d (hd d (List.mem_cons_self _ _))
    simp only [List.map_cons] at hu
    have c1 : ¬ decValue (d :: rest) ≥ 2 ^ 63 := by omega
    simp only [ParseInt, decText, List.map_cons, h3, h4, or_self, if_false, hu, c1,
      and_false, false_and, ne_eq, not_false_eq_true]

theorem ParseInt_decimal_neg (ds : List Nat) (h : IsDecimal ds) (hr : decValue ds ≤ 2 ^ 63) :
    ParseInt (String.mk ('-' :: ds.map Nat.digitChar)) = Except.ok (-(decValue ds : Int)) := by
  have hu := ParseUint_decimal ds h (by
    have : maxUint64 = 18446744073709551615 := by decide
    omega)
  have c1 : ¬ decValue ds > 2 ^ 63 := by omega
  have c2 : decValue ds ≤ 9223372036854775808 := by omega
  simp [ParseInt, hu, c2]

theorem SetInt_of_fits (bits : Nat) (n : Int) (hbits : bits ∈ [0, 8, 16, 32, 64])
    (hlo : -(2 ^ (intBits bits - 1) : Int) ≤ n) (hhi : n < 2 ^ (intBits bits - 1)) :
    SetInt bits n = Value.int bits n := by
  simp only [List.mem_cons, List.mem_singleton, List.mem_nil_iff, or_false] at hbits
  rcases hbits with rfl | rfl | rfl | rfl | rfl <;>
    · simp only [intBits] at hlo hhi
      norm_num at hlo hhi
      simp only [SetInt, wrapInt, intBits]
      norm_num
      omega

theorem SetUint_of_fits (bits : Nat) (n : Nat) (hbits : bits ∈ [0, 8, 16, 32, 64])
    (hhi : n < 2 ^ intBits bits) :
    SetUint bits (n : Int) = Value.uint bits n := by
  simp only [List.mem_cons, List.mem_singleton, List.mem_nil_iff, or_false] at hbits
  rcases hbits with rfl | rfl | rfl | rfl | rfl <;>
    · simp only [intBits] at hhi
      norm_num at hhi
      simp only [SetUint, wrapUint, intBits]
      norm_num
      omega

/-- Where the decimal literal of a representable integer is accepted: for every
signed integer field, and for an unsigned integer field when the integer is
below 2^63 (the bound of `strconv.ParseInt`). -/
theorem coerceField_decimal_literal (lib : GoLib) (name : String) (field : Field) (ff : Value)
    (bits : Nat) (ds : List Nat) (hdec : IsDecimal ds) (hbits : bits ∈ [0, 8, 16, 32, 64]) :
    (field.Column.FType = FieldType.Int bits → decValue ds < 2 ^ (intBits bits - 1) →
      coerceField lib name field ff (Value.str (decText ds))
        = Except.ok (Except.ok (Value.int bits (decValue ds)))) ∧
    (field.Column.FType = FieldType.Int bits → decValue ds ≤ 2 ^ (intBits bits - 1) →
      coerceField lib name field ff (Value.str (String.mk ('-' :: ds.map Nat.digitChar)))
        = Except.ok (Except.ok (Value.int bits (-(decValue ds : Int))))) ∧
    (field.Column.FType = FieldType.Uint bits → decValue ds < 2 ^ intBits bits →
      decValue ds < 2 ^ 63 →
      coerceField lib name field ff (Value.str (decText ds))
        = Except.ok (Except.ok (Value.uint bits (decValue ds)))) := by
  have h64 : intBits bits ≤ 64 ∧ 1 ≤ intBits bits := by
    simp only [List.mem_cons, List.mem_singleton, List.mem_nil_iff, or_false] at hbits
    rcases hbits with rfl | rfl | rfl | rfl | rfl <;> simp [intBits]
  have hpow : (2 : Nat) ^ (intBits bits - 1) ≤ 2 ^ 63 :=
    Nat.pow_le_pow_right (by norm_num) (by omega)
  refine ⟨?_, ?_, ?_⟩
  · intro hk hr
    have hp := ParseInt_decimal ds hdec (lt_of_lt_of_le hr hpow)
    rw [(coerceField_int_parse_ok lib name field ff bits _ _ hp).1 hk]
    rw [SetInt_of_fits bits _ hbits]
    · have : (0 : Int) ≤ (decValue ds : Int) := Int.natCast_nonneg _
      have h2 : (0 : Int) < 2 ^ (intBits bits - 1) := by positivity
      omega
    · exact_mod_cast hr
  · intro hk hr
    have hp := ParseInt_decimal_neg ds hdec (le_trans hr hpow)
    rw [(coerceField_int_parse_ok lib name field ff bits _ _ hp).1 hk]
    rw [SetInt_of_fits bits _ hbits]
    · have : ((decValue ds : Nat) : Int) ≤ ((2 ^ (intBits bits - 1) : Nat) : Int) := by
        exact_mod_cast hr
      push_cast at this
      omega
    · have : (0 : Int) ≤ (decValue ds : Int) := Int.natCast_nonneg _
      have h2 : (0 : Int) < 2 ^ (intBits bits - 1) := by positivity
      omega
  · intro hk hr h63
    have hp := ParseInt_decimal ds hdec h63
    rw [(coerceField_int_parse_ok lib name field ff bits _ _ hp).2 hk]
    rw [SetUint_of_fits bits _ hbits hr]

/-! ### Conditions and their rendering -/

theorem mapGet_foldl_mapSet {β : Type} (l acc : List (String × β))
    (hl : (l.map Prod.fst).Nodup) (k : String) :
    mapGet k (l.foldl (fun e kv => mapSet kv.1 kv.2 e) acc)
      = match mapGet k l with
        | some v => some v
        | none => mapGet k acc := by
  induction l generalizing acc with
  | nil => rfl
  | cons hd tl ih =>
    obtain ⟨k1, v1⟩ := hd
    simp only [List.map_cons, List.nodup_cons] at hl
    simp only [List.foldl_cons, ih _ hl.2, mapGet_mapSet, mapGet]
    by_cases hk : k1 = k
    · subst hk
      have hnone : mapGet k1 tl = none := by
        cases hg : mapGet k1 tl with
        | none => rfl
        | some v => exact absurd (List.mem_map_of_mem Prod.fst (mem_of_mapGet tl k1 v hg)) hl.1
      simp [hnone]
    · simp [hk]

theorem foldl_mapSet_keys_nodup {β : Type} (l acc : List (String × β))
    (hacc : (acc.map Prod.fst).Nodup) :
    ((l.foldl (fun e kv => mapSet kv.1 kv.2 e) acc).map Prod.fst).Nodup := by
  induction l generalizing acc with
  | nil => exact hacc
  | cons hd tl ih => exact ih _ (mapSet_keys_nodup _ _ _ hacc)

theorem mapGet_perm {β : Type} (l l2 : List (String × β)) (hp : l2.Perm l)
    (hl : (l.map Prod.fst).Nodup) (k : String) : mapGet k l2 = mapGet k l := by
  have hl2 : (l2.map Prod.fst).Nodup := (List.Perm.nodup_iff (List.Perm.map _ hp)).mpr hl
  cases hg : mapGet k l with
  | some v => exact mapGet_of_mem l2 hl2 k v (hp.mem_iff.mpr (mem_of_mapGet l k v hg))
  | none =>
    cases hg2 : mapGet k l2 with
    | none => rfl
    | some v =>
      rw [mapGet_of_mem l hl k v (hp.mem_iff.mp (mem_of_mapGet l2 k v hg2))] at hg
      cases hg

/-- The method `ToSqlizer` hands squirrel a map of the same kind with exactly
the entries of the condition. -/
theorem ToSqlizer_entries (rng : List (String × CondValue) → List (String × CondValue))
    (c : Cmp) (hrng : (rng c.entries).Perm c.entries) (hc : (c.entries.map Prod.fst).Nodup) :
    (c.ToSqlizer rng).1 = c.op ∧ ((c.ToSqlizer rng).2.map Prod.fst).Nodup ∧
      ∀ k, mapGet k (c.ToSqlizer rng).2 = mapGet k c.entries := by
  refine ⟨rfl, foldl_mapSet_keys_nodup _ _ (by simp), ?_⟩
  intro k
  have hl2 : ((rng c.entries).map Prod.fst).Nodup :=
    (List.Perm.nodup_iff (List.Perm.map _ hrng)).mpr hc
  simp only [Cmp.ToSqlizer]
  rw [mapGet_foldl_mapSet _ _ hl2, mapGet_perm _ _ hrng hc]
  cases mapGet k c.entries <;> rfl

theorem sortedEntries_single {β : Type} (k : String) (v : β) :
    sortedEntries [(k, v)] = [(k, v)] := by
  simp [sortedEntries, getSortedKeys, mapGet]

theorem selectToSql_single_where (rngL : List (String × CondValue) → List (String × CondValue))
    (table : String) (p : SqPred) (t : String) (a : List Value)
    (hp : predToSql rngL p = Except.ok (t, a)) (ht : ¬ t = "") (ha : ¬ a = []) :
    selectToSql rngL { columns := ["*"], src := table, wheres := [p] }
      = { sql := "SELECT * FROM " ++ table ++ " WHERE " ++ t, args := some a, err := none } := by
  simp [selectToSql, renderWheres, hp, whereClause, appendToSql, ht, ha, limitClause,
    offsetClause, sqlDone, String.ext_iff]

theorem eqToSql_sequence (rngL : List (String × CondValue) → List (String × CondValue))
    (col : String) (vs : List Value) (hvs : vs ≠ []) :
    predToSql rngL (SqPred.cmp CmpOp.Eq [(col, CondValue.seq vs)])
      = Except.ok (col ++ " IN (" ++ Placeholders vs.length ++ ")", vs) ∧
    predToSql rngL (SqPred.cmp CmpOp.Ne [(col, CondValue.seq vs)])
      = Except.ok (col ++ " NOT IN (" ++ Placeholders vs.length ++ ")", vs) := by
  have hlen : ¬ vs.length = 0 := fun h => hvs (List.length_eq_zero.mp h)
  constructor <;>
    simp [predToSql, cmpToSql, sortedEntries_single, eqExpr, hlen, hvs, joinExprs, strJoin]

/-- C16: a Select statement whose only condition is `Eq` with the non-empty
sequence `vs` under `col` renders `col IN (?,...,?)` with one placeholder per
element and passes `vs` in order as the arguments; `Ne` renders `NOT IN` with
the same arguments; and `ToSqlizer` hands the renderer a map of the same kind
with distinct keys that holds under every key what the condition holds. -/
theorem Eq_sequence_renders_IN
    (rng rngL : List (String × CondValue) → List (String × CondValue))
    (col table : String) (vs : List Value) (c : Cmp)
    (hvs : vs ≠ []) (ht : table ≠ "")
    (hrng : ∀ l, (rng l).Perm l) (hc : (c.entries.map Prod.fst).Nodup) :
    Statement.ToSQL (squirrelModel rngL) rng
        (((({} : Statement).Select []).From table).Where
          [Expr.cmp { op := CmpOp.Eq, entries := [(col, CondValue.seq vs)] }])
      = Except.ok { sql := "SELECT * FROM " ++ table ++ " WHERE " ++
                      (col ++ " IN (" ++ Placeholders vs.length ++ ")"),
                    args := some vs, err := none } ∧
    Statement.ToSQL (squirrelModel rngL) rng
        (((({} : Statement).Select []).From table).Where
          [Expr.cmp { op := CmpOp.Ne, entries := [(col, CondValue.seq vs)] }])
      = Except.ok { sql := "SELECT * FROM " ++ table ++ " WHERE " ++
                      (col ++ " NOT IN (" ++ Placeholders vs.length ++ ")"),
                    args := some vs, err := none } ∧
    (c.ToSqlizer rng).1 = c.op ∧ ((c.ToSqlizer rng).2.map Prod.fst).Nodup ∧
      ∀ k, mapGet k (c.ToSqlizer rng).2 = mapGet k c.entries := by
  have hr1 : rng [(col, CondValue.seq vs)] = [(col, CondValue.seq vs)] :=
    List.perm_singleton.mp (hrng _)
  have hne : ¬ (col ++ " IN (" ++ Placeholders vs.length ++ ")" = "") := by
    simp [String.ext_iff]
  have hne2 : ¬ (col ++ " NOT IN (" ++ Placeholders vs.length ++ ")" = "") := by
    simp [String.ext_iff]
  have hst : ∀ op, Statement.ToSQL (squirrelModel rngL) rng
        (((({} : Statement).Select []).From table).Where
          [Expr.cmp { op := op, entries := [(col, CondValue.seq vs)] }])
      = Except.ok (selectToSql rngL
          { columns := ["*"], src := table,
            wheres := [SqPred.cmp op [(col, CondValue.seq vs)]] }) := by
    intro op
    have h0 : ((({} : Statement).Select []).From table).Where
          [Expr.cmp { op := op, entries := [(col, CondValue.seq vs)] }]
        = { stType := StatementType.SelectStatement, table := table,
            conditions :=
              [{ Expr := Expr.cmp { op := op, entries := [(col, CondValue.seq vs)] } }] } :=
      rfl
    rw [h0]
    simp [Statement.ToSQL, ht, convertConditions, ConvertCondition, Cmp.ToSqlizer, hr1,
      mapSet, bind, Except.bind, pure, Except.pure, squirrelModel]
  refine ⟨?_, ?_, ToSqlizer_entries rng c (hrng _) hc⟩
  · rw [hst, selectToSql_single_where rngL table _ _ _ (eqToSql_sequence rngL col vs hvs).1 hne hvs]
  · rw [hst, selectToSql_single_where rngL table _ _ _ (eqToSql_sequence rngL col vs hvs).2 hne2 hvs]

theorem Eq_sequence_renders_IN_witness :
    Statement.ToSQL (squirrelModel (fun l => l)) (fun l => l)
        (((({} : Statement).Select []).From "codebook").Where
          [Expr.cmp { op := CmpOp.Eq,
                      entries := [("id", CondValue.seq [Value.int 64 1, Value.int 64 2,
                        Value.int 64 3])] }])
      = Except.ok { sql := "SELECT * FROM " ++ "codebook" ++ " WHERE " ++
                      ("id" ++ " IN (" ++ Placeholders 3 ++ ")"),
                    args := some [Value.int 64 1, Value.int 64 2, Value.int 64 3],
                    err := none } :=
  (Eq_sequence_renders_IN (fun l => l) (fun l => l) "id" "codebook"
    [Value.int 64 1, Value.int 64 2, Value.int 64 3]
    { op := CmpOp.Eq, entries := [("id", CondValue.seq [Value.int 64 1])] }
    (by decide) (by decide) (fun _ => List.Perm.refl _) (by decide)).1

/-! ### LIMIT and OFFSET -/

theorem selectToSql_limit_offset (rngL : List (String × CondValue) → List (String × CondValue))
    (b : SelectBuilder) :
    selectToSql rngL b
      = (fun r : SQLResult => if r.err = none then
            { r with sql := r.sql ++ limitClause b.limit ++ offsetClause b.offset }
          else r)
          (selectToSql rngL { b with limit := none, offset := none }) := by
  simp only [selectToSql]
  by_cases hc : b.columns.length = 0
  · simp [hc, sqlFail]
  · simp only [hc, if_false]
    cases renderWheres rngL b.wheres with
    | error e => simp [sqlFail]
    | ok parts => simp [sqlDone, limitClause, offsetClause, String.append_assoc]

theorem deleteToSql_limit_offset (rngL : List (String × CondValue) → List (String × CondValue))
    (b : DeleteBuilder) :
    deleteToSql rngL b
      = (fun r : SQLResult => if r.err = none then
            { r with sql := r.sql ++ limitClause b.limit ++ offsetClause b.offset }
          else r)
          (deleteToSql rngL { b with limit := none, offset := none }) := by
  simp only [deleteToSql]
  by_cases hc : b.src.length = 0
  · simp [hc, sqlFail]
  · simp only [hc, if_false]
    cases renderWheres rngL b.wheres with
    | error e => simp [sqlFail]
    | ok parts => simp [sqlDone, limitClause, offsetClause, String.append_assoc]

/-- C17: for a Select or Delete statement with a table, `ToSQL` calls `Limit`
on the builder exactly when the limit is positive and `Offset` exactly when the
offset is positive, whatever the renderer is; and with the modelled renderer the
SQL is the SQL of the same statement with limit 0 and offset 0, followed by
` LIMIT n` exactly when the limit `n` is positive and then by ` OFFSET m`
exactly when the offset `m` is positive; a rendering that fails, and a panic,
are the same with and without limit and offset. -/
theorem ToSQL_limit_offset_clauses
    (rng rngL : List (String × CondValue) → List (String × CondValue)) (st : Statement)
    (hk : st.stType = StatementType.SelectStatement ∨ st.stType = StatementType.DeleteStatement)
    (ht : st.table ≠ "") :
    (∀ (sq : Squirrel) (ws : List SqPred), convertConditions rng st.conditions = Except.ok ws →
      (st.stType = StatementType.SelectStatement →
        ∃ b, Statement.ToSQL sq rng st = Except.ok (sq.selectToSql b) ∧
          b.limit = (if st.limit > 0 then some st.limit else none) ∧
          b.offset = (if st.offset > 0 then some st.offset else none)) ∧
      (st.stType = StatementType.DeleteStatement →
        ∃ b, Statement.ToSQL sq rng st = Except.ok (sq.deleteToSql b) ∧
          b.limit = (if st.limit > 0 then some st.limit else none) ∧
          b.offset = (if st.offset > 0 then some st.offset else none))) ∧
    Statement.ToSQL (squirrelModel rngL) rng st
      = (Statement.ToSQL (squirrelModel rngL) rng { st with limit := 0, offset := 0 }).map
          (fun r => if r.err = none then
              { r with sql := r.sql
                  ++ (if st.limit > 0 then " LIMIT " ++ toString st.limit else "")
                  ++ (if st.offset > 0 then " OFFSET " ++ toString st.offset else "") }
            else r) := by
  have hl : limitClause (if st.limit > 0 then some st.limit else none)
      = (if st.limit > 0 then " LIMIT " ++ toString st.limit else "") := by
    split <;> rfl
  have ho : offsetClause (if st.offset > 0 then some st.offset else none)
      = (if st.offset > 0 then " OFFSET " ++ toString st.offset else "") := by
    split <;> rfl
  refine ⟨?_, ?_⟩
  · intro sq ws hws
    constructor
    · intro hs
      refine ⟨{ columns := if st.columns.length > 0 then st.columns else ["*"],
                src := st.table,
                wheres := ws,
                offset := if st.offset > 0 then some st.offset else none,
                limit := if st.limit > 0 then some st.limit else none,
                orderBys := if st.orderBys.length > 0 then st.orderBys else [] }, ?_, rfl, rfl⟩
      simp only [Statement.ToSQL, ht, hs, if_false, hws, bind, Except.bind, pure, Except.pure,
        reduceCtorEq]
    · intro hs
      refine ⟨{ src := st.table,
                wheres := ws,
                offset := if st.offset > 0 then some st.offset else none,
                limit := if st.limit > 0 then some st.limit else none,
                orderBys := if st.orderBys.length > 0 then st.orderBys else [] }, ?_, rfl, rfl⟩
      simp only [Statement.ToSQL, ht, hs, if_false, hws, bind, Except.bind, pure, Except.pure,
        reduceCtorEq]
  · rcases hk with hk | hk
    · simp only [Statement.ToSQL, ht, hk, if_false, squirrelModel]
      cases convertConditions rng st.conditions with
      | error e => rfl
      | ok ws =>
        simp only [bind, Except.bind, pure, Except.pure, Except.map]
        rw [selectToSql_limit_offset, hl, ho]
        simp
    · simp only [Statement.ToSQL, ht, hk, if_false, squirrelModel]
      cases convertConditions rng st.conditions with
      | error e => rfl
      | ok ws =>
        simp only [bind, Except.bind, pure, Except.pure, Except.map]
        rw [deleteToSql_limit_offset, hl, ho]
        simp

theorem ToSQL_limit_offset_clauses_witness :
    Statement.ToSQL (squirrelModel (fun l => l)) (fun l => l)
        ((((({} : Statement).Select []).From "codebook").Offset 5).Limit 10)
      = Except.ok { sql := "SELECT * FROM codebook LIMIT 10 OFFSET 5", args := none,
                    err := none } :=
  (ToSQL_limit_offset_clauses (fun l => l) (fun l => l)
    ((((({} : Statement).Select []).From "codebook").Offset 5).Limit 10)
    (Or.inl rfl) (by decide)).2.trans rfl

/-! ### The SQL text does not depend on the values -/

theorem mapSet_map {β γ : Type} (f : β → γ) (k : String) (v : β) (m : List (String × β)) :
    mapSet k (f v) (m.map (fun kv => (kv.1, f kv.2)))
      = (mapSet k v m).map (fun kv => (kv.1, f kv.2)) := by
  induction m with
  | nil => rfl
  | cons hd tl ih =>
    obtain ⟨k1, v1⟩ := hd
    simp only [List.map_cons, mapSet]
    by_cases hk : k1 = k
    · simp [hk]
    · simp [hk, ih]

theorem mapGet_map {β γ : Type} (f : β → γ) (k : String) (m : List (String × β)) :
    mapGet k (m.map (fun kv => (kv.1, f kv.2))) = (mapGet k m).map f := by
  induction m with
  | nil => rfl
  | cons hd tl ih =>
    obtain ⟨k1, v1⟩ := hd
    simp only [List.map_cons, mapGet]
    by_cases hk : k1 = k
    · simp [hk]
    · simp [hk, ih]

theorem foldl_mapSet_map {β γ : Type} (f : β → γ) (l acc : List (String × β)) :
    (l.map (fun kv => (kv.1, f kv.2))).foldl (fun e kv => mapSet kv.1 kv.2 e)
        (acc.map (fun kv => (kv.1, f kv.2)))
      = (l.foldl (fun e kv => mapSet kv.1 kv.2 e) acc).map (fun kv => (kv.1, f kv.2)) := by
  induction l generalizing acc with
  | nil => rfl
  | cons hd tl ih =>
    simp only [List.map_cons, List.foldl_cons, mapSet_map]
    exact ih _

theorem sortedEntries_map {β γ : Type} (f : β → γ) (m : List (String × β)) :
    sortedEntries (m.map (fun kv => (kv.1, f kv.2)))
      = (sortedEntries m).map (fun kv => (kv.1, f kv.2)) := by
  have hk : getSortedKeys (m.map (fun kv => (kv.1, f kv.2))) = getSortedKeys m := by
    simp [getSortedKeys, List.map_map, Function.comp_def]
  simp only [sortedEntries, hk, mapGet_map, List.map_filterMap]
  congr 1
  funext k
  cases mapGet k m <;> rfl

theorem ToSqlizer_blot (rng : List (String × CondValue) → List (String × CondValue))
    (hrng : ∀ l, rng (blotEntries l) = blotEntries (rng l)) (c : Cmp) :
    c.blot.ToSqlizer rng = ((c.ToSqlizer rng).1, blotEntries (c.ToSqlizer rng).2) := by
  simp only [Cmp.ToSqlizer, Cmp.blot, hrng]
  have := foldl_mapSet_map CondValue.blot (rng c.entries) []
  simp only [List.map_nil] at this
  simp only [blotEntries, this]

theorem ConvertCondition_blot (rng : List (String × CondValue) → List (String × CondValue))
    (hrng : ∀ l, rng (blotEntries l) = blotEntries (rng l)) (e : Expr) :
    ConvertCondition rng e.blot = (ConvertCondition rng e).map SqPred.blot := by
  cases e with
  | cmp c =>
    simp only [Expr.blot, ConvertCondition, ToSqlizer_blot rng hrng, pure, Except.pure,
      Except.map, SqPred.blot]
  | AND cs =>
    simp only [Expr.blot, ConvertCondition, pure, Except.pure, Except.map, SqPred.blot,
      List.map_map, Function.comp_def, ToSqlizer_blot rng hrng]
  | OR cs =>
    simp only [Expr.blot, ConvertCondition, pure, Except.pure, Except.map, SqPred.blot,
      List.map_map, Function.comp_def, ToSqlizer_blot rng hrng]
  | unsupported t => rfl

theorem convertConditions_blot (rng : List (String × CondValue) → List (String × CondValue))
    (hrng : ∀ l, rng (blotEntries l) = blotEntries (rng l)) (cs : List Condition) :
    convertConditions rng (cs.map (fun c => { Expr := c.Expr.blot }))
      = (convertConditions rng cs).map (List.map SqPred.blot) := by
  induction cs with
  | nil => rfl
  | cons c rest ih =>
    simp only [List.map_cons, convertConditions, ConvertCondition_blot rng hrng, ih, bind,
      Except.bind, pure, Except.pure]
    cases ConvertCondition rng c.Expr with
    | error e => rfl
    | ok p =>
      cases convertConditions rng rest with
      | error e => rfl
      | ok ps => rfl

theorem sqDeref_blot (x : Value) : sqDeref x.blot = Value.nil ↔ sqDeref x = Value.nil := by
  by_cases h1 : x = Value.nil
  · subst h1
    exact Iff.rfl
  · by_cases h2 : sqDeref x = Value.nil
    · have hb : x.blot = Value.ptr Value.nil := by simp [Value.blot, h1, h2]
      rw [hb]
      exact ⟨fun _ => h2, fun _ => rfl⟩
    · have hb : x.blot = Value.bool false := by simp [Value.blot, h1, h2]
      rw [hb]
      exact ⟨fun h => (by cases h), fun h => absurd h h2⟩

theorem eqExpr_blot (neg : Bool) (k : String) (v : CondValue) :
    (eqExpr neg k v.blot).1 = (eqExpr neg k v).1 := by
  cases v with
  | seq vs =>
    simp only [CondValue.blot, eqExpr, List.length_map]
    split <;> rfl
  | scalar x =>
    simp only [CondValue.blot, eqExpr]
    by_cases h : sqDeref x = Value.nil
    · simp only [h, (sqDeref_blot x).mpr h, if_true]
    · have h2 : ¬ sqDeref x.blot = Value.nil := fun hb => h ((sqDeref_blot x).mp hb)
      simp only [h, h2, if_false]

theorem blot_eq_nil (x : Value) : x.blot = Value.nil ↔ x = Value.nil := by
  simp only [Value.blot]
  by_cases h1 : x = Value.nil
  · simp [h1]
  · by_cases h2 : sqDeref x = Value.nil <;> simp [h1, h2]

theorem ltExpr_blot (opr k : String) (v : CondValue) :
    (ltExpr opr k v.blot).map Prod.fst = (ltExpr opr k v).map Prod.fst := by
  cases v with
  | seq vs => rfl
  | scalar x =>
    simp only [CondValue.blot, ltExpr, blot_eq_nil]
    by_cases h1 : x = Value.nil <;> simp [h1, Except.map]

theorem likeExpr_blot (opr k : String) (v : CondValue) :
    (likeExpr opr k v.blot).map Prod.fst = (likeExpr opr k v).map Prod.fst := by
  cases v with
  | seq vs => rfl
  | scalar x =>
    simp only [CondValue.blot, likeExpr, blot_eq_nil]
    by_cases h1 : x = Value.nil <;> simp [h1, Except.map]

theorem renderEntries_blot (f : String → CondValue → Except String (String × List Value))
    (hf : ∀ k v, (f k (CondValue.blot v)).map Prod.fst = (f k v).map Prod.fst)
    (l : List (String × CondValue)) :
    (renderEntries f (blotEntries l)).map (List.map Prod.fst)
      = (renderEntries f l).map (List.map Prod.fst) := by
  induction l with
  | nil => rfl
  | cons hd tl ih =>
    obtain ⟨k, v⟩ := hd
    simp only [blotEntries, List.map_cons, renderEntries] at ih ⊢
    have h1 := hf k v
    cases hx : f k v.blot with
    | error e =>
      cases hy : f k v with
      | error e2 =>
        rw [hx, hy] at h1
        simp only [Except.map, Except.error.injEq] at h1 ⊢
        exact h1
      | ok p => rw [hx, hy] at h1; cases h1
    | ok p' =>
      cases hy : f k v with
      | error e2 => rw [hx, hy] at h1; cases h1
      | ok p =>
        rw [hx, hy] at h1
        simp only [Except.map, Except.ok.injEq] at h1
        simp only
        cases hx2 : renderEntries f (List.map (fun kv => (kv.1, kv.2.blot)) tl) with
        | error e =>
          cases hy2 : renderEntries f tl with
          | error e2 =>
            rw [hx2, hy2] at ih
            simp only [Except.map] at ih ⊢
            exact ih
          | ok q => rw [hx2, hy2] at ih; cases ih
        | ok q' =>
          cases hy2 : renderEntries f tl with
          | error e2 => rw [hx2, hy2] at ih; cases ih
          | ok q =>
            rw [hx2, hy2] at ih
            simp only [Except.map, Except.ok.injEq] at ih
            simp only [Except.map, List.map_cons, h1, ih]

theorem map_joinExprs_fst (x y : Except String (List (String × List Value)))
    (h : x.map (List.map Prod.fst) = y.map (List.map Prod.fst)) :
    (x.map joinExprs).map Prod.fst = (y.map joinExprs).map Prod.fst := by
  cases x with
  | error e =>
    cases y with
    | error e2 => simpa [Except.map] using h
    | ok q => cases h
  | ok p =>
    cases y with
    | error e2 => cases h
    | ok q =>
      simp only [Except.map, Except.ok.injEq] at h
      simp only [Except.map, joinExprs, h]

theorem cmpToSql_blot (rngL : List (String × CondValue) → List (String × CondValue))
    (hrngL : ∀ l, rngL (blotEntries l) = blotEntries (rngL l))
    (op : CmpOp) (m : List (String × CondValue)) :
    (cmpToSql rngL op (blotEntries m)).map Prod.fst = (cmpToSql rngL op m).map Prod.fst := by
  have hs : sortedEntries (blotEntries m) = blotEntries (sortedEntries m) :=
    sortedEntries_map CondValue.blot m
  have hlen : (blotEntries m).length = m.length := by simp [blotEntries]
  have heq : ∀ neg, ((blotEntries (sortedEntries m)).map (fun kv => eqExpr neg kv.1 kv.2)).map
      Prod.fst = ((sortedEntries m).map (fun kv => eqExpr neg kv.1 kv.2)).map Prod.fst := by
    intro neg
    simp only [blotEntries, List.map_map, Function.comp_def, eqExpr_blot]
  cases op with
  | Eq =>
    simp only [cmpToSql, hlen, hs]
    split
    · rfl
    · simp only [Except.map, joinExprs, heq]
  | Ne =>
    simp only [cmpToSql, hlen, hs]
    split
    · rfl
    · simp only [Except.map, joinExprs, heq]
  | Like =>
    simp only [cmpToSql, hrngL]
    exact map_joinExprs_fst _ _ (renderEntries_blot _ (likeExpr_blot _) _)
  | NotLike =>
    simp only [cmpToSql, hrngL]
    exact map_joinExprs_fst _ _ (renderEntries_blot _ (likeExpr_blot _) _)
  | LT =>
    simp only [cmpToSql, hs]
    exact map_joinExprs_fst _ _ (renderEntries_blot _ (ltExpr_blot _) _)
  | LTE =>
    simp only [cmpToSql, hs]
    exact map_joinExprs_fst _ _ (renderEntries_blot _ (ltExpr_blot _) _)
  | GT =>
    simp only [cmpToSql, hs]
    exact map_joinExprs_fst _ _ (renderEntries_blot _ (ltExpr_blot _) _)
  | GTE =>
    simp only [cmpToSql, hs]
    exact map_joinExprs_fst _ _ (renderEntries_blot _ (ltExpr_blot _) _)

theorem exceptCons_fst (x y : Except String (String × List Value))
    (xs ys : Except String (List (String × List Value)))
    (h1 : x.map Prod.fst = y.map Prod.fst)
    (h2 : xs.map (List.map Prod.fst) = ys.map (List.map Prod.fst)) :
    (match x with
      | Except.error e => Except.error e
      | Except.ok p =>
        match xs with
        | Except.error e => Except.error e
        | Except.ok ps => Except.ok (p :: ps)).map (List.map Prod.fst)
      = (match y with
          | Except.error e => Except.error e
          | Except.ok p =>
            match ys with
            | Except.error e => Except.error e
            | Except.ok ps => Except.ok (p :: ps)).map (List.map Prod.fst) := by
  cases x with
  | error e =>
    cases y with
    | error e2 =>
      simp only [Except.map, Except.error.injEq] at h1 ⊢
      exact h1
    | ok q => cases h1
  | ok p =>
    cases y with
    | error e2 => cases h1
    | ok q =>
      simp only [Except.map, Except.ok.injEq] at h1
      cases xs with
      | error e =>
        cases ys with
        | error e2 =>
          simp only [Except.map, Except.error.injEq] at h2 ⊢
          exact h2
        | ok qs => cases h2
      | ok ps =>
        cases ys with
        | error e2 => cases h2
        | ok qs =>
          simp only [Except.map, Except.ok.injEq] at h2
          simp only [Except.map, List.map_cons, h1, h2]

theorem renderConj_blot (rngL : List (String × CondValue) → List (String × CondValue))
    (hrngL : ∀ l, rngL (blotEntries l) = blotEntries (rngL l))
    (ps : List (CmpOp × List (String × CondValue))) :
    (renderConj rngL (ps.map (fun p => (p.1, blotEntries p.2)))).map (List.map Prod.fst)
      = (renderConj rngL ps).map (List.map Prod.fst) := by
  induction ps with
  | nil => rfl
  | cons p rest ih =>
    simp only [List.map_cons, renderConj]
    exact exceptCons_fst _ _ _ _ (cmpToSql_blot rngL hrngL p.1 p.2) ih

theorem conjJoin_fst (sep dflt : String) (n : Nat) (parts : List (String × List Value)) :
    (conjJoin sep dflt n parts).1
      = if n = 0 then dflt
        else if ((parts.map Prod.fst).filter (fun t => decide (t ≠ ""))).length > 0 then
          "(" ++ strJoin sep ((parts.map Prod.fst).filter (fun t => decide (t ≠ ""))) ++ ")"
        else "" := by
  have hk : (parts.filter (fun p => decide (p.1 ≠ ""))).map Prod.fst
      = (parts.map Prod.fst).filter (fun t => decide (t ≠ "")) := by
    rw [List.filter_map]
    rfl
  simp only [conjJoin]
  split
  · rfl
  · rw [← hk]
    simp only [List.length_map]

theorem map_conjJoin_fst (sep dflt : String) (n : Nat)
    (x y : Except String (List (String × List Value)))
    (h : x.map (List.map Prod.fst) = y.map (List.map Prod.fst)) :
    (x.map (conjJoin sep dflt n)).map Prod.fst = (y.map (conjJoin sep dflt n)).map Prod.fst := by
  cases x with
  | error e =>
    cases y with
    | error e2 => simpa [Except.map] using h
    | ok q => cases h
  | ok p =>
    cases y with
    | error e2 => cases h
    | ok q =>
      simp only [Except.map, Except.ok.injEq] at h
      simp only [Except.map, conjJoin_fst, h]

theorem predToSql_blot (rngL : List (String × CondValue) → List (String × CondValue))
    (hrngL : ∀ l, rngL (blotEntries l) = blotEntries (rngL l)) (p : SqPred) :
    (predToSql rngL p.blot).map Prod.fst = (predToSql rngL p).map Prod.fst := by
  cases p with
  | cmp op m => exact cmpToSql_blot rngL hrngL op m
  | and ps =>
    simp only [SqPred.blot, predToSql, List.length_map]
    exact map_conjJoin_fst _ _ _ _ _ (renderConj_blot rngL hrngL ps)
  | or ps =>
    simp only [SqPred.blot, predToSql, List.length_map]
    exact map_conjJoin_fst _ _ _ _ _ (renderConj_blot rngL hrngL ps)

theorem renderWheres_blot (rngL : List (String × CondValue) → List (String × CondValue))
    (hrngL : ∀ l, rngL (blotEntries l) = blotEntries (rngL l)) (ws : List SqPred) :
    (renderWheres rngL (ws.map SqPred.blot)).map (List.map Prod.fst)
      = (renderWheres rngL ws).map (List.map Prod.fst) := by
  induction ws with
  | nil => rfl
  | cons p rest ih =>
    simp only [List.map_cons, renderWheres]
    exact exceptCons_fst _ _ _ _ (predToSql_blot rngL hrngL p) ih

theorem appendToSql_fst (sep : String) (parts : List (String × List Value)) (i : Nat)
    (acc : String × List Value) :
    (appendToSql sep parts i acc).1 = appendText sep (parts.map Prod.fst) i acc.1 := by
  induction parts generalizing i acc with
  | nil => rfl
  | cons p rest ih =>
    simp only [appendToSql, List.map_cons, appendText]
    split
    · exact ih _ _
    · exact ih _ _

theorem whereClause_fst (parts : List (String × List Value)) :
    (whereClause parts).1
      = if (parts.map Prod.fst).length > 0 then
          " WHERE " ++ appendText " AND " (parts.map Prod.fst) 0 ""
        else "" := by
  simp only [whereClause, List.length_map]
  split
  · simp only [appendToSql_fst]
  · rfl

theorem selectToSql_text (rngL : List (String × CondValue) → List (String × CondValue))
    (b : SelectBuilder) (ws : List SqPred)
    (hw : (renderWheres rngL ws).map (List.map Prod.fst)
      = (renderWheres rngL b.wheres).map (List.map Prod.fst)) :
    (selectToSql rngL { b with wheres := ws }).text = (selectToSql rngL b).text := by
  simp only [selectToSql]
  split
  · rfl
  · cases hx : renderWheres rngL ws with
    | error e =>
      cases hy : renderWheres rngL b.wheres with
      | error e2 =>
        rw [hx, hy] at hw
        simp only [Except.map, Except.error.injEq] at hw
        simp [hw]
      | ok q => rw [hx, hy] at hw; cases hw
    | ok p =>
      cases hy : renderWheres rngL b.wheres with
      | error e2 => rw [hx, hy] at hw; cases hw
      | ok q =>
        rw [hx, hy] at hw
        simp only [Except.map, Except.ok.injEq] at hw
        simp only [sqlDone, SQLResult.text, whereClause_fst, hw]

theorem deleteToSql_text (rngL : List (String × CondValue) → List (String × CondValue))
    (b : DeleteBuilder) (ws : List SqPred)
    (hw : (renderWheres rngL ws).map (List.map Prod.fst)
      = (renderWheres rngL b.wheres).map (List.map Prod.fst)) :
    (deleteToSql rngL { b with wheres := ws }).text = (deleteToSql rngL b).text := by
  simp only [deleteToSql]
  split
  · rfl
  · cases hx : renderWheres rngL ws with
    | error e =>
      cases hy : renderWheres rngL b.wheres with
      | error e2 =>
        rw [hx, hy] at hw
        simp only [Except.map, Except.error.injEq] at hw
        simp [hw]
      | ok q => rw [hx, hy] at hw; cases hw
    | ok p =>
      cases hy : renderWheres rngL b.wheres with
      | error e2 => rw [hx, hy] at hw; cases hw
      | ok q =>
        rw [hx, hy] at hw
        simp only [Except.map, Except.ok.injEq] at hw
        simp only [sqlDone, SQLResult.text, whereClause_fst, hw]

theorem insertToSql_text (b : InsertBuilder) :
    (insertToSql { b with values := b.values.map (fun row => row.map (fun _ => Value.bool false)) }).text
      = (insertToSql b).text := by
  simp only [insertToSql, List.length_map, List.map_map, Function.comp_def]
  split
  · rfl
  · split
    · rfl
    · rfl

theorem updateToSql_text (rngL : List (String × CondValue) → List (String × CondValue))
    (b : UpdateBuilder) (ws : List SqPred)
    (hw : (renderWheres rngL ws).map (List.map Prod.fst)
      = (renderWheres rngL b.wheres).map (List.map Prod.fst)) :
    (updateToSql rngL { b with
        setMaps := b.setMaps.map (List.map (fun kv => (kv.1, Value.bool false))),
        wheres := ws }).text
      = (updateToSql rngL b).text := by
  have hc : ((b.setMaps.map (List.map (fun kv => (kv.1, Value.bool false)))).map
        sortedEntries).flatten
      = ((b.setMaps.map sortedEntries).flatten).map (fun kv => (kv.1, Value.bool false)) := by
    rw [List.map_flatten, List.map_map, List.map_map]
    congr 1
    apply List.map_congr_left
    intro m _
    exact sortedEntries_map (fun _ => Value.bool false) m
  simp only [updateToSql]
  rw [hc]
  generalize (b.setMaps.map sortedEntries).flatten = cl
  simp only [List.length_map, List.map_map, Function.comp_def]
  split
  · rfl
  · split
    · rfl
    · cases hx : renderWheres rngL ws with
      | error e =>
        cases hy : renderWheres rngL b.wheres with
        | error e2 =>
          rw [hx, hy] at hw
          simp only [Except.map, Except.error.injEq] at hw
          simp [hw]
        | ok q => rw [hx, hy] at hw; cases hw
      | ok p =>
        cases hy : renderWheres rngL b.wheres with
        | error e2 => rw [hx, hy] at hw; cases hw
        | ok q =>
          rw [hx, hy] at hw
          simp only [Except.map, Except.ok.injEq] at hw
          simp only [sqlDone, SQLResult.text, whereClause_fst, hw]

theorem updateRowMap_blot (fs : List String) (xs : List Value) (acc : List (String × Value)) :
    updateRowMap fs (xs.map (fun _ => Value.bool false))
        (acc.map (fun kv => (kv.1, Value.bool false)))
      = (updateRowMap fs xs acc).map (List.map (fun kv => (kv.1, Value.bool false))) := by
  induction fs generalizing xs acc with
  | nil => rfl
  | cons f rest ih =>
    cases xs with
    | nil => rfl
    | cons x xs =>
      simp only [List.map_cons, updateRowMap]
      rw [← ih]
      congr 1
      exact mapSet_map (fun _ => Value.bool false) f x acc

theorem updateSetMaps_blot (cols : List String) (vals : List (List Value)) :
    updateSetMaps cols (vals.map (fun row => row.map (fun _ => Value.bool false)))
      = (updateSetMaps cols vals).map
          (List.map (List.map (fun kv => (kv.1, Value.bool false)))) := by
  induction vals with
  | nil => rfl
  | cons v rest ih =>
    have h0 := updateRowMap_blot cols v []
    simp only [List.map_nil] at h0
    simp only [List.map_cons, updateSetMaps, h0, ih, bind, Except.bind, pure, Except.pure]
    cases updateRowMap cols v [] with
    | error e => rfl
    | ok u =>
      cases updateSetMaps cols rest with
      | error e => rfl
      | ok us => rfl

/-- The SQL text and the error of `ToSQL` are those of the statement with its
values blotted out. -/
theorem ToSQL_text_blot (rng rngL : List (String × CondValue) → List (String × CondValue))
    (hrng : ∀ l, rng (blotEntries l) = blotEntries (rng l))
    (hrngL : ∀ l, rngL (blotEntries l) = blotEntries (rngL l)) (st : Statement) :
    (Statement.ToSQL (squirrelModel rngL) rng st.blot).map SQLResult.text
      = (Statement.ToSQL (squirrelModel rngL) rng st).map SQLResult.text := by
  simp only [Statement.ToSQL, Statement.blot, squirrelModel]
  by_cases ht : st.table = ""
  · simp [ht]
  · simp only [ht, if_false]
    cases hk : st.stType with
    | UnknownStatement => rfl
    | InsertStatement =>
      simp only [pure, Except.pure, Except.map, Except.ok.injEq, reduceCtorEq, if_false]
      exact insertToSql_text { into := st.table, columns := st.columns, values := st.values }
    | SelectStatement =>
      simp only [reduceCtorEq, if_false, convertConditions_blot rng hrng]
      cases convertConditions rng st.conditions with
      | error e => rfl
      | ok ws =>
        simp only [bind, Except.bind, pure, Except.pure, Except.map, Except.ok.injEq]
        exact selectToSql_text rngL
          { columns := if st.columns.length > 0 then st.columns else ["*"],
            src := st.table,
            wheres := ws,
            offset := if st.offset > 0 then some st.offset else none,
            limit := if st.limit > 0 then some st.limit else none,
            orderBys := if st.orderBys.length > 0 then st.orderBys else [] }
          _ (renderWheres_blot rngL hrngL ws)
    | DeleteStatement =>
      simp only [reduceCtorEq, if_false, convertConditions_blot rng hrng]
      cases convertConditions rng st.conditions with
      | error e => rfl
      | ok ws =>
        simp only [bind, Except.bind, pure, Except.pure, Except.map, Except.ok.injEq]
        exact deleteToSql_text rngL
          { src := st.table,
            wheres := ws,
            offset := if st.offset > 0 then some st.offset else none,
            limit := if st.limit > 0 then some st.limit else none,
            orderBys := if st.orderBys.length > 0 then st.orderBys else [] }
          _ (renderWheres_blot rngL hrngL ws)
    | UpdateStatement =>
      simp only [reduceCtorEq, if_false, convertConditions_blot rng hrng, updateSetMaps_blot]
      cases updateSetMaps st.columns st.values with
      | error e => rfl
      | ok ms =>
        cases convertConditions rng st.conditions with
        | error e => rfl
        | ok ws =>
          simp only [bind, Except.bind, pure, Except.pure, Except.map, Except.ok.injEq]
          exact updateToSql_text rngL
            { table := st.table,
              setMaps := ms,
              wheres := ws,
              offset := if st.offset > 0 then some st.offset else none,
              limit := if st.limit > 0 then some st.limit else none,
              orderBys := if st.orderBys.length > 0 then st.orderBys else [] }
            _ (renderWheres_blot rngL hrngL ws)

/-! ### Kind selectors -/

/-- C19: every kind selector leaves the statement with the selected kind and
everything else at its zero value, except that `Select` keeps the columns it is
given; `ToSQL` right after a kind selector returns `StatementTableNotSet`. -/
theorem kind_selector_resets (sq : Squirrel)
    (rng : List (String × CondValue) → List (String × CondValue))
    (st : Statement) (cols : List String) :
    st.Select cols = { stType := StatementType.SelectStatement, table := "", columns := cols,
                       limit := 0, offset := 0, orderBys := [], conditions := [],
                       values := [] } ∧
    st.Insert = { stType := StatementType.InsertStatement, table := "", columns := [],
                  limit := 0, offset := 0, orderBys := [], conditions := [], values := [] } ∧
    st.Update = { stType := StatementType.UpdateStatement, table := "", columns := [],
                  limit := 0, offset := 0, orderBys := [], conditions := [], values := [] } ∧
    st.Delete = { stType := StatementType.DeleteStatement, table := "", columns := [],
                  limit := 0, offset := 0, orderBys := [], conditions := [], values := [] } ∧
    (∀ st2 ∈ [st.Select cols, st.Insert, st.Update, st.Delete],
      Statement.ToSQL sq rng st2
        = Except.ok { sql := "", args := none, err := some Err.StatementTableNotSet }) := by
  have hsel : st.Select cols =
      { stType := StatementType.SelectStatement, table := "", columns := cols,
        limit := 0, offset := 0, orderBys := [], conditions := [], values := [] } := by
    cases cols with
    | nil => rfl
    | cons c cs => simp [Statement.Select, Statement.Reset, Statement.Columns]
  refine ⟨hsel, rfl, rfl, rfl, ?_⟩
  intro st2 h2
  simp only [List.mem_cons, List.mem_singleton, List.mem_nil_iff, or_false] at h2
  rcases h2 with rfl | rfl | rfl | rfl
  · rw [hsel]; rfl
  · rfl
  · rfl
  · rfl

/-! ### Transactions -/

/-- C20: when `Begin` succeeds and the wrapped function returns with the
session still in its open transaction, having made the calls `evs`,
`Transaction` runs the function once, then calls `tx.Rollback` when the
function returned an error and `tx.Commit` when it returned none, and returns
the value and the error of the function. -/
theorem Transaction_commits_or_rolls_back (drv : TxDriver)
    (f : Session → List TxEvent → Run WrappedResult) (s : Session) (log evs : List TxEvent)
    (r : WrappedResult)
    (hb : drv.Begin log = none)
    (hf : f { s with hasCommittedOrRollback := false, isAutoCommit := false, hasTx := true }
        (log ++ [TxEvent.Begin] ++ [TxEvent.wrapped]) = Except.ok r)
    (hflags : r.session.isAutoCommit = false ∧ r.session.hasCommittedOrRollback = false ∧
      r.session.hasTx = true)
    (hlog : r.log = log ++ [TxEvent.Begin, TxEvent.wrapped] ++ evs) :
    ∃ res, s.Transaction drv f log = Except.ok res ∧ res.d = r.d ∧ res.err = r.err ∧
      res.log = log ++ [TxEvent.Begin, TxEvent.wrapped] ++ evs ++
        [if r.err.isSome then TxEvent.Rollback else TxEvent.Commit] := by
  obtain ⟨h1, h2, h3⟩ := hflags
  simp only [Session.Transaction, Session.Begin, hb, transactionTail, hf, bind, Except.bind]
  cases hre : r.err with
  | some e =>
    simp only [Session.RollBack, h1, h2, h3, and_self, if_true, Bool.true_eq_false, if_false]
    cases drv.Rollback r.log <;>
      exact ⟨_, rfl, rfl, rfl, by simp [hlog]⟩
  | none =>
    simp only [Session.Commit, h1, h2, h3, and_self, if_true, Bool.true_eq_false, if_false]
    cases drv.Commit r.log <;>
      exact ⟨_, rfl, rfl, rfl, by simp [hlog]⟩

theorem Transaction_commits_or_rolls_back_witness :
    ∃ res, newSession.Transaction okDriver
        (fun s l => pure { d := Value.int 64 1, err := some (Err.foreign "update error"),
                           session := s, log := l }) []
        = Except.ok res ∧
      res.d = Value.int 64 1 ∧ res.err = some (Err.foreign "update error") ∧
      res.log = [] ++ [TxEvent.Begin, TxEvent.wrapped] ++ [] ++ [TxEvent.Rollback] :=
  Transaction_commits_or_rolls_back okDriver
    (fun s l => pure { d := Value.int 64 1, err := some (Err.foreign "update error"),
                       session := s, log := l }) newSession [] []
    { d := Value.int 64 1, err := some (Err.foreign "update error"),
      session := { newSession with hasCommittedOrRollback := false, isAutoCommit := false,
                                   hasTx := true },
      log := [TxEvent.Begin, TxEvent.wrapped] }
    rfl rfl ⟨rfl, rfl, rfl⟩ rfl

/-! ### Replica selection -/

theorem Slave_enabled {α : Type} (db : DB α) (hms : db.EnableMS = true)
    (hR : 0 < db.slaves.length) (hlen : db.slaves.length < 2 ^ 64) :
    ∃ h, db.slaves.get? (AddUint64 db.nextIdx 1 % db.slaves.length) = some h ∧
      db.Slave = Except.ok (h, { db with nextIdx := AddUint64 db.nextIdx 1 }) := by
  have hmod : db.slaves.length % 2 ^ 64 = db.slaves.length := Nat.mod_eq_of_lt hlen
  have hlt : AddUint64 db.nextIdx 1 % db.slaves.length < db.slaves.length := Nat.mod_lt _ hR
  refine ⟨db.slaves[AddUint64 db.nextIdx 1 % db.slaves.length], ?_, ?_⟩
  · rw [List.get?_eq_getElem?]
    exact List.getElem?_eq_getElem hlt
  · have hne : ¬ db.slaves.length = 0 := by omega
    have hg : db.slaves.get? (AddUint64 db.nextIdx 1 % db.slaves.length)
        = some db.slaves[AddUint64 db.nextIdx 1 % db.slaves.length] := by
      rw [List.get?_eq_getElem?]
      exact List.getElem?_eq_getElem hlt
    simp only [DB.Slave, hms, if_true, hmod, hne, if_false, hg]
    rfl

/-- The handles of `k` calls of `Slave` in a row, from any counter value: call
number `i + 1` returns the slave at index `((nextIdx + i + 1) mod 2^64) mod R`. -/
theorem slaveCalls_enabled {α : Type} (k : Nat) (db : DB α) (hms : db.EnableMS = true)
    (hR : 0 < db.slaves.length) (hlen : db.slaves.length < 2 ^ 64)
    (hn : db.nextIdx < 2 ^ 64) :
    ∃ hs, slaveCalls k db
        = Except.ok (hs, { db with nextIdx := (db.nextIdx + k) % 2 ^ 64 }) ∧
      hs.length = k ∧
      ∀ i, i < k → hs.get? i
        = db.slaves.get? (((db.nextIdx + i + 1) % 2 ^ 64) % db.slaves.length) := by
  induction k generalizing db with
  | zero =>
    refine ⟨[], ?_, rfl, fun i hi => absurd hi (Nat.not_lt_zero i)⟩
    simp only [slaveCalls, pure, Except.pure, Nat.add_zero, Nat.mod_eq_of_lt hn]
  | succ k ih =>
    obtain ⟨h, hg, hs1⟩ := Slave_enabled db hms hR hlen
    have hn1 : AddUint64 db.nextIdx 1 < 2 ^ 64 := Nat.mod_lt _ (by norm_num)
    obtain ⟨hs, h1, h2, h3⟩ := ih { db with nextIdx := AddUint64 db.nextIdx 1 } hms hR hlen hn1
    have hadd : (AddUint64 db.nextIdx 1 + k) % 2 ^ 64 = (db.nextIdx + (k + 1)) % 2 ^ 64 := by
      simp only [AddUint64]
      omega
    refine ⟨h :: hs, ?_, by simp [h2], ?_⟩
    · simp only [slaveCalls, hs1, bind, Except.bind, h1, pure, Except.pure, hadd]
    · intro i hi
      cases i with
      | zero =>
        simp only [List.get?_cons_zero, Nat.add_zero]
        exact hg.symm
      | succ j =>
        have hj : j < k := by omega
        have hidx : (AddUint64 db.nextIdx 1 + j + 1) % 2 ^ 64
            = (db.nextIdx + (j + 1) + 1) % 2 ^ 64 := by
          simp only [AddUint64]
          omega
        simp only [List.get?_cons_succ]
        rw [h3 j hj]
        simp only [hidx]

theorem Slave_primary {α : Type} (db : DB α)
    (h : db.EnableMS = false ∨ db.slaves = []) : db.Slave = Except.ok (db.master, db) := by
  rcases h with h | h
  · simp [DB.Slave, h, DB.Master, pure, Except.pure]
  · simp only [DB.Slave, h, List.length_nil, Nat.zero_mod, if_true, pure, Except.pure]
    split <;> rfl

theorem slaveCalls_primary {α : Type} (k : Nat) (db : DB α)
    (h : db.EnableMS = false ∨ db.slaves = []) :
    slaveCalls k db = Except.ok (List.replicate k db.master, db) := by
  induction k with
  | zero => rfl
  | succ k ih =>
    simp only [slaveCalls, Slave_primary db h, bind, Except.bind, ih, pure, Except.pure,
      List.replicate_succ]

theorem shifted_range_perm (R j : Nat) :
    ((List.range R).map (fun i => (j + 1 + i) % R)).Perm (List.range R) := by
  rcases Nat.eq_zero_or_pos R with h0 | hR
  · subst h0
    exact List.Perm.refl _
  · have hnd : ((List.range R).map (fun i => (j + 1 + i) % R)).Nodup := by
      refine List.Nodup.map_on ?_ (List.nodup_range R)
      intro a ha b hb hab
      rw [List.mem_range] at ha hb
      have h1 : (j + 1 + a) % R = (j + 1 + b) % R := hab
      have h2 : a % R = b % R := Nat.ModEq.add_left_cancel' (j + 1) h1
      rwa [Nat.mod_eq_of_lt ha, Nat.mod_eq_of_lt hb] at h2
    have hsub : (List.range R).map (fun i => (j + 1 + i) % R) ⊆ List.range R := by
      intro x hx
      obtain ⟨i, _, rfl⟩ := List.mem_map.mp hx
      exact List.mem_range.mpr (Nat.mod_lt _ hR)
    exact (List.subperm_of_subset hnd hsub).perm_of_length_le (by simp)

/-- C23 (amended): with master/slave mode on, `R >= 1` slaves and the counter at
0, `k` calls of `Slave` in a row all return; call number `j` returns the slave
at index `(j mod 2^64) mod R`, which is `j mod R` for `j < 2^64`; `R` calls in a
row that end before the counter wraps return every slave exactly once; and with
the mode off, or without slaves, `Slave` returns the master and leaves the
counter as it is. -/
theorem Slave_round_robin {α : Type} (db : DB α) (k : Nat)
    (hms : db.EnableMS = true) (hR : 0 < db.slaves.length)
    (hlen : db.slaves.length < 2 ^ 64) (h0 : db.nextIdx = 0) :
    (∃ hs db2, slaveCalls k db = Except.ok (hs, db2) ∧ hs.length = k ∧
      (∀ j, 1 ≤ j → j ≤ k →
        hs.get? (j - 1) = db.slaves.get? ((j % 2 ^ 64) % db.slaves.length)) ∧
      (∀ j, 1 ≤ j → j ≤ k → j < 2 ^ 64 →
        hs.get? (j - 1) = db.slaves.get? (j % db.slaves.length)) ∧
      (∀ j, j + db.slaves.length ≤ k → j + db.slaves.length < 2 ^ 64 →
        ((hs.drop j).take db.slaves.length).Perm db.slaves)) ∧
    (∀ db2 : DB α, db2.EnableMS = false ∨ db2.slaves = [] →
      db2.Slave = Except.ok (db2.master, db2)) := by
  refine ⟨?_, fun db2 h => Slave_primary db2 h⟩
  obtain ⟨hs, h1, h2, h3⟩ := slaveCalls_enabled k db hms hR hlen (by rw [h0]; norm_num)
  have hidx : ∀ j, 1 ≤ j → j ≤ k →
      hs.get? (j - 1) = db.slaves.get? ((j % 2 ^ 64) % db.slaves.length) := by
    intro j hj1 hjk
    rw [h3 (j - 1) (by omega), h0]
    have : 0 + (j - 1) + 1 = j := by omega
    rw [this]
  refine ⟨hs, _, h1, h2, hidx, ?_, ?_⟩
  · intro j hj1 hjk hlt
    rw [hidx j hj1 hjk, Nat.mod_eq_of_lt hlt]
  · intro j hjk hlt
    have hL : (hs.drop j).take db.slaves.length
        = ((List.range db.slaves.length).map (fun i => (j + 1 + i) % db.slaves.length)).map
            (fun i => db.slaves.getD i db.master) := by
      apply List.ext_get?
      intro n
      by_cases hn : n < db.slaves.length
      · have e1 : ((hs.drop j).take db.slaves.length).get? n = hs.get? (j + n) := by
          simp only [List.get?_eq_getElem?, List.getElem?_take, hn, if_true, List.getElem?_drop]
        have e2 : hs.get? (j + n)
            = db.slaves.get? ((j + 1 + n) % db.slaves.length) := by
          have := hidx (j + n + 1) (by omega) (by omega)
          rw [Nat.mod_eq_of_lt (by omega : j + n + 1 < 2 ^ 64)] at this
          have e3 : j + n + 1 - 1 = j + n := by omega
          have e4 : j + n + 1 = j + 1 + n := by omega
          rw [e3, e4] at this
          exact this
        have hm : (j + 1 + n) % db.slaves.length < db.slaves.length := Nat.mod_lt _ hR
        rw [e1, e2]
        simp only [List.get?_eq_getElem?, List.getElem?_map, List.getElem?_range hn,
          Option.map_some', List.getElem?_eq_getElem hm, List.getD_eq_getElem?_getD,
          Option.getD_some]
      · have hlen1 : ((hs.drop j).take db.slaves.length).length ≤ n := by
          simp only [List.length_take, List.length_drop]
          omega
        rw [List.get?_eq_getElem?, List.get?_eq_getElem?, List.getElem?_eq_none hlen1,
          List.getElem?_eq_none (by simp; omega)]
    have hS : db.slaves
        = (List.range db.slaves.length).map (fun i => db.slaves.getD i db.master) := by
      apply List.ext_get?
      intro n
      by_cases hn : n < db.slaves.length
      · simp only [List.get?_eq_getElem?, List.getElem?_map, List.getElem?_range hn,
          Option.map_some', List.getElem?_eq_getElem hn, List.getD_eq_getElem?_getD,
          Option.getD_some]
      · rw [List.get?_eq_getElem?, List.get?_eq_getElem?,
          List.getElem?_eq_none (by omega), List.getElem?_eq_none (by simp; omega)]
    rw [hL]
    conv_rhs => rw [hS]
    exact List.Perm.map _ (shifted_range_perm db.slaves.length j)

theorem Slave_round_robin_witness :
    ∃ hs db2, slaveCalls 4 threeSlaves = Except.ok (hs, db2) ∧ hs.length = 4 ∧
      (∀ j, 1 ≤ j → j ≤ 4 →
        hs.get? (j - 1) = threeSlaves.slaves.get? ((j % 2 ^ 64) % threeSlaves.slaves.length)) ∧
      (∀ j, 1 ≤ j → j ≤ 4 → j < 2 ^ 64 →
        hs.get? (j - 1) = threeSlaves.slaves.get? (j % threeSlaves.slaves.length)) ∧
      (∀ j, j + threeSlaves.slaves.length ≤ 4 → j + threeSlaves.slaves.length < 2 ^ 64 →
        ((hs.drop j).take threeSlaves.slaves.length).Perm threeSlaves.slaves) :=
  (Slave_round_robin threeSlaves 4 rfl (by decide) (by decide) rfl).1

/-- C23 (counterexample): with three slaves, call number 2^64 of `Slave` returns
slave 0, because the `uint64` counter has wrapped to 0, while 2^64 mod 3 is 1. -/
theorem Slave_wraps_counterexample :
    ∃ hs db2, slaveCalls (2 ^ 64) threeSlaves = Except.ok (hs, db2) ∧
      hs.get? (2 ^ 64 - 1) = some "s0" ∧
      threeSlaves.slaves.get? (2 ^ 64 % 3) = some "s1" := by
  obtain ⟨hs, h1, _, h3⟩ :=
    slaveCalls_enabled (2 ^ 64) threeSlaves rfl (by decide) (by decide) (by decide)
  refine ⟨hs, _, h1, ?_, by decide⟩
  rw [h3 (2 ^ 64 - 1) (by norm_num)]
  decide

/-! ### Sequences of Commit and RollBack -/

theorem TxOp_run_done (drv : TxDriver) (op : TxOp) (s : Session) (log : List TxEvent)
    (h : s.isAutoCommit = true ∨ s.hasCommittedOrRollback = true) :
    op.run drv s log = Except.ok { err := none, session := s, log := log } := by
  cases op <;> rcases h with h | h <;>
    simp [TxOp.run, Session.Commit, Session.RollBack, h, pure, Except.pure]

theorem TxOp_run_open (drv : TxDriver) (op : TxOp) (s : Session) (log : List TxEvent)
    (h1 : s.isAutoCommit = false) (h2 : s.hasCommittedOrRollback = false)
    (h3 : s.hasTx = true) :
    ∃ ev, (ev = TxEvent.Commit ∨ ev = TxEvent.Rollback) ∧
      op.run drv s log = Except.ok
        (match op.driver drv log with
         | some e => { err := some e, session := s, log := log ++ [ev] }
         | none => { err := none, session := { s with hasCommittedOrRollback := true },
                     log := log ++ [ev] }) := by
  cases op with
  | Commit =>
    refine ⟨TxEvent.Commit, Or.inl rfl, ?_⟩
    simp only [TxOp.run, Session.Commit, h1, h2, h3, and_self, if_true, Bool.true_eq_false,
      if_false, TxOp.driver]
    cases drv.Commit log <;> rfl
  | RollBack =>
    refine ⟨TxEvent.Rollback, Or.inr rfl, ?_⟩
    simp only [TxOp.run, Session.RollBack, h1, h2, h3, and_self, if_true, Bool.true_eq_false,
      if_false, TxOp.driver]
    cases drv.Rollback log <;> rfl

theorem TxOp_run_event (drv : TxDriver) (op : TxOp) (s : Session) (log : List TxEvent)
    (h1 : s.isAutoCommit = false) (h2 : s.hasCommittedOrRollback = false)
    (h3 : s.hasTx = true) :
    op.run drv s log = Except.ok
      (match op.driver drv log with
       | some e => { err := some e, session := s, log := log ++ [op.event] }
       | none => { err := none, session := { s with hasCommittedOrRollback := true },
                   log := log ++ [op.event] }) := by
  cases op with
  | Commit =>
    simp only [TxOp.run, Session.Commit, h1, h2, h3, and_self, if_true, Bool.true_eq_false,
      if_false, TxOp.driver, TxOp.event]
    cases drv.Commit log <;> rfl
  | RollBack =>
    simp only [TxOp.run, Session.RollBack, h1, h2, h3, and_self, if_true, Bool.true_eq_false,
      if_false, TxOp.driver, TxOp.event]
    cases drv.Rollback log <;> rfl

theorem runTxOps_done (drv : TxDriver) (ops : List TxOp) (s : Session) (log : List TxEvent)
    (h : s.isAutoCommit = true ∨ s.hasCommittedOrRollback = true) :
    runTxOps drv ops s log
      = Except.ok (List.replicate ops.length { err := none, reached := false }, s, log) := by
  induction ops with
  | nil => rfl
  | cons op rest ih =>
    simp only [runTxOps, TxOp_run_done drv op s log h, bind, Except.bind, ih, pure, Except.pure,
      List.length_cons, List.replicate_succ, ne_eq, not_true_eq_false, decide_False]

theorem runTxOps_open (drv : TxDriver) (ops : List TxOp) (s : Session) (log : List TxEvent)
    (h1 : s.isAutoCommit = false) (h2 : s.hasCommittedOrRollback = false)
    (h3 : s.hasTx = true) :
    ∃ outs s2 log2, runTxOps drv ops s log = Except.ok (outs, s2, log2) ∧
      ∃ pre post, outs = pre ++ post ∧
        (∀ o ∈ pre, o.reached = true ∧ o.err ≠ none) ∧
        (post = [] ∨ ∃ m, post
          = { err := none, reached := true } :: List.replicate m { err := none, reached := false }) ∧
        log2.length = log.length + pre.length + (if post = [] then 0 else 1) := by
  induction ops generalizing log with
  | nil => exact ⟨[], s, log, rfl, [], [], rfl, by simp, Or.inl rfl, by simp⟩
  | cons op rest ih =>
    obtain ⟨ev, _, hrun⟩ := TxOp_run_open drv op s log h1 h2 h3
    cases hd : op.driver drv log with
    | some e =>
      rw [hd] at hrun
      obtain ⟨outs, s2, log2, hr, pre, post, ho, hpre, hpost, hlen⟩ := ih (log ++ [ev])
      refine ⟨{ err := some e, reached := true } :: outs, s2, log2, ?_,
        { err := some e, reached := true } :: pre, post, by simp [ho], ?_, hpost, ?_⟩
      · simp only [runTxOps, hrun, bind, Except.bind, hr, pure, Except.pure]
        simp
      · intro o ho2
        rcases List.mem_cons.mp ho2 with rfl | ho2
        · exact ⟨rfl, by simp⟩
        · exact hpre o ho2
      · simp only [List.length_append, List.length_singleton, List.length_cons,
          List.length_nil] at hlen ⊢
        omega
    | none =>
      rw [hd] at hrun
      have hdone := runTxOps_done drv rest { s with hasCommittedOrRollback := true }
        (log ++ [ev]) (Or.inr rfl)
      refine ⟨{ err := none, reached := true }
          :: List.replicate rest.length { err := none, reached := false },
        { s with hasCommittedOrRollback := true }, log ++ [ev], ?_, [], _, rfl, by simp,
        Or.inr ⟨rest.length, rfl⟩, by simp⟩
      simp only [runTxOps, hrun, bind, Except.bind, hdone, pure, Except.pure]
      simp

/-- On an open session the outcomes of a sequence of `Commit` and `RollBack`
calls are the expected ones: each call that reaches the transaction returns
what the transaction answered, and the session is closed exactly when one of
the answers was nil. -/
theorem runTxOps_open_outcomes (drv : TxDriver) (ops : List TxOp) (s : Session)
    (log : List TxEvent) (h1 : s.isAutoCommit = false) (h2 : s.hasCommittedOrRollback = false)
    (h3 : s.hasTx = true) :
    ∃ s2 log2, runTxOps drv ops s log = Except.ok (expectedOutcomes drv ops log, s2, log2) ∧
      (s2.hasCommittedOrRollback = true ↔
        { err := none, reached := true } ∈ expectedOutcomes drv ops log) := by
  induction ops generalizing log with
  | nil => exact ⟨s, log, rfl, by simp [expectedOutcomes, h2]⟩
  | cons op rest ih =>
    have hrun := TxOp_run_event drv op s log h1 h2 h3
    cases hd : op.driver drv log with
    | some e =>
      rw [hd] at hrun
      obtain ⟨s2, log2, hr, hflag⟩ := ih (log ++ [op.event])
      refine ⟨s2, log2, ?_, ?_⟩
      · simp only [runTxOps, hrun, bind, Except.bind, hr, pure, Except.pure, expectedOutcomes, hd]
        simp
      · simp only [expectedOutcomes, hd, List.mem_cons, OpOutcome.mk.injEq, and_true,
          false_or, reduceCtorEq]
        exact hflag
    | none =>
      rw [hd] at hrun
      have hdone := runTxOps_done drv rest { s with hasCommittedOrRollback := true }
        (log ++ [op.event]) (Or.inr rfl)
      refine ⟨{ s with hasCommittedOrRollback := true }, log ++ [op.event], ?_, ?_⟩
      · simp only [runTxOps, hrun, bind, Except.bind, hdone, pure, Except.pure, expectedOutcomes,
          hd]
        simp
      · simp [expectedOutcomes, hd]

/-- C21 (amended): on a session whose `Begin` succeeded, every sequence of
`Commit` and `RollBack` calls returns, and its outcomes are: first the calls
that reached the transaction and got an error from it, then at most one call
that reached the transaction and returned nil, then only calls that return nil
without reaching the transaction; the transaction is called once per call of
the first two groups.  Each call that reaches the transaction returns what the
transaction answered to it, unchanged (`expectedOutcomes`), and the session is
marked committed-or-rolled-back exactly when one answer was nil.  When the
transaction accepts the first call, that call is the only one that reaches
it. -/
theorem Commit_RollBack_sequence (drv : TxDriver) (s0 : Session) (log0 : List TxEvent)
    (ops : List TxOp) (hb : drv.Begin log0 = none) :
    ∃ outs s2 log2,
      runTxOps drv ops (s0.Begin drv log0).session (s0.Begin drv log0).log
        = Except.ok (outs, s2, log2) ∧
      (∃ pre post, outs = pre ++ post ∧
        (∀ o ∈ pre, o.reached = true ∧ o.err ≠ none) ∧
        (post = [] ∨ ∃ m, post
          = { err := none, reached := true } :: List.replicate m { err := none, reached := false }) ∧
        log2.length = (s0.Begin drv log0).log.length + pre.length
          + (if post = [] then 0 else 1)) ∧
      (∀ op rest, ops = op :: rest → op.driver drv (s0.Begin drv log0).log = none →
        outs = { err := none, reached := true }
          :: List.replicate rest.length { err := none, reached := false }) ∧
      outs = expectedOutcomes drv ops (s0.Begin drv log0).log ∧
      (s2.hasCommittedOrRollback = true ↔ { err := none, reached := true } ∈ outs) := by
  have hbegin : s0.Begin drv log0
      = { err := none,
          session := { s0 with hasCommittedOrRollback := false, isAutoCommit := false,
                               hasTx := true },
          log := log0 ++ [TxEvent.Begin] } := by
    simp only [Session.Begin, hb]
  rw [hbegin]
  obtain ⟨outs, s2, log2, hr, hshape⟩ := runTxOps_open drv ops
    { s0 with hasCommittedOrRollback := false, isAutoCommit := false, hasTx := true }
    (log0 ++ [TxEvent.Begin]) rfl rfl rfl
  obtain ⟨s3, log3, hr3, hflag⟩ := runTxOps_open_outcomes drv ops
    { s0 with hasCommittedOrRollback := false, isAutoCommit := false, hasTx := true }
    (log0 ++ [TxEvent.Begin]) rfl rfl rfl
  have heq := hr.symm.trans hr3
  simp only [Except.ok.injEq, Prod.mk.injEq] at heq
  obtain ⟨ho, hs, _⟩ := heq
  refine ⟨outs, s2, log2, hr, hshape, ?_, ho, ?_⟩
  · intro op rest hops hdrv
    subst hops
    simp only at hdrv
    rw [ho]
    simp only [expectedOutcomes, hdrv]
  · rw [ho, hs]
    exact hflag

theorem Commit_RollBack_sequence_witness :
    ∃ outs s2 log2,
      runTxOps failingRollback [TxOp.RollBack, TxOp.Commit, TxOp.RollBack]
          (newSession.Begin failingRollback []).session (newSession.Begin failingRollback []).log
        = Except.ok (outs, s2, log2) ∧
      (∃ pre post, outs = pre ++ post ∧
        (∀ o ∈ pre, o.reached = true ∧ o.err ≠ none) ∧
        (post = [] ∨ ∃ m, post
          = { err := none, reached := true } :: List.replicate m { err := none, reached := false }) ∧
        log2.length = (newSession.Begin failingRollback []).log.length + pre.length
          + (if post = [] then 0 else 1)) ∧
      (∀ op rest, [TxOp.RollBack, TxOp.Commit, TxOp.RollBack] = op :: rest →
        op.driver failingRollback (newSession.Begin failingRollback []).log = none →
        outs = { err := none, reached := true }
          :: List.replicate rest.length { err := none, reached := false }) ∧
      outs = expectedOutcomes failingRollback [TxOp.RollBack, TxOp.Commit, TxOp.RollBack]
        (newSession.Begin failingRollback []).log ∧
      (s2.hasCommittedOrRollback = true ↔ { err := none, reached := true } ∈ outs) :=
  Commit_RollBack_sequence failingRollback newSession []
    [TxOp.RollBack, TxOp.Commit, TxOp.RollBack] rfl

/-- C21 (counterexample): after a `Begin` that succeeded, `Commit` on a
`*sql.Tx` whose commit fails returns the error and leaves the session open, so
the `RollBack` that follows calls `tx.Rollback` as well and returns its answer
`sql.ErrTxDone`: two calls reach `tx`, and the second call neither returns nil
nor leaves the transaction alone. -/
theorem Commit_RollBack_counterexample :
    runTxOps failingCommit [TxOp.Commit, TxOp.RollBack]
        (newSession.Begin failingCommit []).session (newSession.Begin failingCommit []).log
      = Except.ok
          ([{ err := some (Err.foreign "commit failed"), reached := true },
            { err := some ErrTxDone, reached := true }],
           { newSession with hasCommittedOrRollback := false, isAutoCommit := false,
                             hasTx := true },
           [TxEvent.Begin, TxEvent.Commit, TxEvent.Rollback]) := by
  rfl

/-! ### Errors of commit and rollback in Transaction -/

/-- Whatever `tx.Commit` and `tx.Rollback` answer, `Transaction` and
`TransactionTx` return the value and the error of the wrapped function once the
transaction has begun and the function has returned. -/
theorem transactionTail_returns_wrapped (drv : TxDriver)
    (f : Session → List TxEvent → Run WrappedResult) (b : TxResult) (r res : WrappedResult)
    (hb : b.err = none) (hf : f b.session (b.log ++ [TxEvent.wrapped]) = Except.ok r)
    (h : transactionTail drv f b = Except.ok res) : res.d = r.d ∧ res.err = r.err := by
  simp only [transactionTail, hb, hf, bind, Except.bind] at h
  cases hre : r.err with
  | some e =>
    simp only [hre] at h
    cases hrb : r.session.RollBack drv r.log with
    | error m => simp [hrb] at h
    | ok rb =>
      simp only [hrb, pure, Except.pure, Except.ok.injEq] at h
      rw [← h]
      exact ⟨rfl, rfl⟩
  | none =>
    simp only [hre] at h
    cases hc : r.session.Commit drv r.log with
    | error m => simp [hc] at h
    | ok c =>
      simp only [hc, pure, Except.pure, Except.ok.injEq] at h
      rw [← h]
      exact ⟨rfl, rfl⟩

/-- On a session whose context is nil, as `NewSession` makes it,
`TransactionTx` panics in `BeginTx`, before the wrapped function runs. -/
theorem TransactionTx_nil_context_panics (drv : TxDriver)
    (f : Session → List TxEvent → Run WrappedResult) (log : List TxEvent) :
    newSession.TransactionTx drv f log
      = Except.error "invalid memory address or nil pointer dereference" := rfl

/-- C22: when the wrapped function returns no error and `tx.Commit` fails,
`Transaction` (on a session of `NewSession`) and `TransactionTx` (on a session
of `NewSessionCtx` with a context) return no error: the error `Commit` returns
is dropped and the session stays open.  When the wrapped function returns an
error and `tx.Rollback` fails, the error of the function is returned and the
error of `RollBack` is dropped. -/
theorem Transaction_discards_commit_error :
    newSession.Transaction failingCommit
        (fun s l => pure { d := Value.nil, err := none, session := s, log := l }) []
      = Except.ok { d := Value.nil, err := none,
                    session := { newSession with hasCommittedOrRollback := false,
                                                 isAutoCommit := false, hasTx := true },
                    log := [TxEvent.Begin, TxEvent.wrapped, TxEvent.Commit] } ∧
    failingCommit.Commit [TxEvent.Begin, TxEvent.wrapped] = some (Err.foreign "commit failed") ∧
    (NewSessionCtx true).TransactionTx failingCommit
        (fun s l => pure { d := Value.nil, err := none, session := s, log := l }) []
      = Except.ok { d := Value.nil, err := none,
                    session := { NewSessionCtx true with hasCommittedOrRollback := false,
                                                         isAutoCommit := false, hasTx := true },
                    log := [TxEvent.BeginTx, TxEvent.wrapped, TxEvent.Commit] } ∧
    failingCommit.Commit [TxEvent.BeginTx, TxEvent.wrapped]
      = some (Err.foreign "commit failed") ∧
    newSession.Transaction failingRollback
        (fun s l => pure { d := Value.nil, err := some (Err.foreign "update error"),
                           session := s, log := l }) []
      = Except.ok { d := Value.nil, err := some (Err.foreign "update error"),
                    session := { newSession with hasCommittedOrRollback := false,
                                                 isAutoCommit := false, hasTx := true },
                    log := [TxEvent.Begin, TxEvent.wrapped, TxEvent.Rollback] } ∧
    failingRollback.Rollback [TxEvent.Begin, TxEvent.wrapped]
      = some (Err.foreign "rollback failed") ∧
    (NewSessionCtx true).TransactionTx failingRollback
        (fun s l => pure { d := Value.nil, err := some (Err.foreign "update error"),
                           session := s, log := l }) []
      = Except.ok { d := Value.nil, err := some (Err.foreign "update error"),
                    session := { NewSessionCtx true with hasCommittedOrRollback := false,
                                                         isAutoCommit := false, hasTx := true },
                    log := [TxEvent.BeginTx, TxEvent.wrapped, TxEvent.Rollback] } :=
  ⟨rfl, rfl, rfl, rfl, rfl, rfl, rfl⟩

/-! ### The SQL text under every map order -/

theorem getSortedKeys_perm {β : Type} (l l2 : List (String × β)) (hp : l2.Perm l) :
    getSortedKeys l2 = getSortedKeys l := by
  unfold getSortedKeys
  apply List.eq_of_perm_of_sorted (r := fun a b : String => a ≤ b)
  · exact ((List.perm_insertionSort _ _).trans (hp.map _)).trans (List.perm_insertionSort _ _).symm
  · exact List.sorted_insertionSort _ _
  · exact List.sorted_insertionSort _ _

theorem sortedEntries_perm {β : Type} (l l2 : List (String × β)) (hp : l2.Perm l)
    (hl : (l.map Prod.fst).Nodup) : sortedEntries l2 = sortedEntries l := by
  unfold sortedEntries
  rw [getSortedKeys_perm l l2 hp]
  exact List.filterMap_congr (fun k _ => by rw [mapGet_perm l l2 hp hl k])

theorem mapSet_fresh {β : Type} (k : String) (v : β) (m : List (String × β))
    (h : k ∉ m.map Prod.fst) : mapSet k v m = m ++ [(k, v)] := by
  induction m with
  | nil => rfl
  | cons hd tl ih =>
    obtain ⟨k1, v1⟩ := hd
    simp only [List.map_cons, List.mem_cons, not_or] at h
    have hne : ¬ k1 = k := fun e => h.1 e.symm
    simp only [mapSet, hne, if_false, ih h.2, List.cons_append]

theorem foldl_mapSet_fresh {β : Type} (l acc : List (String × β))
    (h : ((acc ++ l).map Prod.fst).Nodup) :
    l.foldl (fun e kv => mapSet kv.1 kv.2 e) acc = acc ++ l := by
  induction l generalizing acc with
  | nil => simp
  | cons hd tl ih =>
    have hk : hd.1 ∉ acc.map Prod.fst := by
      intro hmem
      simp only [List.map_append, List.map_cons] at h
      have := (List.nodup_append.mp h).2.2
      exact this hmem (List.mem_cons_self _ _)
    simp only [List.foldl_cons, mapSet_fresh hd.1 hd.2 acc hk]
    rw [ih]
    · simp
    · simpa using h

/-- With distinct keys the map `ToSqlizer` hands to squirrel lists the entries
in the order `range` gave them. -/
theorem ToSqlizer_eq (rng : List (String × CondValue) → List (String × CondValue))
    (c : Cmp) (hrng : (rng c.entries).Perm c.entries) (hc : (c.entries.map Prod.fst).Nodup) :
    c.ToSqlizer rng = (c.op, rng c.entries) := by
  have hl2 : ((rng c.entries).map Prod.fst).Nodup :=
    (List.Perm.nodup_iff (List.Perm.map _ hrng)).mpr hc
  simp only [Cmp.ToSqlizer]
  rw [foldl_mapSet_fresh _ _ (by simpa using hl2)]
  simp

theorem perm_short {α : Type} (l l2 : List α) (hp : l2.Perm l) (h : l.length ≤ 1) : l2 = l := by
  match l, h with
  | [], _ => exact List.Perm.eq_nil hp
  | [a], _ => exact List.perm_singleton.mp hp

theorem cmpToSql_perm (rngL : List (String × CondValue) → List (String × CondValue))
    (hL : ∀ l, (rngL l).Perm l) (op : CmpOp) (m m2 : List (String × CondValue))
    (hp : m2.Perm m) (hm : (m.map Prod.fst).Nodup)
    (hlike : op = CmpOp.Like ∨ op = CmpOp.NotLike → m.length ≤ 1) :
    cmpToSql rngL op m2 = cmpToSql (fun l => l) op m := by
  have hs := sortedEntries_perm m m2 hp hm
  have hlen : m2.length = m.length := hp.length_eq
  cases op with
  | Eq => simp only [cmpToSql, hs, hlen]
  | Ne => simp only [cmpToSql, hs, hlen]
  | Like =>
    have := perm_short m (rngL m2) ((hL m2).trans hp) (hlike (Or.inl rfl))
    simp only [cmpToSql, this]
  | NotLike =>
    have := perm_short m (rngL m2) ((hL m2).trans hp) (hlike (Or.inr rfl))
    simp only [cmpToSql, this]
  | GT => simp only [cmpToSql, hs]
  | GTE => simp only [cmpToSql, hs]
  | LT => simp only [cmpToSql, hs]
  | LTE => simp only [cmpToSql, hs]

/-- What makes the rendering of a map-shaped condition independent of the map
orders: distinct keys, and at most one key under `Like` and `NotLike`. -/
theorem cmp_render_canon (rng rngL : List (String × CondValue) → List (String × CondValue))
    (hR : ∀ l, (rng l).Perm l) (hL : ∀ l, (rngL l).Perm l) (c : Cmp)
    (hc : (c.entries.map Prod.fst).Nodup)
    (hlike : c.op = CmpOp.Like ∨ c.op = CmpOp.NotLike → c.entries.length ≤ 1) :
    cmpToSql rngL (c.ToSqlizer rng).1 (c.ToSqlizer rng).2
      = cmpToSql (fun l => l) (c.ToSqlizer (fun l => l)).1 (c.ToSqlizer (fun l => l)).2 := by
  rw [ToSqlizer_eq rng c (hR _) hc, ToSqlizer_eq (fun l => l) c (List.Perm.refl _) hc]
  exact cmpToSql_perm rngL hL c.op c.entries (rng c.entries) (hR _) hc hlike

theorem renderConj_canon (rng rngL : List (String × CondValue) → List (String × CondValue))
    (hR : ∀ l, (rng l).Perm l) (hL : ∀ l, (rngL l).Perm l) (cs : List Cmp)
    (hc : ∀ c ∈ cs, (c.entries.map Prod.fst).Nodup ∧
      (c.op = CmpOp.Like ∨ c.op = CmpOp.NotLike → c.entries.length ≤ 1)) :
    renderConj rngL (cs.map (fun v => v.ToSqlizer rng))
      = renderConj (fun l => l) (cs.map (fun v => v.ToSqlizer (fun l => l))) := by
  induction cs with
  | nil => rfl
  | cons c rest ih =>
    have h1 := hc c (List.mem_cons_self _ _)
    simp only [List.map_cons, renderConj, cmp_render_canon rng rngL hR hL c h1.1 h1.2,
      ih (fun c2 h2 => hc c2 (List.mem_cons_of_mem _ h2))]

theorem pred_render_canon (rng rngL : List (String × CondValue) → List (String × CondValue))
    (hR : ∀ l, (rng l).Perm l) (hL : ∀ l, (rngL l).Perm l) (e : Expr)
    (hc : ∀ c ∈ e.cmps, (c.entries.map Prod.fst).Nodup ∧
      (c.op = CmpOp.Like ∨ c.op = CmpOp.NotLike → c.entries.length ≤ 1)) :
    (ConvertCondition rng e).map (predToSql rngL)
      = (ConvertCondition (fun l => l) e).map (predToSql (fun l => l)) := by
  cases e with
  | cmp c =>
    have h1 := hc c (by simp [Expr.cmps])
    simp only [ConvertCondition, pure, Except.pure, Except.map, predToSql,
      cmp_render_canon rng rngL hR hL c h1.1 h1.2]
  | AND cs =>
    simp only [ConvertCondition, pure, Except.pure, Except.map, predToSql,
      renderConj_canon rng rngL hR hL cs hc, List.length_map]
  | OR cs =>
    simp only [ConvertCondition, pure, Except.pure, Except.map, predToSql,
      renderConj_canon rng rngL hR hL cs hc, List.length_map]
  | unsupported t => rfl

theorem wheres_render_canon (rng rngL : List (String × CondValue) → List (String × CondValue))
    (hR : ∀ l, (rng l).Perm l) (hL : ∀ l, (rngL l).Perm l) (cs : List Condition)
    (hc : ∀ c ∈ (cs.map (fun c => c.Expr.cmps)).flatten, (c.entries.map Prod.fst).Nodup ∧
      (c.op = CmpOp.Like ∨ c.op = CmpOp.NotLike → c.entries.length ≤ 1)) :
    (convertConditions rng cs).map (renderWheres rngL)
      = (convertConditions (fun l => l) cs).map (renderWheres (fun l => l)) := by
  induction cs with
  | nil => rfl
  | cons c rest ih =>
    have h1 := pred_render_canon rng rngL hR hL c.Expr
      (fun x hx => hc x (by simp only [List.map_cons, List.flatten_cons, List.mem_append]; exact Or.inl hx))
    have h2 := ih
      (fun x hx => hc x (by simp only [List.map_cons, List.flatten_cons, List.mem_append]; exact Or.inr hx))
    simp only [convertConditions, bind, Except.bind]
    cases hp : ConvertCondition rng c.Expr with
    | error e1 =>
      cases hq : ConvertCondition (fun l => l) c.Expr with
      | error e2 =>
        rw [hp, hq] at h1
        simp only [Except.map, Except.error.injEq] at h1 ⊢
        rw [h1]
      | ok q => rw [hp, hq] at h1; simp [Except.map] at h1
    | ok p =>
      cases hq : ConvertCondition (fun l => l) c.Expr with
      | error e2 => rw [hp, hq] at h1; simp [Except.map] at h1
      | ok q =>
        rw [hp, hq] at h1
        simp only [Except.map, Except.ok.injEq] at h1
        cases hps : convertConditions rng rest with
        | error e1 =>
          cases hqs : convertConditions (fun l => l) rest with
          | error e2 =>
            rw [hps, hqs] at h2
            simp only [Except.map, Except.error.injEq] at h2 ⊢
            rw [h2]
          | ok qs => rw [hps, hqs] at h2; simp [Except.map] at h2
        | ok ps =>
          cases hqs : convertConditions (fun l => l) rest with
          | error e2 => rw [hps, hqs] at h2; simp [Except.map] at h2
          | ok qs =>
            rw [hps, hqs] at h2
            simp only [Except.map, Except.ok.injEq] at h2
            simp only [pure, Except.pure, Except.map, renderWheres, h1, h2]

theorem convert_render_cases (rng rngL : List (String × CondValue) → List (String × CondValue))
    (hR : ∀ l, (rng l).Perm l) (hL : ∀ l, (rngL l).Perm l) (cs : List Condition)
    (hc : ∀ c ∈ (cs.map (fun c => c.Expr.cmps)).flatten, (c.entries.map Prod.fst).Nodup ∧
      (c.op = CmpOp.Like ∨ c.op = CmpOp.NotLike → c.entries.length ≤ 1)) :
    (∃ e, convertConditions rng cs = Except.error e ∧
      convertConditions (fun l => l) cs = Except.error e) ∨
    (∃ ws ws2, convertConditions rng cs = Except.ok ws ∧
      convertConditions (fun l => l) cs = Except.ok ws2 ∧
      renderWheres rngL ws = renderWheres (fun l => l) ws2) := by
  have h := wheres_render_canon rng rngL hR hL cs hc
  cases hp : convertConditions rng cs with
  | error e1 =>
    cases hq : convertConditions (fun l => l) cs with
    | error e2 =>
      rw [hp, hq] at h
      simp only [Except.map, Except.error.injEq] at h
      exact Or.inl ⟨e1, rfl, by rw [h]⟩
    | ok q => rw [hp, hq] at h; simp [Except.map] at h
  | ok p =>
    cases hq : convertConditions (fun l => l) cs with
    | error e2 => rw [hp, hq] at h; simp [Except.map] at h
    | ok q =>
      rw [hp, hq] at h
      simp only [Except.map, Except.ok.injEq] at h
      exact Or.inr ⟨p, q, rfl, rfl, h⟩

/-- With distinct keys in every condition map and at most one key under `Like`
and `NotLike`, the result of `ToSQL` does not depend on the two map orders. -/
theorem ToSQL_order_free (rng rngL : List (String × CondValue) → List (String × CondValue))
    (hR : ∀ l, (rng l).Perm l) (hL : ∀ l, (rngL l).Perm l) (st : Statement)
    (hc : ∀ c ∈ st.cmps, (c.entries.map Prod.fst).Nodup ∧
      (c.op = CmpOp.Like ∨ c.op = CmpOp.NotLike → c.entries.length ≤ 1)) :
    st.ToSQL (squirrelModel rngL) rng
      = st.ToSQL (squirrelModel (fun l => l)) (fun l => l) := by
  simp only [Statement.ToSQL, squirrelModel]
  by_cases ht : st.table = ""
  · simp [ht]
  · simp only [ht, if_false]
    rcases convert_render_cases rng rngL hR hL st.conditions hc with
      ⟨e, h1, h2⟩ | ⟨ws, ws2, h1, h2, h3⟩
    · cases hk : st.stType with
      | UnknownStatement => rfl
      | InsertStatement => rfl
      | SelectStatement => simp only [h1, h2, bind, Except.bind]
      | DeleteStatement => simp only [h1, h2, bind, Except.bind]
      | UpdateStatement =>
        simp only [h1, h2, bind, Except.bind]
    · cases hk : st.stType with
      | UnknownStatement => rfl
      | InsertStatement => rfl
      | SelectStatement =>
        simp only [h1, h2, bind, Except.bind, selectToSql, h3]
      | DeleteStatement =>
        simp only [h1, h2, bind, Except.bind, deleteToSql, h3]
      | UpdateStatement =>
        simp only [h1, h2, bind, Except.bind, updateToSql, h3]

/-! ### The arguments of `ToSQL` -/

theorem append_ne_empty (a b : String) (hb : b ≠ "") : a ++ b ≠ "" := by
  intro h
  apply hb
  have h2 := congrArg String.data h
  simp only [String.data_append, List.append_eq_nil] at h2
  exact String.ext h2.2

theorem strJoin_ne_empty (sep : String) (ts : List String) (h : ∀ t ∈ ts, t ≠ "")
    (hne : ts ≠ []) : strJoin sep ts ≠ "" := by
  match ts, hne with
  | [a], _ => exact h a (List.mem_cons_self _ _)
  | a :: b :: rest, _ =>
    intro heq
    simp only [strJoin] at heq
    have h2 := congrArg String.data heq
    simp only [String.data_append, List.append_eq_nil] at h2
    exact h a (List.mem_cons_self _ _) (String.ext h2.1.1)

theorem eqExpr_args (neg : Bool) (op : CmpOp) (hop : op = CmpOp.Eq ∨ op = CmpOp.Ne)
    (k : String) (v : CondValue) :
    (eqExpr neg k v).2 = entryArgs op v ∧ (eqExpr neg k v).1 ≠ "" := by
  cases v with
  | seq vs =>
    simp only [eqExpr, entryArgs]
    by_cases hl : vs.length = 0
    · have : vs = [] := List.length_eq_zero.mp hl
      subst this
      cases neg <;> simp [sqlTrue, sqlFalse]
    · simp only [hl, if_false, true_and]
      exact append_ne_empty _ _ (by simp [String.ext_iff])
  | scalar x =>
    simp only [eqExpr, entryArgs, hop, if_true]
    by_cases hx : sqDeref x = Value.nil
    · simp only [hx, if_true, true_and]
      cases neg <;> exact append_ne_empty _ _ (by simp [String.ext_iff])
    · simp only [hx, if_false, true_and]
      cases neg <;> exact append_ne_empty _ _ (by simp [String.ext_iff])

theorem ltExpr_args (opr : String) (op : CmpOp) (hop : ¬ (op = CmpOp.Eq ∨ op = CmpOp.Ne))
    (k : String) (v : CondValue) (p : String × List Value)
    (h : ltExpr opr k v = Except.ok p) : p.2 = entryArgs op v ∧ p.1 ≠ "" := by
  cases v with
  | seq vs => simp [ltExpr] at h
  | scalar x =>
    simp only [ltExpr] at h
    by_cases hx : x = Value.nil
    · simp [hx] at h
    · simp only [hx, if_false, Except.ok.injEq] at h
      subst h
      simp only [entryArgs, hop, if_false, true_and]
      exact append_ne_empty _ _ (by simp [String.ext_iff])

theorem likeExpr_args (opr : String) (op : CmpOp) (hop : ¬ (op = CmpOp.Eq ∨ op = CmpOp.Ne))
    (k : String) (v : CondValue) (p : String × List Value)
    (h : likeExpr opr k v = Except.ok p) : p.2 = entryArgs op v ∧ p.1 ≠ "" := by
  cases v with
  | seq vs => simp [likeExpr] at h
  | scalar x =>
    simp only [likeExpr] at h
    by_cases hx : x = Value.nil
    · simp [hx] at h
    · simp only [hx, if_false, Except.ok.injEq] at h
      subst h
      simp only [entryArgs, hop, if_false, true_and]
      exact append_ne_empty _ _ (by simp [String.ext_iff])

theorem renderEntries_args (f : String → CondValue → Except String (String × List Value))
    (g : CondValue → List Value)
    (hf : ∀ k v p, f k v = Except.ok p → p.2 = g v ∧ p.1 ≠ "")
    (l : List (String × CondValue)) (parts : List (String × List Value))
    (h : renderEntries f l = Except.ok parts) :
    parts.map Prod.snd = l.map (fun kv => g kv.2) ∧ (∀ p ∈ parts, p.1 ≠ "") ∧
      (parts = [] ↔ l = []) := by
  induction l generalizing parts with
  | nil =>
    simp only [renderEntries, Except.ok.injEq] at h
    subst h
    simp
  | cons kv rest ih =>
    simp only [renderEntries] at h
    cases h1 : f kv.1 kv.2 with
    | error e => simp [h1] at h
    | ok p =>
      cases h2 : renderEntries f rest with
      | error e => simp [h1, h2] at h
      | ok ps =>
        simp only [h1, h2, Except.ok.injEq] at h
        subst h
        obtain ⟨i1, i2, _⟩ := ih ps h2
        obtain ⟨j1, j2⟩ := hf _ _ _ h1
        refine ⟨by simp [i1, j1], ?_, by simp⟩
        intro q hq
        rcases List.mem_cons.mp hq with rfl | hq
        · exact j2
        · exact i2 q hq

theorem joinExprs_args (parts : List (String × List Value)) (h : ∀ p ∈ parts, p.1 ≠ "") :
    (joinExprs parts).2 = (parts.map Prod.snd).flatten ∧
      ((joinExprs parts).1 = "" → (joinExprs parts).2 = []) := by
  refine ⟨rfl, ?_⟩
  intro ht
  simp only [joinExprs] at ht ⊢
  by_cases hp : parts = []
  · subst hp
    rfl
  · exact absurd ht (strJoin_ne_empty _ _
      (by
        intro t htm
        obtain ⟨p, hp1, rfl⟩ := List.mem_map.mp htm
        exact h p hp1)
      (by simpa using hp))

theorem sortedEntries_short {β : Type} (l : List (String × β)) (h : l.length ≤ 1) :
    sortedEntries l = l := by
  match l, h with
  | [], _ => rfl
  | [(k, v)], _ => exact sortedEntries_single k v

/-- The arguments of a rendered map-shaped condition, and that an empty text
comes without arguments. -/
theorem cmpToSql_args (c : Cmp)
    (hlike : c.op = CmpOp.Like ∨ c.op = CmpOp.NotLike → c.entries.length ≤ 1)
    (t : String) (a : List Value)
    (h : cmpToSql (fun l => l) c.op c.entries = Except.ok (t, a)) :
    a = c.argValues ∧ (t = "" → a = []) := by
  have hmap : ∀ (x : Except String (List (String × List Value))),
      x.map joinExprs = Except.ok (t, a) → ∃ parts, x = Except.ok parts ∧
        joinExprs parts = (t, a) := by
    intro x hx
    cases x with
    | error e => simp [Except.map] at hx
    | ok parts =>
      simp only [Except.map, Except.ok.injEq] at hx
      exact ⟨parts, rfl, hx⟩
  have hfin : ∀ (l : List (String × CondValue)) (parts : List (String × List Value)),
      parts.map Prod.snd = l.map (fun kv => entryArgs c.op kv.2) → (∀ p ∈ parts, p.1 ≠ "") →
      l = sortedEntries c.entries → joinExprs parts = (t, a) →
      a = c.argValues ∧ (t = "" → a = []) := by
    intro l parts h1 h2 h3 h4
    obtain ⟨j1, j2⟩ := joinExprs_args parts h2
    rw [h4] at j1 j2
    simp only at j1 j2
    refine ⟨?_, j2⟩
    rw [j1, h1, h3]
    rfl
  have heq : ∀ neg, joinExprs ((sortedEntries c.entries).map (fun kv => eqExpr neg kv.1 kv.2))
      = (t, a) → (c.op = CmpOp.Eq ∨ c.op = CmpOp.Ne) → a = c.argValues ∧ (t = "" → a = []) := by
    intro neg hj hop
    refine hfin (sortedEntries c.entries) _ ?_ ?_ rfl hj
    · simp only [List.map_map]
      exact List.map_congr_left (fun kv _ => (eqExpr_args neg c.op hop kv.1 kv.2).1)
    · intro p hp
      obtain ⟨kv, _, rfl⟩ := List.mem_map.mp hp
      exact (eqExpr_args neg c.op hop kv.1 kv.2).2
  cases hop : c.op with
  | Eq =>
    rw [hop] at h
    simp only [cmpToSql] at h
    by_cases hl : c.entries.length = 0
    · simp only [hl, if_true, Except.ok.injEq, Prod.mk.injEq] at h
      have : c.entries = [] := List.length_eq_zero.mp hl
      simp [Cmp.argValues, this, ← h.2, ← h.1, sortedEntries, getSortedKeys, sqlTrue]
    · simp only [hl, if_false, Except.ok.injEq] at h
      exact heq false h (Or.inl hop)
  | Ne =>
    rw [hop] at h
    simp only [cmpToSql] at h
    by_cases hl : c.entries.length = 0
    · simp only [hl, if_true, Except.ok.injEq, Prod.mk.injEq] at h
      have : c.entries = [] := List.length_eq_zero.mp hl
      simp [Cmp.argValues, this, ← h.2, ← h.1, sortedEntries, getSortedKeys, sqlTrue]
    · simp only [hl, if_false, Except.ok.injEq] at h
      exact heq true h (Or.inr hop)
  | Like =>
    rw [hop] at h
    simp only [cmpToSql] at h
    obtain ⟨parts, hp, hj⟩ := hmap _ h
    obtain ⟨i1, i2, _⟩ := renderEntries_args _ (entryArgs c.op)
      (fun k v p hk => likeExpr_args _ c.op (by simp [hop]) k v p hk) _ parts hp
    exact hfin c.entries parts i1 i2 (sortedEntries_short _ (hlike (Or.inl hop))).symm hj
  | NotLike =>
    rw [hop] at h
    simp only [cmpToSql] at h
    obtain ⟨parts, hp, hj⟩ := hmap _ h
    obtain ⟨i1, i2, _⟩ := renderEntries_args _ (entryArgs c.op)
      (fun k v p hk => likeExpr_args _ c.op (by simp [hop]) k v p hk) _ parts hp
    exact hfin c.entries parts i1 i2 (sortedEntries_short _ (hlike (Or.inr hop))).symm hj
  | GT =>
    rw [hop] at h
    simp only [cmpToSql] at h
    obtain ⟨parts, hp, hj⟩ := hmap _ h
    obtain ⟨i1, i2, _⟩ := renderEntries_args _ (entryArgs c.op)
      (fun k v p hk => ltExpr_args _ c.op (by simp [hop]) k v p hk) _ parts hp
    exact hfin _ parts i1 i2 rfl hj
  | GTE =>
    rw [hop] at h
    simp only [cmpToSql] at h
    obtain ⟨parts, hp, hj⟩ := hmap _ h
    obtain ⟨i1, i2, _⟩ := renderEntries_args _ (entryArgs c.op)
      (fun k v p hk => ltExpr_args _ c.op (by simp [hop]) k v p hk) _ parts hp
    exact hfin _ parts i1 i2 rfl hj
  | LT =>
    rw [hop] at h
    simp only [cmpToSql] at h
    obtain ⟨parts, hp, hj⟩ := hmap _ h
    obtain ⟨i1, i2, _⟩ := renderEntries_args _ (entryArgs c.op)
      (fun k v p hk => ltExpr_args _ c.op (by simp [hop]) k v p hk) _ parts hp
    exact hfin _ parts i1 i2 rfl hj
  | LTE =>
    rw [hop] at h
    simp only [cmpToSql] at h
    obtain ⟨parts, hp, hj⟩ := hmap _ h
    obtain ⟨i1, i2, _⟩ := renderEntries_args _ (entryArgs c.op)
      (fun k v p hk => ltExpr_args _ c.op (by simp [hop]) k v p hk) _ parts hp
    exact hfin _ parts i1 i2 rfl hj

theorem flatten_filter_args (parts : List (String × List Value))
    (h : ∀ p ∈ parts, p.1 = "" → p.2 = []) :
    ((parts.filter (fun p => decide (p.1 ≠ ""))).map Prod.snd).flatten
      = (parts.map Prod.snd).flatten := by
  induction parts with
  | nil => rfl
  | cons p rest ih =>
    have ih2 := ih (fun q hq => h q (List.mem_cons_of_mem _ hq))
    by_cases hp : p.1 = ""
    · have hd : decide (p.1 ≠ "") = false := by simp [hp]
      rw [List.filter_cons, hd]
      simp only [Bool.false_eq_true, if_false, List.map_cons, List.flatten_cons, ih2,
        h p (List.mem_cons_self _ _) hp, List.nil_append]
    · have hd : decide (p.1 ≠ "") = true := by simp [hp]
      rw [List.filter_cons, hd]
      simp only [if_true, List.map_cons, List.flatten_cons, ih2]

theorem renderConj_args (cs : List Cmp)
    (hc : ∀ c ∈ cs, (c.entries.map Prod.fst).Nodup ∧
      (c.op = CmpOp.Like ∨ c.op = CmpOp.NotLike → c.entries.length ≤ 1))
    (parts : List (String × List Value))
    (h : renderConj (fun l => l) (cs.map (fun v => v.ToSqlizer (fun l => l))) = Except.ok parts) :
    parts.map Prod.snd = cs.map Cmp.argValues ∧ (∀ p ∈ parts, p.1 = "" → p.2 = []) := by
  induction cs generalizing parts with
  | nil =>
    simp only [List.map_nil, renderConj, Except.ok.injEq] at h
    subst h
    simp
  | cons c rest ih =>
    have h1 := hc c (List.mem_cons_self _ _)
    simp only [List.map_cons, renderConj, ToSqlizer_eq (fun l => l) c (List.Perm.refl _) h1.1] at h
    cases hx : cmpToSql (fun l => l) c.op c.entries with
    | error e => simp [hx] at h
    | ok x =>
      cases hxs : renderConj (fun l => l) (rest.map (fun v => v.ToSqlizer (fun l => l))) with
      | error e => simp [hx, hxs] at h
      | ok xs =>
        simp only [hx, hxs, Except.ok.injEq] at h
        subst h
        obtain ⟨i1, i2⟩ := ih (fun c2 h2 => hc c2 (List.mem_cons_of_mem _ h2)) xs hxs
        obtain ⟨j1, j2⟩ := cmpToSql_args c h1.2 x.1 x.2 hx
        refine ⟨by simp [i1, ← j1], ?_⟩
        intro p hp
        rcases List.mem_cons.mp hp with rfl | hp
        · exact j2
        · exact i2 p hp

theorem conjJoin_args (sep dflt : String) (parts : List (String × List Value))
    (h : ∀ p ∈ parts, p.1 = "" → p.2 = []) :
    (conjJoin sep dflt parts.length parts).2 = (parts.map Prod.snd).flatten ∧
      ((conjJoin sep dflt parts.length parts).1 = "" →
        (conjJoin sep dflt parts.length parts).2 = []) := by
  unfold conjJoin
  by_cases hn : parts.length = 0
  · have : parts = [] := List.length_eq_zero.mp hn
    subst this
    simp
  · simp only [hn, if_false]
    refine ⟨flatten_filter_args parts h, ?_⟩
    intro ht
    by_cases hk : (parts.filter (fun p => decide (p.1 ≠ ""))).length > 0
    · simp only [hk, if_true] at ht
      have h2 := congrArg String.data ht
      simp [String.data_append] at h2
    · have : parts.filter (fun p => decide (p.1 ≠ "")) = [] :=
        List.length_eq_zero.mp (by omega)
      simp only [this, List.map_nil, List.flatten_nil]

theorem renderConj_length (rngL : List (String × CondValue) → List (String × CondValue))
    (ps : List (CmpOp × List (String × CondValue))) (parts : List (String × List Value))
    (h : renderConj rngL ps = Except.ok parts) : parts.length = ps.length := by
  induction ps generalizing parts with
  | nil =>
    simp only [renderConj, Except.ok.injEq] at h
    subst h
    rfl
  | cons p rest ih =>
    simp only [renderConj] at h
    cases hx : cmpToSql rngL p.1 p.2 with
    | error e => simp [hx] at h
    | ok x =>
      cases hxs : renderConj rngL rest with
      | error e => simp [hx, hxs] at h
      | ok xs =>
        simp only [hx, hxs, Except.ok.injEq] at h
        subst h
        simp [ih xs hxs]

/-- The arguments of a rendered condition, and that an empty text comes
without arguments. -/
theorem predToSql_args (e : Expr)
    (hc : ∀ c ∈ e.cmps, (c.entries.map Prod.fst).Nodup ∧
      (c.op = CmpOp.Like ∨ c.op = CmpOp.NotLike → c.entries.length ≤ 1))
    (p : SqPred) (t : String) (a : List Value)
    (hp : ConvertCondition (fun l => l) e = Except.ok p)
    (h : predToSql (fun l => l) p = Except.ok (t, a)) :
    a = (e.cmps.map Cmp.argValues).flatten ∧ (t = "" → a = []) := by
  have hconj : ∀ (cs : List Cmp) (sep dflt : String),
      (∀ c ∈ cs, (c.entries.map Prod.fst).Nodup ∧
        (c.op = CmpOp.Like ∨ c.op = CmpOp.NotLike → c.entries.length ≤ 1)) →
      (renderConj (fun l => l) (cs.map (fun v => v.ToSqlizer (fun l => l)))).map
          (conjJoin sep dflt (cs.map (fun v => v.ToSqlizer (fun l => l))).length)
        = Except.ok (t, a) →
      a = (cs.map Cmp.argValues).flatten ∧ (t = "" → a = []) := by
    intro cs sep dflt hcs hr
    cases hx : renderConj (fun l => l) (cs.map (fun v => v.ToSqlizer (fun l => l))) with
    | error e => simp [hx, Except.map] at hr
    | ok parts =>
      simp only [hx, Except.map, Except.ok.injEq] at hr
      obtain ⟨i1, i2⟩ := renderConj_args cs hcs parts hx
      rw [← renderConj_length _ _ parts hx] at hr
      obtain ⟨j1, j2⟩ := conjJoin_args sep dflt parts i2
      rw [hr] at j1 j2
      simp only at j1 j2
      exact ⟨by rw [j1, i1], j2⟩
  cases e with
  | cmp c =>
    have h1 := hc c (by simp [Expr.cmps])
    simp only [ConvertCondition, pure, Except.pure, Except.ok.injEq,
      ToSqlizer_eq (fun l => l) c (List.Perm.refl _) h1.1] at hp
    subst hp
    simp only [predToSql] at h
    obtain ⟨j1, j2⟩ := cmpToSql_args c h1.2 t a h
    exact ⟨by simp [Expr.cmps, j1], j2⟩
  | AND cs =>
    simp only [ConvertCondition, pure, Except.pure, Except.ok.injEq] at hp
    subst hp
    simp only [predToSql] at h
    exact hconj cs _ _ hc h
  | OR cs =>
    simp only [ConvertCondition, pure, Except.pure, Except.ok.injEq] at hp
    subst hp
    simp only [predToSql] at h
    exact hconj cs _ _ hc h
  | unsupported s => simp [ConvertCondition] at hp

theorem renderWheres_args (cs : List Condition)
    (hc : ∀ c ∈ (cs.map (fun c => c.Expr.cmps)).flatten, (c.entries.map Prod.fst).Nodup ∧
      (c.op = CmpOp.Like ∨ c.op = CmpOp.NotLike → c.entries.length ≤ 1))
    (ws : List SqPred) (parts : List (String × List Value))
    (hw : convertConditions (fun l => l) cs = Except.ok ws)
    (h : renderWheres (fun l => l) ws = Except.ok parts) :
    (parts.map Prod.snd).flatten
        = ((cs.map (fun c => c.Expr.cmps)).flatten.map Cmp.argValues).flatten ∧
      (∀ p ∈ parts, p.1 = "" → p.2 = []) := by
  induction cs generalizing ws parts with
  | nil =>
    simp only [convertConditions, pure, Except.pure, Except.ok.injEq] at hw
    subst hw
    simp only [renderWheres, Except.ok.injEq] at h
    subst h
    simp
  | cons c rest ih =>
    simp only [convertConditions, bind, Except.bind] at hw
    cases hp : ConvertCondition (fun l => l) c.Expr with
    | error e => simp [hp] at hw
    | ok p =>
      cases hps : convertConditions (fun l => l) rest with
      | error e => simp [hp, hps] at hw
      | ok ps =>
        simp only [hp, hps, pure, Except.pure, Except.ok.injEq] at hw
        subst hw
        simp only [renderWheres] at h
        cases hx : predToSql (fun l => l) p with
        | error e => simp [hx] at h
        | ok x =>
          cases hxs : renderWheres (fun l => l) ps with
          | error e => simp [hx, hxs] at h
          | ok xs =>
            simp only [hx, hxs, Except.ok.injEq] at h
            subst h
            obtain ⟨i1, i2⟩ := ih
              (fun y hy => hc y (by
                simp only [List.map_cons, List.flatten_cons, List.mem_append]
                exact Or.inr hy)) ps xs hps hxs
            obtain ⟨j1, j2⟩ := predToSql_args c.Expr
              (fun y hy => hc y (by
                simp only [List.map_cons, List.flatten_cons, List.mem_append]
                exact Or.inl hy)) p x.1 x.2 hp hx
            refine ⟨by simp [i1, ← j1], ?_⟩
            intro q hq
            rcases List.mem_cons.mp hq with rfl | hq
            · exact j2
            · exact i2 q hq

theorem appendToSql_snd (sep : String) (parts : List (String × List Value)) (i : Nat)
    (acc : String × List Value) (h : ∀ p ∈ parts, p.1 = "" → p.2 = []) :
    (appendToSql sep parts i acc).2 = acc.2 ++ (parts.map Prod.snd).flatten := by
  induction parts generalizing i acc with
  | nil => simp [appendToSql]
  | cons p rest ih =>
    have ih2 := fun j a => ih j a (fun q hq => h q (List.mem_cons_of_mem _ hq))
    simp only [appendToSql]
    by_cases hp : p.1 = ""
    · simp [hp, ih2, h p (List.mem_cons_self _ _) hp]
    · simp [hp, ih2]

theorem whereClause_snd (parts : List (String × List Value))
    (h : ∀ p ∈ parts, p.1 = "" → p.2 = []) :
    (whereClause parts).2 = (parts.map Prod.snd).flatten := by
  unfold whereClause
  by_cases hl : parts.length > 0
  · simp only [hl, if_true, appendToSql_snd _ _ _ _ h, List.nil_append]
  · have : parts = [] := List.length_eq_zero.mp (by omega)
    subst this
    rfl

theorem sqlDone_args (sql : String) (args : List Value) :
    (sqlDone sql args).args.getD [] = args ∧ (sqlDone sql args).err = none := by
  unfold sqlDone
  by_cases h : args.length = 0
  · have : args = [] := List.length_eq_zero.mp h
    subst this
    simp
  · simp [h]

theorem updateRowMap_eq (cols : List String) (row : List Value) (acc m : List (String × Value))
    (h : updateRowMap cols row acc = Except.ok m) :
    m = (cols.zip row).foldl (fun m kv => mapSet kv.1 kv.2 m) acc := by
  induction cols generalizing row acc with
  | nil =>
    simp only [updateRowMap, pure, Except.pure, Except.ok.injEq] at h
    subst h
    simp
  | cons c cs ih =>
    cases row with
    | nil => simp [updateRowMap] at h
    | cons x xs =>
      simp only [updateRowMap] at h
      simpa using ih xs _ h

theorem updateSetMaps_eq (cols : List String) (rows : List (List Value))
    (ms : List (List (String × Value))) (h : updateSetMaps cols rows = Except.ok ms) :
    ms = rows.map (rowMap cols) := by
  induction rows generalizing ms with
  | nil =>
    simp only [updateSetMaps, pure, Except.pure, Except.ok.injEq] at h
    subst h
    rfl
  | cons r rs ih =>
    simp only [updateSetMaps, bind, Except.bind] at h
    cases h1 : updateRowMap cols r [] with
    | error e => simp [h1] at h
    | ok u =>
      cases h2 : updateSetMaps cols rs with
      | error e => simp [h1, h2] at h
      | ok us =>
        simp only [h1, h2, pure, Except.pure, Except.ok.injEq] at h
        subst h
        simp [ih us h2, rowMap, updateRowMap_eq cols r [] u h1]

theorem selectToSql_args (rngL : List (String × CondValue) → List (String × CondValue))
    (b : SelectBuilder) (herr : (selectToSql rngL b).err = none) :
    ∃ parts, renderWheres rngL b.wheres = Except.ok parts ∧
      (selectToSql rngL b).args.getD [] = (whereClause parts).2 := by
  unfold selectToSql at herr ⊢
  by_cases h1 : b.columns.length = 0
  · simp [h1, sqlFail] at herr
  · simp only [h1, if_false] at herr ⊢
    cases hr : renderWheres rngL b.wheres with
    | error e => simp [hr, sqlFail] at herr
    | ok parts => exact ⟨parts, rfl, (sqlDone_args _ _).1⟩

theorem deleteToSql_args (rngL : List (String × CondValue) → List (String × CondValue))
    (b : DeleteBuilder) (herr : (deleteToSql rngL b).err = none) :
    ∃ parts, renderWheres rngL b.wheres = Except.ok parts ∧
      (deleteToSql rngL b).args.getD [] = (whereClause parts).2 := by
  unfold deleteToSql at herr ⊢
  by_cases h1 : b.src.length = 0
  · simp [h1, sqlFail] at herr
  · simp only [h1, if_false] at herr ⊢
    cases hr : renderWheres rngL b.wheres with
    | error e => simp [hr, sqlFail] at herr
    | ok parts => exact ⟨parts, rfl, (sqlDone_args _ _).1⟩

theorem insertToSql_args (b : InsertBuilder) (herr : (insertToSql b).err = none) :
    (insertToSql b).args.getD [] = b.values.flatten := by
  unfold insertToSql at herr ⊢
  by_cases h1 : b.into.length = 0
  · simp [h1, sqlFail] at herr
  · by_cases h2 : b.values.length = 0
    · simp [h1, h2, sqlFail] at herr
    · simp only [h1, h2, if_false]
      exact (sqlDone_args _ _).1

theorem updateToSql_args (rngL : List (String × CondValue) → List (String × CondValue))
    (b : UpdateBuilder) (herr : (updateToSql rngL b).err = none) :
    ∃ parts, renderWheres rngL b.wheres = Except.ok parts ∧
      (updateToSql rngL b).args.getD []
        = (b.setMaps.map sortedEntries).flatten.map Prod.snd ++ (whereClause parts).2 := by
  unfold updateToSql at herr ⊢
  by_cases h1 : b.table.length = 0
  · simp [h1, sqlFail] at herr
  · by_cases h2 : ((b.setMaps.map sortedEntries).flatten).length = 0
    · simp [h1, h2, sqlFail] at herr
    · simp only [h1, h2, if_false] at herr ⊢
      cases hr : renderWheres rngL b.wheres with
      | error e => simp [hr, sqlFail] at herr
      | ok parts => exact ⟨parts, rfl, (sqlDone_args _ _).1⟩

/-- The arguments `ToSQL` returns along with a text are the values of the
statement in the order of their placeholders. -/
theorem ToSQL_args (st : Statement)
    (hc : ∀ c ∈ st.cmps, (c.entries.map Prod.fst).Nodup ∧
      (c.op = CmpOp.Like ∨ c.op = CmpOp.NotLike → c.entries.length ≤ 1))
    (r : SQLResult)
    (h : st.ToSQL (squirrelModel (fun l => l)) (fun l => l) = Except.ok r)
    (herr : r.err = none) : r.args.getD [] = st.argValues := by
  simp only [Statement.ToSQL, squirrelModel] at h
  by_cases ht : st.table = ""
  · simp only [ht, if_true, pure, Except.pure, Except.ok.injEq] at h
    subst h
    simp at herr
  · simp only [ht, if_false] at h
    have hwhere : ∀ ws parts, convertConditions (fun l => l) st.conditions = Except.ok ws →
        renderWheres (fun l => l) ws = Except.ok parts →
        (whereClause parts).2 = (st.cmps.map Cmp.argValues).flatten := by
      intro ws parts hw hr
      obtain ⟨i1, i2⟩ := renderWheres_args st.conditions hc ws parts hw hr
      rw [whereClause_snd parts i2, i1]
      rfl
    cases hk : st.stType with
    | UnknownStatement =>
      simp only [hk, if_true, pure, Except.pure, Except.ok.injEq] at h
      subst h
      simp at herr
    | InsertStatement =>
      simp only [hk, reduceCtorEq, if_false, pure, Except.pure, Except.ok.injEq] at h
      subst h
      rw [insertToSql_args _ herr]
      simp only [Statement.argValues, hk]
    | SelectStatement =>
      simp only [hk, reduceCtorEq, if_false, bind, Except.bind] at h
      cases hw : convertConditions (fun l => l) st.conditions with
      | error e => simp [hw] at h
      | ok ws =>
        simp only [hw, pure, Except.pure, Except.ok.injEq] at h
        subst h
        obtain ⟨parts, hr, ha⟩ := selectToSql_args _ _ herr
        rw [ha, hwhere ws parts hw hr]
        simp only [Statement.argValues, hk]
    | DeleteStatement =>
      simp only [hk, reduceCtorEq, if_false, bind, Except.bind] at h
      cases hw : convertConditions (fun l => l) st.conditions with
      | error e => simp [hw] at h
      | ok ws =>
        simp only [hw, pure, Except.pure, Except.ok.injEq] at h
        subst h
        obtain ⟨parts, hr, ha⟩ := deleteToSql_args _ _ herr
        rw [ha, hwhere ws parts hw hr]
        simp only [Statement.argValues, hk]
    | UpdateStatement =>
      simp only [hk, reduceCtorEq, if_false, bind, Except.bind] at h
      cases hm : updateSetMaps st.columns st.values with
      | error e => simp [hm] at h
      | ok ms =>
        cases hw : convertConditions (fun l => l) st.conditions with
        | error e => simp [hm, hw] at h
        | ok ws =>
          simp only [hm, hw, pure, Except.pure, Except.ok.injEq] at h
          subst h
          obtain ⟨parts, hr, ha⟩ := updateToSql_args _ _ herr
          rw [ha, hwhere ws parts hw hr, updateSetMaps_eq _ _ ms hm]
          simp only [Statement.argValues, hk]
          simp [List.map_flatten, List.map_map, Function.comp_def]

/-! ### One placeholder per argument -/

theorem countQ_append (a b : String) : countQ (a ++ b) = countQ a + countQ b := by
  simp [countQ, String.data_append, List.count_append]

theorem digitChar_ne_question (n : Nat) : Nat.digitChar (n % 10) ≠ '?' := by
  have h : ∀ m, m < 10 → Nat.digitChar m ≠ '?' := by decide
  exact h _ (Nat.mod_lt _ (by decide))

theorem toDigitsCore_no_question (fuel n : Nat) (ds : List Char) (h : ds.count '?' = 0) :
    (Nat.toDigitsCore 10 fuel n ds).count '?' = 0 := by
  induction fuel generalizing n ds with
  | zero => simpa [Nat.toDigitsCore] using h
  | succ k ih =>
    have hd : (Nat.digitChar (n % 10) :: ds).count '?' = 0 := by
      rw [List.count_cons, h]
      simp [digitChar_ne_question n]
    simp only [Nat.toDigitsCore]
    split_ifs
    · exact hd
    · exact ih _ _ hd

theorem countQ_toString (n : Nat) : countQ (toString n) = 0 := by
  show ((Nat.toDigits 10 n).asString).data.count '?' = 0
  exact toDigitsCore_no_question _ _ _ rfl

theorem countQ_strJoin (sep : String) (hsep : countQ sep = 0) (ts : List String) :
    countQ (strJoin sep ts) = (ts.map countQ).sum := by
  induction ts with
  | nil => rfl
  | cons a rest ih =>
    cases rest with
    | nil => simp [strJoin]
    | cons b rest2 =>
      simp only [strJoin, countQ_append, hsep, Nat.add_zero, List.map_cons, List.sum_cons] at ih ⊢
      rw [ih]

theorem countQ_Placeholders (n : Nat) : countQ (Placeholders n) = n := by
  unfold Placeholders
  rw [countQ_strJoin "," (by decide)]
  induction n with
  | zero => rfl
  | succ k ih =>
    simp only [List.replicate_succ, List.map_cons, List.sum_cons, ih]
    have : countQ "?" = 1 := by decide
    omega

theorem mem_sortedEntries {β : Type} (m : List (String × β)) (kv : String × β)
    (h : kv ∈ sortedEntries m) : kv.1 ∈ m.map Prod.fst := by
  simp only [sortedEntries, List.mem_filterMap, Option.map_eq_some'] at h
  obtain ⟨k, hk, v, _, rfl⟩ := h
  exact (List.perm_insertionSort _ _).mem_iff.mp hk

theorem eqExpr_balanced (neg : Bool) (k : String) (v : CondValue) (hk : countQ k = 0) :
    countQ (eqExpr neg k v).1 = (eqExpr neg k v).2.length := by
  have h1 : countQ " NOT IN (" = 0 := by decide
  have h2 : countQ " IN (" = 0 := by decide
  have h3 : countQ ")" = 0 := by decide
  have h4 : countQ " IS NOT NULL" = 0 := by decide
  have h5 : countQ " IS NULL" = 0 := by decide
  have h6 : countQ " <> ?" = 1 := by decide
  have h7 : countQ " = ?" = 1 := by decide
  have h8 : countQ sqlTrue = 0 := by decide
  have h9 : countQ sqlFalse = 0 := by decide
  cases v with
  | seq vs =>
    simp only [eqExpr]
    by_cases hl : vs.length = 0
    · cases neg <;> simp [hl, h8, h9]
    · cases neg <;>
        simp [hl, countQ_append, hk, h1, h2, h3, countQ_Placeholders]
  | scalar x =>
    simp only [eqExpr]
    by_cases hx : sqDeref x = Value.nil
    · cases neg <;> simp [hx, countQ_append, hk, h4, h5]
    · cases neg <;> simp [hx, countQ_append, hk, h6, h7]

theorem ltExpr_balanced (opr : String) (hopr : countQ opr = 0) (k : String) (v : CondValue)
    (hk : countQ k = 0) (p : String × List Value) (h : ltExpr opr k v = Except.ok p) :
    countQ p.1 = p.2.length := by
  have h1 : countQ " " = 0 := by decide
  have h2 : countQ " ?" = 1 := by decide
  cases v with
  | seq vs => simp [ltExpr] at h
  | scalar x =>
    simp only [ltExpr] at h
    by_cases hx : x = Value.nil
    · simp [hx] at h
    · simp only [hx, if_false, Except.ok.injEq] at h
      subst h
      simp [countQ_append, hk, hopr, h1, h2]

theorem likeExpr_balanced (opr : String) (hopr : countQ opr = 0) (k : String) (v : CondValue)
    (hk : countQ k = 0) (p : String × List Value) (h : likeExpr opr k v = Except.ok p) :
    countQ p.1 = p.2.length := by
  have h1 : countQ " " = 0 := by decide
  have h2 : countQ " ?" = 1 := by decide
  cases v with
  | seq vs => simp [likeExpr] at h
  | scalar x =>
    simp only [likeExpr] at h
    by_cases hx : x = Value.nil
    · simp [hx] at h
    · simp only [hx, if_false, Except.ok.injEq] at h
      subst h
      simp [countQ_append, hk, hopr, h1, h2]

theorem renderEntries_balanced (f : String → CondValue → Except String (String × List Value))
    (l : List (String × CondValue))
    (hf : ∀ kv ∈ l, ∀ p, f kv.1 kv.2 = Except.ok p → countQ p.1 = p.2.length)
    (parts : List (String × List Value)) (h : renderEntries f l = Except.ok parts) :
    ∀ p ∈ parts, countQ p.1 = p.2.length := by
  induction l generalizing parts with
  | nil =>
    simp only [renderEntries, Except.ok.injEq] at h
    subst h
    simp
  | cons kv rest ih =>
    simp only [renderEntries] at h
    cases h1 : f kv.1 kv.2 with
    | error e => simp [h1] at h
    | ok p =>
      cases h2 : renderEntries f rest with
      | error e => simp [h1, h2] at h
      | ok ps =>
        simp only [h1, h2, Except.ok.injEq] at h
        subst h
        intro q hq
        rcases List.mem_cons.mp hq with rfl | hq
        · exact hf kv (List.mem_cons_self _ _) _ h1
        · exact ih (fun kv2 h3 => hf kv2 (List.mem_cons_of_mem _ h3)) ps h2 q hq

theorem sum_balanced (parts : List (String × List Value))
    (h : ∀ p ∈ parts, countQ p.1 = p.2.length) :
    ((parts.map Prod.fst).map countQ).sum = (parts.map Prod.snd).flatten.length := by
  induction parts with
  | nil => rfl
  | cons p rest ih =>
    simp only [List.map_cons, List.sum_cons, List.flatten_cons, List.length_append,
      ih (fun q hq => h q (List.mem_cons_of_mem _ hq)), h p (List.mem_cons_self _ _)]

theorem joinExprs_balanced (parts : List (String × List Value))
    (h : ∀ p ∈ parts, countQ p.1 = p.2.length) :
    countQ (joinExprs parts).1 = (joinExprs parts).2.length := by
  simp only [joinExprs]
  rw [countQ_strJoin " AND " (by decide), sum_balanced parts h]

theorem cmpToSql_balanced (op : CmpOp) (m : List (String × CondValue))
    (hm : ∀ kv ∈ m, countQ kv.1 = 0) (t : String) (a : List Value)
    (h : cmpToSql (fun l => l) op m = Except.ok (t, a)) : countQ t = a.length := by
  have hs : ∀ kv ∈ sortedEntries m, countQ kv.1 = 0 := by
    intro kv hkv
    obtain ⟨x, hx, hxk⟩ := List.mem_map.mp (mem_sortedEntries m kv hkv)
    rw [← hxk]
    exact hm x hx
  have hmap : ∀ (x : Except String (List (String × List Value))),
      (∀ parts, x = Except.ok parts → ∀ p ∈ parts, countQ p.1 = p.2.length) →
      x.map joinExprs = Except.ok (t, a) → countQ t = a.length := by
    intro x hx hj
    cases x with
    | error e => simp [Except.map] at hj
    | ok parts =>
      simp only [Except.map, Except.ok.injEq] at hj
      have := joinExprs_balanced parts (hx parts rfl)
      rw [hj] at this
      exact this
  have heq : ∀ neg, joinExprs ((sortedEntries m).map (fun kv => eqExpr neg kv.1 kv.2)) = (t, a) →
      countQ t = a.length := by
    intro neg hj
    have := joinExprs_balanced ((sortedEntries m).map (fun kv => eqExpr neg kv.1 kv.2))
      (by
        intro p hp
        obtain ⟨kv, hkv, rfl⟩ := List.mem_map.mp hp
        exact eqExpr_balanced neg kv.1 kv.2 (hs kv hkv))
    rw [hj] at this
    exact this
  have hT : countQ sqlTrue = 0 := by decide
  cases op with
  | Eq =>
    simp only [cmpToSql] at h
    by_cases hl : m.length = 0
    · simp only [hl, if_true, Except.ok.injEq, Prod.mk.injEq] at h
      simp [← h.1, ← h.2, hT]
    · simp only [hl, if_false, Except.ok.injEq] at h
      exact heq false h
  | Ne =>
    simp only [cmpToSql] at h
    by_cases hl : m.length = 0
    · simp only [hl, if_true, Except.ok.injEq, Prod.mk.injEq] at h
      simp [← h.1, ← h.2, hT]
    · simp only [hl, if_false, Except.ok.injEq] at h
      exact heq true h
  | Like =>
    simp only [cmpToSql] at h
    exact hmap _ (fun parts hp => renderEntries_balanced _ _
      (fun kv hkv p hk => likeExpr_balanced _ (by decide) _ _ (hm kv hkv) p hk) parts hp) h
  | NotLike =>
    simp only [cmpToSql] at h
    exact hmap _ (fun parts hp => renderEntries_balanced _ _
      (fun kv hkv p hk => likeExpr_balanced _ (by decide) _ _ (hm kv hkv) p hk) parts hp) h
  | GT =>
    simp only [cmpToSql] at h
    exact hmap _ (fun parts hp => renderEntries_balanced _ _
      (fun kv hkv p hk => ltExpr_balanced _ (by decide) _ _ (hs kv hkv) p hk) parts hp) h
  | GTE =>
    simp only [cmpToSql] at h
    exact hmap _ (fun parts hp => renderEntries_balanced _ _
      (fun kv hkv p hk => ltExpr_balanced _ (by decide) _ _ (hs kv hkv) p hk) parts hp) h
  | LT =>
    simp only [cmpToSql] at h
    exact hmap _ (fun parts hp => renderEntries_balanced _ _
      (fun kv hkv p hk => ltExpr_balanced _ (by decide) _ _ (hs kv hkv) p hk) parts hp) h
  | LTE =>
    simp only [cmpToSql] at h
    exact hmap _ (fun parts hp => renderEntries_balanced _ _
      (fun kv hkv p hk => ltExpr_balanced _ (by decide) _ _ (hs kv hkv) p hk) parts hp) h

theorem foldl_mapSet_keys_subset {β : Type} (l acc : List (String × β)) (k : String)
    (h : k ∈ (l.foldl (fun e kv => mapSet kv.1 kv.2 e) acc).map Prod.fst) :
    k ∈ acc.map Prod.fst ++ l.map Prod.fst := by
  induction l generalizing acc with
  | nil => simpa using h
  | cons hd tl ih =>
    have h2 := ih _ h
    rw [mapSet_keys] at h2
    simp only [List.mem_append, List.map_cons, List.mem_cons] at h2 ⊢
    split at h2
    · rcases h2 with h3 | h3
      · exact Or.inl h3
      · exact Or.inr (Or.inr h3)
    · simp only [List.mem_append, List.mem_singleton] at h2
      rcases h2 with (h3 | h3) | h3
      · exact Or.inl h3
      · exact Or.inr (Or.inl h3)
      · exact Or.inr (Or.inr h3)

theorem renderConj_balanced (ps : List (CmpOp × List (String × CondValue)))
    (hm : ∀ p ∈ ps, ∀ kv ∈ p.2, countQ kv.1 = 0) (parts : List (String × List Value))
    (h : renderConj (fun l => l) ps = Except.ok parts) :
    ∀ p ∈ parts, countQ p.1 = p.2.length := by
  induction ps generalizing parts with
  | nil =>
    simp only [renderConj, Except.ok.injEq] at h
    subst h
    simp
  | cons p rest ih =>
    simp only [renderConj] at h
    cases hx : cmpToSql (fun l => l) p.1 p.2 with
    | error e => simp [hx] at h
    | ok x =>
      cases hxs : renderConj (fun l => l) rest with
      | error e => simp [hx, hxs] at h
      | ok xs =>
        simp only [hx, hxs, Except.ok.injEq] at h
        subst h
        intro q hq
        rcases List.mem_cons.mp hq with rfl | hq
        · exact cmpToSql_balanced p.1 p.2 (hm p (List.mem_cons_self _ _)) q.1 q.2 hx
        · exact ih (fun p2 h2 => hm p2 (List.mem_cons_of_mem _ h2)) xs hxs q hq

theorem conjJoin_balanced (sep dflt : String) (hsep : countQ sep = 0) (hd : countQ dflt = 0)
    (n : Nat) (parts : List (String × List Value))
    (h : ∀ p ∈ parts, countQ p.1 = p.2.length) :
    countQ (conjJoin sep dflt n parts).1 = (conjJoin sep dflt n parts).2.length := by
  have h1 : countQ "(" = 0 := by decide
  have h2 : countQ ")" = 0 := by decide
  have h3 : countQ "" = 0 := by decide
  unfold conjJoin
  by_cases hn : n = 0
  · simp [hn, hd]
  · simp only [hn, if_false]
    have hk : ∀ p ∈ parts.filter (fun p => decide (p.1 ≠ "")), countQ p.1 = p.2.length :=
      fun p hp => h p (List.mem_of_mem_filter hp)
    by_cases hl : (parts.filter (fun p => decide (p.1 ≠ ""))).length > 0
    · simp only [hl, if_true, countQ_append, h1, h2, countQ_strJoin sep hsep,
        sum_balanced _ hk, Nat.zero_add, Nat.add_zero]
    · have : parts.filter (fun p => decide (p.1 ≠ "")) = [] :=
        List.length_eq_zero.mp (by omega)
      simp only [this, List.length_nil, gt_iff_lt, Nat.lt_irrefl, if_false, h3, List.map_nil,
        List.flatten_nil]

theorem predToSql_balanced (p : SqPred)
    (hm : ∀ kv ∈ p.entries, countQ kv.1 = 0)
    (t : String) (a : List Value) (h : predToSql (fun l => l) p = Except.ok (t, a)) :
    countQ t = a.length := by
  have hconj : ∀ (ps : List (CmpOp × List (String × CondValue))) (sep dflt : String),
      countQ sep = 0 → countQ dflt = 0 → (∀ q ∈ ps, ∀ kv ∈ q.2, countQ kv.1 = 0) →
      (renderConj (fun l => l) ps).map (conjJoin sep dflt ps.length) = Except.ok (t, a) →
      countQ t = a.length := by
    intro ps sep dflt hsep hd hps hr
    cases hx : renderConj (fun l => l) ps with
    | error e => simp [hx, Except.map] at hr
    | ok parts =>
      simp only [hx, Except.map, Except.ok.injEq] at hr
      have := conjJoin_balanced sep dflt hsep hd ps.length parts
        (renderConj_balanced ps hps parts hx)
      rw [hr] at this
      exact this
  have hflat : ∀ (ps : List (CmpOp × List (String × CondValue))),
      (∀ kv ∈ (ps.map Prod.snd).flatten, countQ kv.1 = 0) →
      ∀ q ∈ ps, ∀ kv ∈ q.2, countQ kv.1 = 0 := by
    intro ps hps q hq kv hkv
    exact hps kv (List.mem_flatten.mpr ⟨q.2, List.mem_map_of_mem Prod.snd hq, hkv⟩)
  cases p with
  | cmp op m => exact cmpToSql_balanced op m hm t a h
  | and ps => exact hconj ps _ _ (by decide) (by decide) (hflat ps hm) h
  | or ps => exact hconj ps _ _ (by decide) (by decide) (hflat ps hm) h

theorem ConvertCondition_keys (e : Expr) (p : SqPred)
    (hk : ∀ c ∈ e.cmps, ∀ kv ∈ c.entries, countQ kv.1 = 0)
    (hp : ConvertCondition (fun l => l) e = Except.ok p) :
    ∀ kv ∈ p.entries, countQ kv.1 = 0 := by
  have hone : ∀ (c : Cmp), (∀ kv ∈ c.entries, countQ kv.1 = 0) →
      ∀ kv ∈ (c.ToSqlizer (fun l => l)).2, countQ kv.1 = 0 := by
    intro c hc kv hkv
    have hkeys : kv.1 ∈ c.entries.map Prod.fst := by
      have := foldl_mapSet_keys_subset c.entries [] kv.1 (List.mem_map_of_mem Prod.fst hkv)
      simpa using this
    obtain ⟨x, hx, hxk⟩ := List.mem_map.mp hkeys
    rw [← hxk]
    exact hc x hx
  cases e with
  | cmp c =>
    simp only [ConvertCondition, pure, Except.pure, Except.ok.injEq] at hp
    subst hp
    exact hone c (hk c (by simp [Expr.cmps]))
  | AND cs =>
    simp only [ConvertCondition, pure, Except.pure, Except.ok.injEq] at hp
    subst hp
    intro kv hkv
    simp only [SqPred.entries, List.map_map, List.mem_flatten, List.mem_map,
      Function.comp_apply] at hkv
    obtain ⟨l, ⟨c, hc, rfl⟩, hkv⟩ := hkv
    exact hone c (hk c hc) kv hkv
  | OR cs =>
    simp only [ConvertCondition, pure, Except.pure, Except.ok.injEq] at hp
    subst hp
    intro kv hkv
    simp only [SqPred.entries, List.map_map, List.mem_flatten, List.mem_map,
      Function.comp_apply] at hkv
    obtain ⟨l, ⟨c, hc, rfl⟩, hkv⟩ := hkv
    exact hone c (hk c hc) kv hkv
  | unsupported s => simp [ConvertCondition] at hp

theorem renderWheres_balanced (cs : List Condition)
    (hk : ∀ c ∈ (cs.map (fun c => c.Expr.cmps)).flatten, ∀ kv ∈ c.entries, countQ kv.1 = 0)
    (ws : List SqPred) (parts : List (String × List Value))
    (hw : convertConditions (fun l => l) cs = Except.ok ws)
    (h : renderWheres (fun l => l) ws = Except.ok parts) :
    ∀ p ∈ parts, countQ p.1 = p.2.length := by
  induction cs generalizing ws parts with
  | nil =>
    simp only [convertConditions, pure, Except.pure, Except.ok.injEq] at hw
    subst hw
    simp only [renderWheres, Except.ok.injEq] at h
    subst h
    simp
  | cons c rest ih =>
    simp only [convertConditions, bind, Except.bind] at hw
    cases hp : ConvertCondition (fun l => l) c.Expr with
    | error e => simp [hp] at hw
    | ok p =>
      cases hps : convertConditions (fun l => l) rest with
      | error e => simp [hp, hps] at hw
      | ok ps =>
        simp only [hp, hps, pure, Except.pure, Except.ok.injEq] at hw
        subst hw
        simp only [renderWheres] at h
        cases hx : predToSql (fun l => l) p with
        | error e => simp [hx] at h
        | ok x =>
          cases hxs : renderWheres (fun l => l) ps with
          | error e => simp [hx, hxs] at h
          | ok xs =>
            simp only [hx, hxs, Except.ok.injEq] at h
            subst h
            intro q hq
            rcases List.mem_cons.mp hq with rfl | hq
            · exact predToSql_balanced p (ConvertCondition_keys c.Expr p
                (fun y hy => hk y (by
                  simp only [List.map_cons, List.flatten_cons, List.mem_append]
                  exact Or.inl hy)) hp) q.1 q.2 hx
            · exact ih (fun y hy => hk y (by
                simp only [List.map_cons, List.flatten_cons, List.mem_append]
                exact Or.inr hy)) ps xs hps hxs q hq

theorem appendToSql_balanced (sep : String) (hsep : countQ sep = 0)
    (parts : List (String × List Value)) (i : Nat) (acc : String × List Value)
    (h : ∀ p ∈ parts, countQ p.1 = p.2.length) (hacc : countQ acc.1 = acc.2.length) :
    countQ (appendToSql sep parts i acc).1 = (appendToSql sep parts i acc).2.length := by
  induction parts generalizing i acc with
  | nil => simpa [appendToSql] using hacc
  | cons p rest ih =>
    have hr := fun q hq => h q (List.mem_cons_of_mem _ hq)
    have hp := h p (List.mem_cons_self _ _)
    simp only [appendToSql]
    split
    · exact ih _ _ hr hacc
    · apply ih _ _ hr
      have h0 : countQ "" = 0 := by decide
      by_cases hi : i > 0
      · simp [hi, countQ_append, hsep, hacc, hp]
      · simp [hi, countQ_append, h0, hacc, hp]

theorem whereClause_balanced (parts : List (String × List Value))
    (h : ∀ p ∈ parts, countQ p.1 = p.2.length) :
    countQ (whereClause parts).1 = (whereClause parts).2.length := by
  have h1 : countQ " WHERE " = 0 := by decide
  unfold whereClause
  by_cases hl : parts.length > 0
  · simp only [hl, if_true, countQ_append, h1, Nat.zero_add]
    exact appendToSql_balanced " AND " (by decide) parts 0 ("", []) h (by decide)
  · simp only [hl, if_false]
    decide

theorem names_no_question (sep : String) (hsep : countQ sep = 0) (names : List String)
    (h : ∀ s ∈ names, countQ s = 0) :
    countQ (appendToSql sep (names.map (fun c => (c, []))) 0 ("", [])).1 = 0 := by
  have := appendToSql_balanced sep hsep (names.map (fun c => ((c, []) : String × List Value)))
    0 ("", []) (by
      intro p hp
      obtain ⟨c, hc, rfl⟩ := List.mem_map.mp hp
      simpa using h c hc) (by decide)
  rw [this, appendToSql_snd _ _ _ _ (by
    intro p hp _
    obtain ⟨c, hc, rfl⟩ := List.mem_map.mp hp
    rfl)]
  simp [Function.comp_def]

theorem strJoin_no_question (sep : String) (hsep : countQ sep = 0) (names : List String)
    (h : ∀ s ∈ names, countQ s = 0) : countQ (strJoin sep names) = 0 := by
  rw [countQ_strJoin sep hsep]
  apply List.sum_eq_zero
  intro x hx
  obtain ⟨s, hs, rfl⟩ := List.mem_map.mp hx
  exact h s hs

theorem limitClause_no_question (limit : Option Nat) : countQ (limitClause limit) = 0 := by
  have h1 : countQ " LIMIT " = 0 := by decide
  cases limit with
  | none => decide
  | some n => simp [limitClause, countQ_append, h1, countQ_toString]

theorem offsetClause_no_question (offset : Option Nat) : countQ (offsetClause offset) = 0 := by
  have h1 : countQ " OFFSET " = 0 := by decide
  cases offset with
  | none => decide
  | some n => simp [offsetClause, countQ_append, h1, countQ_toString]

theorem sqlDone_balanced (sql : String) (args : List Value) (h : countQ sql = args.length) :
    countQ (sqlDone sql args).sql = ((sqlDone sql args).args.getD []).length := by
  rw [(sqlDone_args sql args).1]
  exact h

theorem selectToSql_balanced (rngL : List (String × CondValue) → List (String × CondValue))
    (b : SelectBuilder) (hcols : ∀ s ∈ b.columns, countQ s = 0) (hsrc : countQ b.src = 0)
    (hord : ∀ s ∈ b.orderBys, countQ s = 0)
    (hparts : ∀ parts, renderWheres rngL b.wheres = Except.ok parts →
      ∀ p ∈ parts, countQ p.1 = p.2.length)
    (herr : (selectToSql rngL b).err = none) :
    countQ (selectToSql rngL b).sql = ((selectToSql rngL b).args.getD []).length := by
  have h1 : countQ "SELECT " = 0 := by decide
  have h2 : countQ " FROM " = 0 := by decide
  have h3 : countQ " ORDER BY " = 0 := by decide
  have h4 : countQ "" = 0 := by decide
  unfold selectToSql at herr ⊢
  by_cases hc : b.columns.length = 0
  · simp [hc, sqlFail] at herr
  · simp only [hc, if_false] at herr ⊢
    cases hr : renderWheres rngL b.wheres with
    | error e => simp [hr, sqlFail] at herr
    | ok parts =>
      simp only []
      apply sqlDone_balanced
      have ho : countQ (if b.orderBys.length > 0 then
          " ORDER BY " ++ (appendToSql ", " (b.orderBys.map (fun c => (c, []))) 0 ("", [])).1
          else "") = 0 := by
        split
        · rw [countQ_append, h3, names_no_question ", " (by decide) _ hord]
        · exact h4
      simp only [countQ_append, h1, h2, hsrc, ho, names_no_question ", " (by decide) _ hcols,
        limitClause_no_question, offsetClause_no_question, Nat.zero_add, Nat.add_zero]
      exact whereClause_balanced parts (hparts parts hr)

theorem deleteToSql_balanced (rngL : List (String × CondValue) → List (String × CondValue))
    (b : DeleteBuilder) (hsrc : countQ b.src = 0)
    (hord : ∀ s ∈ b.orderBys, countQ s = 0)
    (hparts : ∀ parts, renderWheres rngL b.wheres = Except.ok parts →
      ∀ p ∈ parts, countQ p.1 = p.2.length)
    (herr : (deleteToSql rngL b).err = none) :
    countQ (deleteToSql rngL b).sql = ((deleteToSql rngL b).args.getD []).length := by
  have h1 : countQ "DELETE FROM " = 0 := by decide
  have h3 : countQ " ORDER BY " = 0 := by decide
  have h4 : countQ "" = 0 := by decide
  unfold deleteToSql at herr ⊢
  by_cases hc : b.src.length = 0
  · simp [hc, sqlFail] at herr
  · simp only [hc, if_false] at herr ⊢
    cases hr : renderWheres rngL b.wheres with
    | error e => simp [hr, sqlFail] at herr
    | ok parts =>
      simp only []
      apply sqlDone_balanced
      have ho : countQ (if b.orderBys.length > 0 then
          " ORDER BY " ++ strJoin ", " b.orderBys else "") = 0 := by
        split
        · rw [countQ_append, h3, strJoin_no_question ", " (by decide) _ hord]
        · exact h4
      simp only [countQ_append, h1, hsrc, ho,
        limitClause_no_question, offsetClause_no_question, Nat.zero_add, Nat.add_zero]
      exact whereClause_balanced parts (hparts parts hr)

theorem insertToSql_balanced (b : InsertBuilder) (hcols : ∀ s ∈ b.columns, countQ s = 0)
    (hinto : countQ b.into = 0) (herr : (insertToSql b).err = none) :
    countQ (insertToSql b).sql = ((insertToSql b).args.getD []).length := by
  have h1 : countQ "INSERT INTO " = 0 := by decide
  have h2 : countQ " " = 0 := by decide
  have h3 : countQ "VALUES " = 0 := by decide
  have h4 : countQ "" = 0 := by decide
  have h5 : countQ "(" = 0 := by decide
  have h6 : countQ ") " = 0 := by decide
  have h7 : countQ ")" = 0 := by decide
  have h8 : countQ "?" = 1 := by decide
  unfold insertToSql at herr ⊢
  by_cases hi : b.into.length = 0
  · simp [hi, sqlFail] at herr
  · by_cases hv : b.values.length = 0
    · simp [hi, hv, sqlFail] at herr
    · simp only [hi, hv, if_false]
      apply sqlDone_balanced
      have hcl : countQ (if b.columns.length > 0 then "(" ++ strJoin "," b.columns ++ ") "
          else "") = 0 := by
        split
        · rw [countQ_append, countQ_append, h5, h6,
            strJoin_no_question "," (by decide) _ hcols]
        · exact h4
      have hrow : ∀ row : List Value,
          countQ ("(" ++ strJoin "," (row.map (fun _ => "?")) ++ ")") = row.length := by
        intro row
        rw [countQ_append, countQ_append, h5, h7, countQ_strJoin "," (by decide)]
        simp only [List.map_map, Nat.zero_add, Nat.add_zero]
        induction row with
        | nil => rfl
        | cons x xs ih =>
          simp only [List.map_cons, List.sum_cons, Function.comp_apply, h8, ih,
            List.length_cons]
          omega
      simp only [countQ_append, h1, h2, h3, hinto, hcl, Nat.zero_add, Nat.add_zero]
      rw [countQ_strJoin "," (by decide), List.map_map]
      generalize b.values = rows
      induction rows with
      | nil => rfl
      | cons r rs ih =>
        simp only [List.map_cons, List.sum_cons, Function.comp_apply, hrow, ih,
          List.flatten_cons, List.length_append]

theorem updateToSql_balanced (rngL : List (String × CondValue) → List (String × CondValue))
    (b : UpdateBuilder) (htab : countQ b.table = 0)
    (hsets : ∀ m ∈ b.setMaps, ∀ kv ∈ m, countQ kv.1 = 0)
    (hord : ∀ s ∈ b.orderBys, countQ s = 0)
    (hparts : ∀ parts, renderWheres rngL b.wheres = Except.ok parts →
      ∀ p ∈ parts, countQ p.1 = p.2.length)
    (herr : (updateToSql rngL b).err = none) :
    countQ (updateToSql rngL b).sql = ((updateToSql rngL b).args.getD []).length := by
  have h1 : countQ "UPDATE " = 0 := by decide
  have h2 : countQ " SET " = 0 := by decide
  have h3 : countQ " ORDER BY " = 0 := by decide
  have h4 : countQ "" = 0 := by decide
  have h5 : countQ " = ?" = 1 := by decide
  unfold updateToSql at herr ⊢
  by_cases hi : b.table.length = 0
  · simp [hi, sqlFail] at herr
  · by_cases hv : ((b.setMaps.map sortedEntries).flatten).length = 0
    · simp [hi, hv, sqlFail] at herr
    · simp only [hi, hv, if_false] at herr ⊢
      cases hr : renderWheres rngL b.wheres with
      | error e => simp [hr, sqlFail] at herr
      | ok parts =>
        simp only []
        apply sqlDone_balanced
        have ho : countQ (if b.orderBys.length > 0 then
            " ORDER BY " ++ strJoin ", " b.orderBys else "") = 0 := by
          split
          · rw [countQ_append, h3, strJoin_no_question ", " (by decide) _ hord]
          · exact h4
        have hcl : ∀ kv ∈ (b.setMaps.map sortedEntries).flatten, countQ kv.1 = 0 := by
          intro kv hkv
          obtain ⟨l, hl, hkv2⟩ := List.mem_flatten.mp hkv
          obtain ⟨m, hm, rfl⟩ := List.mem_map.mp hl
          obtain ⟨x, hx, hxk⟩ := List.mem_map.mp (mem_sortedEntries m kv hkv2)
          rw [← hxk]
          exact hsets m hm x hx
        have hset : ∀ (cl : List (String × Value)), (∀ kv ∈ cl, countQ kv.1 = 0) →
            countQ (strJoin ", " (cl.map (fun kv => kv.1 ++ " = ?"))) = cl.length := by
          intro cl hcl2
          rw [countQ_strJoin ", " (by decide), List.map_map]
          induction cl with
          | nil => rfl
          | cons kv rest ih =>
            simp only [List.map_cons, List.sum_cons, Function.comp_apply, countQ_append,
              hcl2 kv (List.mem_cons_self _ _), h5,
              ih (fun kv2 h2 => hcl2 kv2 (List.mem_cons_of_mem _ h2)), List.length_cons]
            omega
        simp only [countQ_append, h1, h2, htab, ho, hset _ hcl,
          limitClause_no_question, offsetClause_no_question, Nat.zero_add, Nat.add_zero,
          List.length_append, List.length_map]
        rw [whereClause_balanced parts (hparts parts hr)]

theorem rowMap_keys (cols : List String) (row : List Value) (kv : String × Value)
    (h : kv ∈ rowMap cols row) : kv.1 ∈ cols := by
  have h2 := foldl_mapSet_keys_subset (cols.zip row) [] kv.1 (List.mem_map_of_mem Prod.fst h)
  simp only [List.map_nil, List.nil_append, List.mem_map] at h2
  obtain ⟨x, hx, hxk⟩ := h2
  rw [← hxk]
  exact (List.of_mem_zip hx).1

/-- The text `ToSQL` returns has as many placeholders as there are arguments,
when no identifier of the statement contains a question mark. -/
theorem ToSQL_placeholders (st : Statement) (hid : ∀ s ∈ st.identifiers, countQ s = 0)
    (r : SQLResult)
    (h : st.ToSQL (squirrelModel (fun l => l)) (fun l => l) = Except.ok r)
    (herr : r.err = none) : countQ r.sql = (r.args.getD []).length := by
  have htab : countQ st.table = 0 := hid _ (List.mem_cons_self _ _)
  have hcols : ∀ s ∈ st.columns, countQ s = 0 := fun s hs =>
    hid s (List.mem_cons_of_mem _ (List.mem_append_left _ (List.mem_append_left _ hs)))
  have hord : ∀ s ∈ st.orderBys, countQ s = 0 := fun s hs =>
    hid s (List.mem_cons_of_mem _ (List.mem_append_left _ (List.mem_append_right _ hs)))
  have hkeys : ∀ c ∈ (st.conditions.map (fun c => c.Expr.cmps)).flatten,
      ∀ kv ∈ c.entries, countQ kv.1 = 0 := by
    intro c hc kv hkv
    apply hid
    apply List.mem_cons_of_mem
    apply List.mem_append_right
    exact List.mem_flatten.mpr ⟨_, List.mem_map_of_mem _ hc, List.mem_map_of_mem Prod.fst hkv⟩
  have hcols2 : ∀ s ∈ (if st.columns.length > 0 then st.columns else ["*"]), countQ s = 0 := by
    intro s hs
    split at hs
    · exact hcols s hs
    · simp only [List.mem_singleton] at hs
      subst hs
      decide
  have hord2 : ∀ s ∈ (if st.orderBys.length > 0 then st.orderBys else []), countQ s = 0 := by
    intro s hs
    split at hs
    · exact hord s hs
    · simp at hs
  simp only [Statement.ToSQL, squirrelModel] at h
  by_cases ht : st.table = ""
  · simp only [ht, if_true, pure, Except.pure, Except.ok.injEq] at h
    subst h
    simp at herr
  · simp only [ht, if_false] at h
    cases hk : st.stType with
    | UnknownStatement =>
      simp only [hk, if_true, pure, Except.pure, Except.ok.injEq] at h
      subst h
      simp at herr
    | InsertStatement =>
      simp only [hk, reduceCtorEq, if_false, pure, Except.pure, Except.ok.injEq] at h
      subst h
      exact insertToSql_balanced _ hcols htab herr
    | SelectStatement =>
      simp only [hk, reduceCtorEq, if_false, bind, Except.bind] at h
      cases hw : convertConditions (fun l => l) st.conditions with
      | error e => simp [hw] at h
      | ok ws =>
        simp only [hw, pure, Except.pure, Except.ok.injEq] at h
        subst h
        exact selectToSql_balanced _ _ hcols2 htab hord2
          (fun parts hr => renderWheres_balanced st.conditions hkeys ws parts hw hr) herr
    | DeleteStatement =>
      simp only [hk, reduceCtorEq, if_false, bind, Except.bind] at h
      cases hw : convertConditions (fun l => l) st.conditions with
      | error e => simp [hw] at h
      | ok ws =>
        simp only [hw, pure, Except.pure, Except.ok.injEq] at h
        subst h
        exact deleteToSql_balanced _ _ htab hord2
          (fun parts hr => renderWheres_balanced st.conditions hkeys ws parts hw hr) herr
    | UpdateStatement =>
      simp only [hk, reduceCtorEq, if_false, bind, Except.bind] at h
      cases hm : updateSetMaps st.columns st.values with
      | error e => simp [hm] at h
      | ok ms =>
        cases hw : convertConditions (fun l => l) st.conditions with
        | error e => simp [hm, hw] at h
        | ok ws =>
          simp only [hm, hw, pure, Except.pure, Except.ok.injEq] at h
          subst h
          refine updateToSql_balanced _ _ htab ?_ hord2
            (fun parts hr => renderWheres_balanced st.conditions hkeys ws parts hw hr) herr
          intro m hmm kv hkv
          simp only [updateSetMaps_eq _ _ ms hm, List.mem_map] at hmm
          obtain ⟨row, _, rfl⟩ := hmm
          exact hcols _ (rowMap_keys _ _ kv hkv)

/-! ### The SQL text and the values -/

theorem Expr_cmps_blot (e : Expr) : e.blot.cmps = e.cmps.map Cmp.blot := by
  cases e <;> rfl

theorem Statement_cmps_blot (st : Statement) : st.blot.cmps = st.cmps.map Cmp.blot := by
  simp only [Statement.cmps, Statement.blot, List.map_map, List.map_flatten]
  congr 1
  apply List.map_congr_left
  intro c _
  exact Expr_cmps_blot c.Expr

theorem Cmp_blot_shape (c : Cmp) :
    c.blot.op = c.op ∧ c.blot.entries.map Prod.fst = c.entries.map Prod.fst ∧
      c.blot.entries.length = c.entries.length := by
  refine ⟨rfl, ?_, ?_⟩
  · simp [Cmp.blot, blotEntries, List.map_map, Function.comp_def]
  · simp [Cmp.blot, blotEntries]

/-- Statements with the same blot have condition maps of the same shape. -/
theorem cmps_shape_of_blot (st st2 : Statement) (hb : st.blot = st2.blot)
    (hc : ∀ c ∈ st.cmps, (c.entries.map Prod.fst).Nodup ∧
      (c.op = CmpOp.Like ∨ c.op = CmpOp.NotLike → c.entries.length ≤ 1)) :
    ∀ c ∈ st2.cmps, (c.entries.map Prod.fst).Nodup ∧
      (c.op = CmpOp.Like ∨ c.op = CmpOp.NotLike → c.entries.length ≤ 1) := by
  intro c hcm
  have h1 : c.blot ∈ st2.blot.cmps := by
    rw [Statement_cmps_blot]
    exact List.mem_map_of_mem _ hcm
  rw [← hb, Statement_cmps_blot] at h1
  obtain ⟨c1, hc1, heq⟩ := List.mem_map.mp h1
  obtain ⟨a1, a2, a3⟩ := Cmp_blot_shape c
  obtain ⟨b1, b2, b3⟩ := Cmp_blot_shape c1
  have hP := hc c1 hc1
  rw [heq] at b1 b2 b3
  rw [← a2, b2, ← a1, b1, ← a3, b3]
  exact hP

/-- C18 (amended): two statements that are identical except for the values in
their conditions (non-nil scalars, elements of sequences) and in their value
rows render the same SQL text and the same error, or panic alike, whatever the
orders in which the maps are ranged over in the two calls, provided every
condition map has distinct keys and every `Like` and `NotLike` map has at most
one key; the arguments returned along with a text are then the values of the
statement in the order of their placeholders, and the text holds one
placeholder per argument when no identifier contains a question mark.  Without
that proviso the two texts are still the same whenever both calls range over
the maps in the same orders and these orders do not look at the values: the
text depends on the order of the keys, never on a value. -/
theorem ToSQL_text_independent_of_values
    (rng1 rngL1 rng2 rngL2 : List (String × CondValue) → List (String × CondValue))
    (st st2 : Statement)
    (h1 : ∀ l, (rng1 l).Perm l) (hL1 : ∀ l, (rngL1 l).Perm l)
    (h2 : ∀ l, (rng2 l).Perm l) (hL2 : ∀ l, (rngL2 l).Perm l)
    (hb : st.blot = st2.blot) :
    ((∀ c ∈ st.cmps, (c.entries.map Prod.fst).Nodup ∧
        (c.op = CmpOp.Like ∨ c.op = CmpOp.NotLike → c.entries.length ≤ 1)) →
      (st.ToSQL (squirrelModel rngL1) rng1).map SQLResult.text
        = (st2.ToSQL (squirrelModel rngL2) rng2).map SQLResult.text ∧
      (∀ r, st.ToSQL (squirrelModel rngL1) rng1 = Except.ok r → r.err = none →
        r.args.getD [] = st.argValues ∧
        ((∀ s ∈ st.identifiers, countQ s = 0) → countQ r.sql = st.argValues.length))) ∧
    (∀ rng rngL : List (String × CondValue) → List (String × CondValue),
      (∀ l, rng (blotEntries l) = blotEntries (rng l)) →
      (∀ l, rngL (blotEntries l) = blotEntries (rngL l)) →
      (st.ToSQL (squirrelModel rngL) rng).map SQLResult.text
        = (st2.ToSQL (squirrelModel rngL) rng).map SQLResult.text) := by
  refine ⟨fun hc => ⟨?_, ?_⟩, ?_⟩
  · have hc2 := cmps_shape_of_blot st st2 hb hc
    rw [ToSQL_order_free rng1 rngL1 h1 hL1 st hc, ToSQL_order_free rng2 rngL2 h2 hL2 st2 hc2,
      ← ToSQL_text_blot (fun l => l) (fun l => l) (fun _ => rfl) (fun _ => rfl) st,
      ← ToSQL_text_blot (fun l => l) (fun l => l) (fun _ => rfl) (fun _ => rfl) st2, hb]
  · intro r hr herr
    rw [ToSQL_order_free rng1 rngL1 h1 hL1 st hc] at hr
    have ha := ToSQL_args st hc r hr herr
    refine ⟨ha, ?_⟩
    intro hid
    rw [← ha]
    exact ToSQL_placeholders st hid r hr herr
  · intro rng rngL hrng hrngL
    rw [← ToSQL_text_blot rng rngL hrng hrngL st, ← ToSQL_text_blot rng rngL hrng hrngL st2, hb]

theorem sampleQuery_sorted (a b : CondValue) :
    sortedEntries [("name", a), ("id", b)] = [("id", b), ("name", a)] := by
  have h : ¬ (['n', 'a', 'm', 'e'] ≤ ['i', 'd']) := by decide
  simp [sortedEntries, getSortedKeys, mapGet, List.insertionSort, List.orderedInsert, h]

/-- The sample query renders its keys in ascending order and hands over its
values in the order of the placeholders. -/
theorem sampleQuery_renders :
    Statement.ToSQL (squirrelModel (fun l => l)) (fun l => l)
        (sampleQuery "bob" [Value.int 64 7, Value.int 64 8] "a%")
      = Except.ok sampleQueryResult := by
  have hw : renderWheres (fun l => l)
      [SqPred.cmp CmpOp.Eq [("name", CondValue.scalar (Value.str "bob")),
          ("id", CondValue.seq [Value.int 64 7, Value.int 64 8])],
       SqPred.cmp CmpOp.Like [("remarks", CondValue.scalar (Value.str "a%"))]]
      = Except.ok [("id IN (?,?) AND name = ?", [Value.int 64 7, Value.int 64 8, Value.str "bob"]),
          ("remarks LIKE ?", [Value.str "a%"])] := by
    simp only [renderWheres, predToSql, cmpToSql, sampleQuery_sorted]
    rfl
  have hc : convertConditions (fun l => l)
      (sampleQuery "bob" [Value.int 64 7, Value.int 64 8] "a%").conditions
      = Except.ok [SqPred.cmp CmpOp.Eq [("name", CondValue.scalar (Value.str "bob")),
          ("id", CondValue.seq [Value.int 64 7, Value.int 64 8])],
       SqPred.cmp CmpOp.Like [("remarks", CondValue.scalar (Value.str "a%"))]] := rfl
  have h1 : (sampleQuery "bob" [Value.int 64 7, Value.int 64 8] "a%").table = "codebook" := rfl
  have h2 : (sampleQuery "bob" [Value.int 64 7, Value.int 64 8] "a%").stType
      = StatementType.SelectStatement := rfl
  simp only [Statement.ToSQL, h1, h2, hc, squirrelModel, bind, Except.bind, pure, Except.pure,
    selectToSql, hw]
  rfl

theorem ToSQL_text_independent_of_values_witness :
    (Statement.ToSQL (squirrelModel (fun l => l)) (fun l => l)
        (sampleQuery "bob" [Value.int 64 7, Value.int 64 8] "a%")).map SQLResult.text
      = (Statement.ToSQL (squirrelModel List.reverse) List.reverse
        (sampleQuery "x' OR '1'='1" [Value.int 64 1, Value.int 64 2] "%; --")).map
          SQLResult.text ∧
    Statement.ToSQL (squirrelModel (fun l => l)) (fun l => l)
        (sampleQuery "bob" [Value.int 64 7, Value.int 64 8] "a%")
      = Except.ok sampleQueryResult ∧
    sampleQueryResult.args.getD []
      = (sampleQuery "bob" [Value.int 64 7, Value.int 64 8] "a%").argValues ∧
    countQ sampleQueryResult.sql
      = (sampleQuery "bob" [Value.int 64 7, Value.int 64 8] "a%").argValues.length :=
  have h := ToSQL_text_independent_of_values (fun l => l) (fun l => l) List.reverse List.reverse
    (sampleQuery "bob" [Value.int 64 7, Value.int 64 8] "a%")
    (sampleQuery "x' OR '1'='1" [Value.int 64 1, Value.int 64 2] "%; --")
    (fun l => List.Perm.refl l) (fun l => List.Perm.refl l)
    (fun l => List.reverse_perm l) (fun l => List.reverse_perm l)
    (by decide)
  ⟨(h.1 (by decide)).1, sampleQuery_renders,
    ((h.1 (by decide)).2 sampleQueryResult sampleQuery_renders rfl).1,
    ((h.1 (by decide)).2 sampleQueryResult sampleQuery_renders rfl).2 (by decide)⟩

/-- C18 (counterexample): two statements that differ only in the two values of
a `Like` condition with the keys `a` and `b` render two different SQL texts
when the library ranges over the map in two different orders. -/
theorem ToSQL_like_order_counterexample :
    Statement.blot
        (((({} : Statement).Select []).From "t").Where
          [Expr.cmp { op := CmpOp.Like,
                      entries := [("a", CondValue.scalar (Value.str "x")),
                                  ("b", CondValue.scalar (Value.str "y"))] }])
      = Statement.blot
        (((({} : Statement).Select []).From "t").Where
          [Expr.cmp { op := CmpOp.Like,
                      entries := [("a", CondValue.scalar (Value.str "p")),
                                  ("b", CondValue.scalar (Value.str "q"))] }]) ∧
    (Statement.ToSQL (squirrelModel (fun l => l)) (fun l => l)
        (((({} : Statement).Select []).From "t").Where
          [Expr.cmp { op := CmpOp.Like,
                      entries := [("a", CondValue.scalar (Value.str "x")),
                                  ("b", CondValue.scalar (Value.str "y"))] }])).map
        SQLResult.text
      = Except.ok ("SELECT * FROM t WHERE a LIKE ? AND b LIKE ?", none) ∧
    (Statement.ToSQL (squirrelModel List.reverse) (fun l => l)
        (((({} : Statement).Select []).From "t").Where
          [Expr.cmp { op := CmpOp.Like,
                      entries := [("a", CondValue.scalar (Value.str "p")),
                                  ("b", CondValue.scalar (Value.str "q"))] }])).map
        SQLResult.text
      = Except.ok ("SELECT * FROM t WHERE b LIKE ? AND a LIKE ?", none) := by
  refine ⟨by decide, ?_, ?_⟩
  · rfl
  · rfl

end MiniOrm
